import Mathlib

set_option maxRecDepth 8192

/- Shallow embedding of the work-history aggregation and directory-reconciliation
engine of `src/index.js` (a Slack staffing bot reading Streamtime and Google
Sheets).

Modelling conventions:
- JS strings are Lean `String`s; absent/`undefined` string fields are `""`
  (for the fields in play, `undefined` and `""` behave identically under the
  `||`-defaulting the code applies at every read).
- JS objects and `Map`s keyed by ids or names are insertion-ordered association
  lists with overwrite-in-place assignment (`objSet`/`objGet`).
- All JS number arithmetic in the core is of the shape
  `Math.round(x * 10) / 10` over nonnegative values; we model such quantities
  exactly as natural numbers of tenths (value × 10), with
  `Math.round(num/den) = (2*num + den) / (2*den)` in natural division.
- String helpers (`trim`, `toLowerCase`, lexicographic `<`, NFD) are defined by
  structural recursion so that every definition evaluates inside the kernel.
  `toLowerCase` and NFD are restricted to the Latin letters this development
  exercises; all other characters are fixed points, which is the behaviour the
  engine relies on for ASCII data.
-/

namespace Slik

/-- JS `a || b` for strings: `undefined` and `""` are both falsy. -/
def jsOr (a b : String) : String := if a = "" then b else a

/-- Whitespace recognised by our model of `String.prototype.trim` (ASCII). -/
def isWsChar (c : Char) : Bool := c = ' ' || c = '\t' || c = '\n' || c = '\r'

/-- Drop leading whitespace characters. -/
def dropWs : List Char → List Char
  | [] => []
  | c :: cs => if isWsChar c then dropWs cs else c :: cs

/-- JS `String.prototype.trim` (restricted to ASCII whitespace). -/
def jsTrim (s : String) : String :=
  String.mk ((dropWs (dropWs s.data).reverse).reverse)

/-- JS `String.prototype.toLowerCase`, character-wise, restricted to ASCII
`A`-`Z` and the Latin-1 uppercase letters `À`-`Þ` (except `×`); every other
character is left unchanged. -/
def jsLowerChar (c : Char) : Char :=
  if 65 ≤ c.toNat ∧ c.toNat ≤ 90 then Char.ofNat (c.toNat + 32)
  else if 192 ≤ c.toNat ∧ c.toNat ≤ 222 ∧ c.toNat ≠ 215 then Char.ofNat (c.toNat + 32)
  else c

/-- JS `String.prototype.toLowerCase` on a whole string. -/
def jsToLower (s : String) : String := String.mk (s.data.map jsLowerChar)

/-- Unicode NFD decomposition (`String.prototype.normalize("NFD")`) restricted
to the precomposed Latin letters exercised in this development; every other
character is atomic.  `'́'` is the combining acute accent, `'̃'` the
combining tilde, `'̇'` the combining dot above. -/
def nfdChar (c : Char) : List Char :=
  if c = 'á' then ['a', '́'] else if c = 'Á' then ['A', '́']
  else if c = 'é' then ['e', '́'] else if c = 'É' then ['E', '́']
  else if c = 'í' then ['i', '́'] else if c = 'Í' then ['I', '́']
  else if c = 'ó' then ['o', '́'] else if c = 'Ó' then ['O', '́']
  else if c = 'ú' then ['u', '́'] else if c = 'Ú' then ['U', '́']
  else if c = 'ñ' then ['n', '̃'] else if c = 'Ñ' then ['N', '̃']
  else if c = 'ė' then ['e', '̇'] else if c = 'Ė' then ['E', '̇']
  else [c]

/-- `str.normalize("NFD")` under the restriction of `nfdChar`. -/
def nfdStr (s : String) : String := String.mk (s.data.map nfdChar).flatten

/-- The combining diacritical marks `[̀-ͯ]`. -/
def isCombiningMark (c : Char) : Bool := decide (768 ≤ c.toNat ∧ c.toNat ≤ 879)

/-- `normalizeName` from `src/index.js` line 1614:
`str.normalize("NFD").replace(/[̀-ͯ]/g, "").toLowerCase().trim()`. -/
def normalizeName (s : String) : String :=
  jsTrim (jsToLower (String.mk ((nfdStr s).data.filter (fun c => !isCombiningMark c))))

/-- JS `<` on strings: lexicographic comparison of code units. -/
def jsLtChars : List Char → List Char → Bool
  | [], [] => false
  | [], _ :: _ => true
  | _ :: _, [] => false
  | a :: as, b :: bs =>
    if a.toNat < b.toNat then true
    else if b.toNat < a.toNat then false
    else jsLtChars as bs

/-- JS `a < b` for strings. -/
def jsLt (a b : String) : Bool := jsLtChars a.data b.data

/-- `Math.round(num / den)` for natural `num` and positive natural `den`,
computed exactly: `⌊num/den + 1/2⌋ = (2*num + den) / (2*den)`. -/
def natRound (num den : ℕ) : ℕ := (2 * num + den) / (2 * den)

/-- JS object / `Map` lookup. -/
def objGet {κ α : Type} [DecidableEq κ] (m : List (κ × α)) (k : κ) : Option α :=
  (m.find? (fun p => decide (p.1 = k))).map (fun p => p.2)

/-- JS object / `Map` assignment: overwrite in place if the key is present
(keeping its position, as JS insertion order does), else append. -/
def objSet {κ α : Type} [DecidableEq κ] (m : List (κ × α)) (k : κ) (v : α) : List (κ × α) :=
  if (objGet m k).isSome then m.map (fun p => if p.1 = k then (k, v) else p)
  else m ++ [(k, v)]

/-- `[...new Set(l)]`: deduplicate keeping first occurrences, via a seen set. -/
def dedupSeen {α : Type} [DecidableEq α] (seen : List α) : List α → List α
  | [] => []
  | x :: xs => if x ∈ seen then dedupSeen seen xs else x :: dedupSeen (seen ++ [x]) xs

/-- First-occurrence deduplication (JS `new Set` iteration order). -/
def dedupFirst {α : Type} [DecidableEq α] (l : List α) : List α := dedupSeen [] l

/- ── Streamtime records (the fields the engine reads) ─────────────────── -/

/-- A record of the Streamtime `/users` endpoint.  `roleName` is `u.role?.name`
and `jobTitle` is `u.jobTitle`, both defaulted to `""`; `isActive` is kept as
an `Option` because the code tests `u.isActive === false`, which is false for
`undefined`. -/
structure StUser where
  id : Nat
  firstName : String
  lastName : String
  displayName : String
  roleName : String
  jobTitle : String
  isArchived : Bool
  archived : Bool
  isActive : Option Bool
deriving DecidableEq

/-- A job (search view 7).  `companyName` is `job.company?.name`,
`statusName` is `job.jobStatus?.name`, `users` the ids in `job.users || []`. -/
structure StJob where
  id : Nat
  number : String
  name : String
  companyName : String
  statusName : String
  users : List Nat
deriving DecidableEq

/-- A job item (search view 16). -/
structure StJobItem where
  id : Nat
  name : String
  jobId : Nat
deriving DecidableEq

/-- A job item user (search view 17).  `statusName` is
`jiu.jobItemUserStatus?.name || ""`; dates are ISO `YYYY-MM-DD` strings or
`""`. -/
structure StJobItemUser where
  userId : Nat
  jobItemId : Nat
  totalLoggedMinutes : Nat
  statusName : String
  earliestStartDate : String
  latestEndDate : String
deriving DecidableEq

/- ── Paginated fetch adapter (`streamtimeSearchAll`, lines 132-149) ────── -/

/-- One loop iteration structure of `streamtimeSearchAll`.  `pages offset`
models `streamtimeSearch(searchView, 200, offset)`: `none` stands for a failed
fetch (`!data`) or a payload without `searchResults`; the loop then breaks and
the accumulated list is returned.  The fuel argument only bounds the recursion
depth; `streamtimeSearchAll` below supplies more fuel than any execution can
consume, because each continuing iteration adds at least 200 records and the
loop stops as soon as `maxTotal` records have accumulated. -/
def searchAllGo {α : Type} (pages : Nat → Option (List α)) (maxTotal : Nat) :
    Nat → Nat → List α → List α
  | 0, _, acc => acc
  | Nat.succ fuel, offset, acc =>
    match pages offset with
    | none => acc
    | some rs =>
      let acc2 := acc ++ rs
      if rs.length < 200 then acc2
      else if maxTotal ≤ acc2.length then acc2
      else searchAllGo pages maxTotal fuel (offset + 200) acc2

/-- `streamtimeSearchAll(searchView, maxTotal)`: page size 200, offsets
0, 200, 400, …. -/
def streamtimeSearchAll {α : Type} (pages : Nat → Option (List α)) (maxTotal : Nat) :
    List α :=
  searchAllGo pages maxTotal (maxTotal + 1) 0 []

/- ── Aggregation engine (`fetchStreamtimeJobHistory`, lines 153-333) ───── -/

/-- Entry of `userMap` (id → user info, lines 171-180). -/
structure UserInfo where
  firstName : String
  lastName : String
  fullName : String
  displayName : String
  role : String
deriving DecidableEq

/-- `fullName` as built at line 176: `` `${u.firstName || ""} ${u.lastName || ""}`.trim() ``. -/
def userFullName (u : StUser) : String := jsTrim (u.firstName ++ " " ++ u.lastName)

/-- `u.role?.name || u.jobTitle || ""` (lines 178 and 458). -/
def userRole (u : StUser) : String := jsOr u.roleName u.jobTitle

/-- `userMap` (lines 171-180). -/
def buildUserMap (users : List StUser) : List (Nat × UserInfo) :=
  users.foldl (fun m u => objSet m u.id
    { firstName := u.firstName, lastName := u.lastName, fullName := userFullName u,
      displayName := u.displayName, role := userRole u }) []

/-- Entry of `jobMap` (lines 194-202). -/
structure JobInfo where
  number : String
  name : String
  company : String
  status : String
deriving DecidableEq

/-- `jobMap` (lines 194-202). -/
def buildJobMap (jobs : List StJob) : List (Nat × JobInfo) :=
  jobs.foldl (fun m job => objSet m job.id
    { number := job.number, name := job.name,
      company := jsOr job.companyName "Unknown client", status := job.statusName }) []

/-- Entry of `jobItemMap` (lines 205-211). -/
structure ItemInfo where
  name : String
  jobId : Nat
deriving DecidableEq

/-- `jobItemMap` (lines 205-211). -/
def buildJobItemMap (items : List StJobItem) : List (Nat × ItemInfo) :=
  items.foldl (fun m it => objSet m it.id { name := it.name, jobId := it.jobId }) []

/-- Identity of a mutable `tasks` array object.  The first pass creates one
array per job row (`jobInfo.tasks`) and `{ ...jobInfo }` copies the REFERENCE,
so every person placed on that job row in pass 1 shares the same array
(`TaskRef.shared rowIdx`); the second pass creates a fresh array per
person-and-job (`TaskRef.fresh key jobId`, lines 270-279). -/
inductive TaskRef where
  | shared (rowIdx : Nat)
  | fresh (key : String) (jobId : Nat)
deriving DecidableEq

/-- A per-person job entry (`personJobs[key].jobs[jobId]`).  `totalHoursTenths`
is `totalHours × 10`, exact (see the header comment). -/
structure PersonJob where
  number : String
  name : String
  company : String
  status : String
  tasks : TaskRef
  totalHoursTenths : Nat
deriving DecidableEq

/-- An entry pushed onto `currentJobs` (lines 296-302). -/
structure Booking where
  jobName : String
  task : String
  startDate : String
  endDate : String
  status : String
deriving DecidableEq

/-- A `personJobs` entry before finalization. -/
structure Person where
  fullName : String
  displayName : String
  role : String
  jobs : List (Nat × PersonJob)
  currentJobs : List Booking
deriving DecidableEq

/-- The mutable aggregation state: the `personJobs` object plus the store of
task arrays (indexed by array identity, see `TaskRef`). -/
structure AggState where
  persons : List (String × Person)
  store : List (TaskRef × List String)
deriving DecidableEq

/-- A freshly created person entry (lines 234-240 and 260-266). -/
def mkPerson (user : UserInfo) : Person :=
  { fullName := user.fullName, displayName := user.displayName, role := user.role,
    jobs := [], currentJobs := [] }

/-- The `jobInfo` object built once per job row in the first pass (lines
218-225); its `tasks` field is the one array shared by every shallow copy. -/
def pass1JobInfo (rowIdx : Nat) (job : StJob) : PersonJob :=
  { number := job.number, name := job.name,
    company := jsOr job.companyName "Unknown client", status := job.statusName,
    tasks := TaskRef.shared rowIdx, totalHoursTenths := 0 }

/-- One iteration of the inner loop of the first pass (lines 228-243): resolve
the listed user id, lazily create the person, and assign the shallow copy
`{ ...jobInfo }` (same `tasks` reference) under the job's id. -/
def pass1User (userMap : List (Nat × UserInfo)) (jobId : Nat) (jobInfo : PersonJob)
    (st2 : AggState) (uid : Nat) : AggState :=
  match objGet userMap uid with
  | none => st2
  | some user =>
    let key := jsToLower user.fullName
    let persons := if (objGet st2.persons key).isSome then st2.persons
                   else objSet st2.persons key (mkPerson user)
    let p := (objGet persons key).getD (mkPerson user)
    { persons := objSet persons key { p with jobs := objSet p.jobs jobId jobInfo },
      store := st2.store }

/-- First pass (lines 217-244): for every job row, create the row's task array
in the store, build `jobInfo`, and run the inner loop over the listed users. -/
def pass1Step (userMap : List (Nat × UserInfo)) (st : AggState)
    (idxJob : Nat × StJob) : AggState :=
  let st1 : AggState :=
    { persons := st.persons, store := objSet st.store (TaskRef.shared idxJob.1) [] }
  idxJob.2.users.foldl (pass1User userMap idxJob.2.id (pass1JobInfo idxJob.1 idxJob.2)) st1

/-- The booking currency test (line 295): status `Scheduled`/`In Play` and end
date absent or not before today (JS string comparison of ISO dates). -/
def bookingCond (today : String) (jiu : StJobItemUser) : Bool :=
  (jiu.statusName == "Scheduled" || jiu.statusName == "In Play") &&
    (jiu.latestEndDate == "" || !(jsLt jiu.latestEndDate today))

/-- The booking pushed at lines 296-302. -/
def mkBooking (job : JobInfo) (item : ItemInfo) (jiu : StJobItemUser) : Booking :=
  { jobName := job.number ++ " " ++ job.name, task := item.name,
    startDate := jiu.earliestStartDate, endDate := jiu.latestEndDate,
    status := jiu.statusName }

/-- `Math.round((jiu.totalLoggedMinutes || 0) / 60 * 10)`: the per-assignment
hours, in tenths (line 284). -/
def hoursLoggedTenths (jiu : StJobItemUser) : Nat := natRound (jiu.totalLoggedMinutes * 10) 60

/-- The body of one second-pass iteration once the person `p0` has been
fetched or lazily created (lines 269-303): ensure the job entry (with its
fresh task array when new), push the task name (if nonempty) onto the entry's
task array, add the rounded hours, and push a booking when `bookingCond`
holds.  Returns the updated person and task-array store. -/
def pass2Insert (key : String) (item : ItemInfo) (job : JobInfo) (today : String)
    (jiu : StJobItemUser) (p0 : Person) (store : List (TaskRef × List String)) :
    Person × List (TaskRef × List String) :=
  let freshJob : PersonJob :=
    { number := job.number, name := job.name, company := job.company,
      status := job.status, tasks := TaskRef.fresh key item.jobId,
      totalHoursTenths := 0 }
  let store0 := if (objGet p0.jobs item.jobId).isSome then store
                else objSet store (TaskRef.fresh key item.jobId) []
  let p1 := if (objGet p0.jobs item.jobId).isSome then p0
            else { p0 with jobs := objSet p0.jobs item.jobId freshJob }
  let pj := (objGet p1.jobs item.jobId).getD freshJob
  let store1 := if item.name == "" then store0
                else objSet store0 pj.tasks ((objGet store0 pj.tasks).getD [] ++ [item.name])
  let pj2 : PersonJob := { pj with totalHoursTenths := pj.totalHoursTenths + hoursLoggedTenths jiu }
  let p2 : Person := { p1 with jobs := objSet p1.jobs item.jobId pj2 }
  let p3 := if bookingCond today jiu
            then { p2 with currentJobs := p2.currentJobs ++ [mkBooking job item jiu] }
            else p2
  (p3, store1)

/-- Second pass (lines 247-304): resolve user, job item and job (skipping the
record if any is unknown), lazily create the person, and run `pass2Insert` on
it. -/
def pass2Step (userMap : List (Nat × UserInfo)) (jobMap : List (Nat × JobInfo))
    (jobItemMap : List (Nat × ItemInfo)) (today : String)
    (st : AggState) (jiu : StJobItemUser) : AggState :=
  match objGet userMap jiu.userId with
  | none => st
  | some user =>
    let key := jsToLower user.fullName
    match objGet jobItemMap jiu.jobItemId with
    | none => st
    | some item =>
      match objGet jobMap item.jobId with
      | none => st
      | some job =>
        let persons := if (objGet st.persons key).isSome then st.persons
                       else objSet st.persons key (mkPerson user)
        let p0 := (objGet persons key).getD (mkPerson user)
        let res := pass2Insert key item job today jiu p0 st.store
        { persons := objSet persons key res.1, store := res.2 }

/-- A finalized job entry (`jobList` element): tasks deduplicated, hours
re-rounded (lines 310-313). -/
structure FinalJob where
  number : String
  name : String
  company : String
  status : String
  tasks : List String
  totalHoursTenths : Nat
deriving DecidableEq

/-- A finalized person entry. -/
structure FinalPerson where
  fullName : String
  displayName : String
  role : String
  jobs : List (Nat × FinalJob)
  jobList : List FinalJob
  currentJobs : List Booking
deriving DecidableEq

/-- Lines 310-313: `j.tasks = [...new Set(j.tasks)]` (reading the task array
object) and `j.totalHours = Math.round(j.totalHours * 10) / 10` (in tenths:
`Math.round` of an integer). -/
def finalizeJob (store : List (TaskRef × List String)) (pj : PersonJob) : FinalJob :=
  { number := pj.number, name := pj.name, company := pj.company, status := pj.status,
    tasks := dedupFirst ((objGet store pj.tasks).getD []),
    totalHoursTenths := natRound (pj.totalHoursTenths * 10) 10 }

/-- The `currentJobs` deduplication by `jobName` with a seen set (lines 315-321). -/
def dedupBookings (seen : List String) : List Booking → List Booking
  | [] => []
  | b :: bs =>
    if b.jobName ∈ seen then dedupBookings seen bs
    else b :: dedupBookings (seen ++ [b.jobName]) bs

/-- Finalization of one person (lines 307-322): flatten the jobs map to
`jobList`, deduplicate tasks, round hours, deduplicate current jobs. -/
def finalizePerson (store : List (TaskRef × List String)) (p : Person) : FinalPerson :=
  let jobs := p.jobs.map (fun q => (q.1, finalizeJob store q.2))
  { fullName := p.fullName, displayName := p.displayName, role := p.role,
    jobs := jobs, jobList := jobs.map (fun q => q.2),
    currentJobs := dedupBookings [] p.currentJobs }

/-- The pure core of `fetchStreamtimeJobHistory` (lines 171-324), as a function
of the fetched relations and of today's ISO date: build the three lookup maps,
run the two passes, finalize every person.  The result is the `personJobs`
object as an association list keyed by `user.fullName.toLowerCase()`. -/
def buildPersonJobs (users : List StUser) (jobs : List StJob) (items : List StJobItem)
    (jius : List StJobItemUser) (today : String) : List (String × FinalPerson) :=
  let userMap := buildUserMap users
  let jobMap := buildJobMap jobs
  let jobItemMap := buildJobItemMap items
  let st0 := (jobs.enum).foldl (pass1Step userMap) { persons := [], store := [] }
  let st := jius.foldl (pass2Step userMap jobMap jobItemMap today) st0
  st.persons.map (fun q => (q.1, finalizePerson st.store q.2))

/- ── Directory reconciliation (`syncStreamtimeToTeamSheet`, lines 401-576) ── -/

/-- `rows[i][j] || ""`: a cell of the sheet snapshot (missing row or cell reads
as `""`, as the code's `|| ""` defaulting does). -/
def cellOf (rows : List (List String)) (i j : Nat) : String :=
  ((rows[i]?.getD [])[j]?.getD "")

/-- The archived/inactive test of line 455:
`u.isArchived || u.archived || u.isActive === false`. -/
def activeUserB (u : StUser) : Bool :=
  !(u.isArchived || u.archived || u.isActive == some false)

/-- Step 3 (lines 436-442): normalized name → row index for every data row
with a nonempty trimmed Name cell; later rows overwrite earlier ones
(`Map.set`). -/
def buildExistingNames (rows : List (List String)) (nameCol : Nat) : List (String × Nat) :=
  ((List.range rows.length).drop 1).foldl
    (fun m i =>
      let name := jsTrim (cellOf rows i nameCol)
      if name = "" then m else objSet m (normalizeName name) i) []

/-- The normalized-name set of active Streamtime users (line 459); modelled as
the list of inserted keys, used only through membership. -/
def activeNamesOf (users : List StUser) : List String :=
  users.filterMap (fun u =>
    let fullName := userFullName u
    if fullName = "" then none
    else if !activeUserB u then none
    else some (normalizeName fullName))

/-- The `newUsers` queue (lines 450-463): active users whose normalized name is
not on the sheet, with their name and role. -/
def newUsersOf (users : List StUser) (existing : List (String × Nat)) :
    List (String × String) :=
  users.filterMap (fun u =>
    let fullName := userFullName u
    if fullName = "" then none
    else if !activeUserB u then none
    else if (objGet existing (normalizeName fullName)).isSome then none
    else some (fullName, userRole u))

/-- The `updatedRoles` queue (lines 464-471): for active users already on the
sheet, when a Role column exists and the user's role is nonempty and differs
from the trimmed stored cell, queue `(rowIdx, role)`. -/
def updatedRolesOf (users : List StUser) (existing : List (String × Nat))
    (rows : List (List String)) (roleCol : Option Nat) : List (Nat × String) :=
  users.filterMap (fun u =>
    let fullName := userFullName u
    if fullName = "" then none
    else if !activeUserB u then none
    else
      match objGet existing (normalizeName fullName), roleCol with
      | some rowIdx, some rc =>
        let role := userRole u
        if role = "" then none
        else if jsTrim (cellOf rows rowIdx rc) = role then none
        else some (rowIdx, role)
      | _, _ => none)

/-- The `markedActive` row queue (lines 477-493): sheet rows whose key is in
the active set but whose stored status is not already `"active"`
(case-insensitively, trimmed). -/
def markedActiveOf (existing : List (String × Nat)) (rows : List (List String))
    (statusCol : Nat) (act : List String) : List Nat :=
  existing.filterMap (fun e =>
    if e.1 ∈ act then
      if jsToLower (jsTrim (cellOf rows e.2 statusCol)) = "active" then none else some e.2
    else none)

/-- The `markedInactive` row queue (lines 477-493): sheet rows whose key is not
in the active set and whose stored status is not already `"inactive"`. -/
def markedInactiveOf (existing : List (String × Nat)) (rows : List (List String))
    (statusCol : Nat) (act : List String) : List Nat :=
  existing.filterMap (fun e =>
    if e.1 ∈ act then none
    else
      if jsToLower (jsTrim (cellOf rows e.2 statusCol)) = "inactive" then none else some e.2)

/-- A row appended for a new user (lines 498-504): all columns blank except
Name, Role (when present) and Status (when present, set `"Active"`). -/
def newRowFor (headerLen nameCol : Nat) (roleCol statusCol : Option Nat)
    (name role : String) : List String :=
  let row := (List.replicate headerLen "").set nameCol name
  let row := match roleCol with
    | some rc => row.set rc role
    | none => row
  match statusCol with
  | some sc => row.set sc "Active"
  | none => row

/-- The outcome of one reconciliation computation: the located columns and the
queued writes.  `rolePatches` pairs a 0-based row index with the new role;
`activeRows`/`inactiveRows` are the rows whose Status cell will be set. -/
structure SyncPlan where
  nameCol : Nat
  roleCol : Option Nat
  statusCol : Option Nat
  headerLen : Nat
  newRows : List (List String)
  rolePatches : List (Nat × String)
  activeRows : List Nat
  inactiveRows : List Nat
deriving DecidableEq

/-- The pure diff computation of `syncStreamtimeToTeamSheet` (lines 408-504):
`none` models the early returns for a missing header row or a missing `Name`
column (no writes at all); otherwise the queues of step 3-4b.  Row 0 is the
header row; headers are trimmed and matched case-insensitively. -/
def computeSync (users : List StUser) (rows : List (List String)) : Option SyncPlan :=
  match rows with
  | [] => none
  | headerRow :: _ =>
    let headers := headerRow.map jsTrim
    match headers.findIdx? (fun h => jsToLower h == "name") with
    | none => none
    | some nameCol =>
      let roleCol := headers.findIdx? (fun h => jsToLower h == "role")
      let statusCol := headers.findIdx? (fun h => jsToLower h == "status")
      let existing := buildExistingNames rows nameCol
      let act := activeNamesOf users
      let newUsers := newUsersOf users existing
      some
        { nameCol := nameCol, roleCol := roleCol, statusCol := statusCol,
          headerLen := headers.length,
          newRows := newUsers.map (fun p => newRowFor headers.length nameCol roleCol statusCol p.1 p.2),
          rolePatches := updatedRolesOf users existing rows roleCol,
          activeRows := match statusCol with
            | some sc => markedActiveOf existing rows sc act
            | none => [],
          inactiveRows := match statusCol with
            | some sc => markedInactiveOf existing rows sc act
            | none => [] }

/-- Write `v` into position `j` of a row, padding with blank cells if the row
is shorter (the spreadsheet extends the row). -/
def setCellRow (row : List String) (j : Nat) (v : String) : List String :=
  match row, j with
  | [], 0 => [v]
  | [], Nat.succ j2 => "" :: setCellRow [] j2 v
  | _ :: cs, 0 => v :: cs
  | c :: cs, Nat.succ j2 => c :: setCellRow cs j2 v

/-- A single-cell patch `values.update` on the sheet snapshot (no-op beyond the
last row; every patch the engine queues targets an existing row). -/
def setCell (rows : List (List String)) (i j : Nat) (v : String) : List (List String) :=
  match rows, i with
  | [], _ => []
  | r :: rs, 0 => setCellRow r j v :: rs
  | r :: rs, Nat.succ i2 => r :: setCell rs i2 j v

/-- Apply a computed plan to the sheet snapshot, in the code's order: the
batched append (step 5), then the role patches (step 6), then the Status
patches (step 7, Active then Inactive). -/
def applyPlan (rows : List (List String)) (plan : SyncPlan) : List (List String) :=
  let rows1 := rows ++ plan.newRows
  let rows2 := match plan.roleCol with
    | some rc => plan.rolePatches.foldl (fun r p => setCell r p.1 rc p.2) rows1
    | none => rows1
  match plan.statusCol with
  | some sc =>
    let rows3 := plan.activeRows.foldl (fun r i => setCell r i sc "Active") rows2
    plan.inactiveRows.foldl (fun r i => setCell r i sc "Inactive") rows3
  | none => rows2

/-- The patch part of `applyPlan` alone (steps 6-7), without the appended rows:
used to reason about the appends and the patches separately.  When every patch
targets a row of the original snapshot, `applyPlan rows plan =
applyPatches rows plan ++ plan.newRows`. -/
def applyPatches (rows : List (List String)) (plan : SyncPlan) : List (List String) :=
  let rows2 := match plan.roleCol with
    | some rc => plan.rolePatches.foldl (fun r p => setCell r p.1 rc p.2) rows
    | none => rows
  match plan.statusCol with
  | some sc =>
    let rows3 := plan.activeRows.foldl (fun r i => setCell r i sc "Active") rows2
    plan.inactiveRows.foldl (fun r i => setCell r i sc "Inactive") rows3
  | none => rows2

/-- The trimmed Name cell of one row (what step 3 reads for that row). -/
def rowName (nameCol : Nat) (r : List String) : String := jsTrim (r[nameCol]?.getD "")

/-- `buildExistingNames` restricted to rows appended after an existing prefix:
processes `extra` in order, inserting each nonempty trimmed Name under its
normalized form with the row's absolute index, starting at `base`. -/
def namesFold (nameCol : Nat) : List (List String) → Nat → List (String × Nat) →
    List (String × Nat)
  | [], _, m => m
  | r :: rs, base, m =>
    namesFold nameCol rs (base + 1)
      (if rowName nameCol r = "" then m
       else objSet m (normalizeName (rowName nameCol r)) base)

/-- One spreadsheet write issued by the engine. -/
inductive WriteOp where
  | append (rows : List (List String))
  | patch (rowIdx col : Nat) (value : String)
deriving DecidableEq

/-- The queue of writes a plan performs, in execution order (lines 497-555):
one batched append when `newUsers` is nonempty, then one single-cell patch per
role update, then per reactivation, then per deactivation. -/
def writesOf (plan : SyncPlan) : List WriteOp :=
  (if plan.newRows = [] then [] else [WriteOp.append plan.newRows]) ++
  (match plan.roleCol with
    | some rc => plan.rolePatches.map (fun p => WriteOp.patch p.1 rc p.2)
    | none => []) ++
  (match plan.statusCol with
    | some sc =>
      plan.activeRows.map (fun i => WriteOp.patch i sc "Active") ++
        plan.inactiveRows.map (fun i => WriteOp.patch i sc "Inactive")
    | none => [])

/-- Sequential write execution under a single `try`/`catch` (lines 404 and
573-575): each write either succeeds (`ok w = true`) or throws; the first
throw leaves the loop and the function, so no later queued write is attempted.
Returns the writes actually performed. -/
def runWrites (ok : WriteOp → Bool) : List WriteOp → List WriteOp
  | [] => []
  | w :: ws => if ok w then w :: runWrites ok ws else []

/- ── Specification helpers (used only to state theorems) ──────────────── -/

/-- Total number of records in the first `n` pages. -/
def sumLens {α : Type} (rss : Nat → List α) : Nat → Nat
  | 0 => 0
  | n + 1 => sumLens rss n + (rss n).length

/-- Concatenation of the first `n` pages. -/
def joinUpTo {α : Type} (rss : Nat → List α) : Nat → List α
  | 0 => []
  | n + 1 => joinUpTo rss n ++ rss n

/-- Total hours (in tenths) recorded in the state for a person key and job id;
`0` when the person or the job entry does not exist. -/
def hoursAt (st : AggState) (key : String) (jobId : Nat) : Nat :=
  (((objGet st.persons key).bind (fun p => objGet p.jobs jobId)).map
    (fun pj => pj.totalHoursTenths)).getD 0

/-- The `currentJobs` list recorded in the state for a person key (`[]` when
the person does not exist). -/
def bookingsAt (st : AggState) (key : String) : List Booking :=
  ((objGet st.persons key).map (fun p => p.currentJobs)).getD []

/-- Whether an assignment record resolves (user, job item, job) and contributes
to the person keyed `key` and the job `jobId`. -/
def jiuQual (userMap : List (Nat × UserInfo)) (jobMap : List (Nat × JobInfo))
    (jobItemMap : List (Nat × ItemInfo)) (key : String) (jobId : Nat)
    (jiu : StJobItemUser) : Bool :=
  match objGet userMap jiu.userId with
  | none => false
  | some user =>
    match objGet jobItemMap jiu.jobItemId with
    | none => false
    | some item =>
      match objGet jobMap item.jobId with
      | none => false
      | some _ => jsToLower user.fullName == key && item.jobId == jobId

/-- Whether an assignment record resolves and contributes to the person keyed
`key` (any job). -/
def jiuKeyQual (userMap : List (Nat × UserInfo)) (jobMap : List (Nat × JobInfo))
    (jobItemMap : List (Nat × ItemInfo)) (key : String) (jiu : StJobItemUser) : Bool :=
  match objGet userMap jiu.userId with
  | none => false
  | some user =>
    match objGet jobItemMap jiu.jobItemId with
    | none => false
    | some item =>
      match objGet jobMap item.jobId with
      | none => false
      | some _ => jsToLower user.fullName == key

/-- The booking an assignment record contributes to person `key`, when it
resolves and satisfies `bookingCond`. -/
def jiuBooking (userMap : List (Nat × UserInfo)) (jobMap : List (Nat × JobInfo))
    (jobItemMap : List (Nat × ItemInfo)) (today : String) (key : String)
    (jiu : StJobItemUser) : Option Booking :=
  (objGet userMap jiu.userId).bind (fun user =>
    (objGet jobItemMap jiu.jobItemId).bind (fun item =>
      (objGet jobMap item.jobId).bind (fun job =>
        if jsToLower user.fullName == key && bookingCond today jiu
        then some (mkBooking job item jiu) else none)))

/-- Sum of the per-assignment rounded hours (tenths) contributed to a person
key and job id by a list of assignment records. -/
def hSum (userMap : List (Nat × UserInfo)) (jobMap : List (Nat × JobInfo))
    (jobItemMap : List (Nat × ItemInfo)) (key : String) (jobId : Nat)
    (jius : List StJobItemUser) : Nat :=
  ((jius.filter (jiuQual userMap jobMap jobItemMap key jobId)).map hoursLoggedTenths).sum

/-- The aggregation state after both passes (the folds inside
`buildPersonJobs`, named for the lemmas). -/
def aggStateOf (users : List StUser) (jobs : List StJob) (items : List StJobItem)
    (jius : List StJobItemUser) (today : String) : AggState :=
  jius.foldl
    (pass2Step (buildUserMap users) (buildJobMap jobs) (buildJobItemMap items) today)
    ((jobs.enum).foldl (pass1Step (buildUserMap users)) { persons := [], store := [] })

/- ── Concrete instances used by witnesses and counterexamples ─────────── -/

/-- A page source with exactly one full page at offset 0 and a failing fetch at
every other offset. -/
def onePageSource : Nat → Option (List Nat) :=
  fun o => if o = 0 then some (List.replicate 200 0) else none

/-- A Streamtime user with only id and name set. -/
def exUser (id : Nat) (f l : String) : StUser :=
  { id := id, firstName := f, lastName := l, displayName := "", roleName := "",
    jobTitle := "", isArchived := false, archived := false, isActive := none }

/-- Two users both listed on one job, with one task-level assignment logged by
the second user only (exercises the shared task array of the first pass). -/
def exbUsers : List StUser := [exUser 1 "P" "One", exUser 2 "P" "Two"]

def exbJobs : List StJob :=
  [{ id := 1, number := "001", name := "Launch", companyName := "", statusName := "",
     users := [1, 2] }]

def exbItems : List StJobItem := [{ id := 10, name := "Storyboard", jobId := 1 }]

def exbJius : List StJobItemUser :=
  [{ userId := 2, jobItemId := 10, totalLoggedMinutes := 90, statusName := "Completed",
     earliestStartDate := "", latestEndDate := "" }]

/-- One user with two 2-minute assignments on the same task. -/
def c2users : List StUser := [exUser 1 "Jo" ""]

def c2jobs : List StJob :=
  [{ id := 1, number := "001", name := "X", companyName := "", statusName := "",
     users := [] }]

def c2items : List StJobItem := [{ id := 10, name := "T", jobId := 1 }]

def c2jius : List StJobItemUser :=
  [{ userId := 1, jobItemId := 10, totalLoggedMinutes := 2, statusName := "",
     earliestStartDate := "", latestEndDate := "" },
   { userId := 1, jobItemId := 10, totalLoggedMinutes := 2, statusName := "",
     earliestStartDate := "", latestEndDate := "" }]

def emptyFinalPerson : FinalPerson :=
  { fullName := "", displayName := "", role := "", jobs := [], jobList := [],
    currentJobs := [] }

def emptyFinalJob : FinalJob :=
  { number := "", name := "", company := "", status := "", tasks := [],
    totalHoursTenths := 0 }

/-- The person and job entry the two-minute example produces. -/
def c2person : FinalPerson :=
  (objGet (buildPersonJobs c2users c2jobs c2items c2jius "2026-01-01") "jo").getD
    emptyFinalPerson

def c2job : FinalJob := (objGet c2person.jobs 1).getD emptyFinalJob

/-- Two identities whose names differ only in an accent, both listed on one
job. -/
def c4users : List StUser := [exUser 1 "José" "", exUser 2 "Jose" ""]

def c4job : StJob :=
  { id := 1, number := "001", name := "X", companyName := "", statusName := "",
    users := [1, 2] }

def c4jobs : List StJob := [c4job]

/-- The user-map entry for the first of the accented pair. -/
def c4info : UserInfo :=
  (objGet (buildUserMap c4users) 1).getD
    { firstName := "", lastName := "", fullName := "", displayName := "", role := "" }

/-- One user with a 30-minute, currently scheduled assignment on an unnamed
work item. -/
def c10users : List StUser := [exUser 1 "Jo" ""]

def c10jobs : List StJob :=
  [{ id := 1, number := "001", name := "X", companyName := "", statusName := "",
     users := [] }]

def c10items : List StJobItem := [{ id := 10, name := "", jobId := 1 }]

def c10jius : List StJobItemUser :=
  [{ userId := 1, jobItemId := 10, totalLoggedMinutes := 30, statusName := "Scheduled",
     earliestStartDate := "", latestEndDate := "" }]

/-- The first entry of the shared-task-array example, used by witnesses. -/
def exbEntry : String × FinalPerson :=
  (buildPersonJobs exbUsers exbJobs exbItems exbJius "2026-01-01").headD
    ("", emptyFinalPerson)

/-- Two users whose stored roles are stale, against a two-row sheet: the
reconciliation queues two role patches. -/
def uC3a : StUser :=
  { id := 1, firstName := "Ann", lastName := "Lee", displayName := "", roleName := "CD",
    jobTitle := "", isArchived := false, archived := false, isActive := none }

def uC3b : StUser :=
  { id := 2, firstName := "Bob", lastName := "Ray", displayName := "", roleName := "AD",
    jobTitle := "", isArchived := false, archived := false, isActive := none }

def rowsC3 : List (List String) :=
  [["Name", "Role"], ["Ann Lee", "Designer"], ["Bob Ray", "Designer"]]

def emptyPlan : SyncPlan :=
  { nameCol := 0, roleCol := none, statusCol := none, headerLen := 0, newRows := [],
    rolePatches := [], activeRows := [], inactiveRows := [] }

def c3plan : SyncPlan := (computeSync [uC3a, uC3b] rowsC3).getD emptyPlan

/-- A write executor on which the first queued patch throws. -/
def c3fail (w : WriteOp) : Bool := !(w == WriteOp.patch 1 1 "CD")

/-- A user whose directory role `" X "` is not trim-invariant: the stored cell
always trims to `"X"`, so every run re-queues the same role patch. -/
def uR : StUser :=
  { id := 1, firstName := "A", lastName := "", displayName := "", roleName := " X ",
    jobTitle := "", isArchived := false, archived := false, isActive := none }

def rowsR : List (List String) := [["Name", "Role"], ["A", "X"]]

/-- The job-1 entry of `exbEntry`, together with the job id. -/
def exbEntryJob : Nat × FinalJob :=
  (exbEntry.2.jobs.headD (0, emptyFinalJob))

/- ────────────────────────── Lemma library ────────────────────────── -/

section AssocLemmas

variable {κ α : Type} [DecidableEq κ]

theorem objGet_nil (k : κ) : objGet ([] : List (κ × α)) k = none := rfl

theorem objGet_cons (p : κ × α) (m : List (κ × α)) (k : κ) :
    objGet (p :: m) k = if p.1 = k then some p.2 else objGet m k := by
  by_cases h : p.1 = k <;> simp [objGet, List.find?_cons, h]

theorem objGet_append (m1 m2 : List (κ × α)) (k : κ) :
    objGet (m1 ++ m2) k = (objGet m1 k).orElse (fun _ => objGet m2 k) := by
  induction m1 with
  | nil => simp [objGet_nil, objGet]
  | cons p m ih =>
    by_cases h : p.1 = k <;> simp [objGet_cons, h, ih]

theorem objGet_overwrite (m : List (κ × α)) (k k2 : κ) (v : α) :
    objGet (m.map (fun p => if p.1 = k then (k, v) else p)) k2 =
      if k2 = k then (objGet m k).map (fun _ => v) else objGet m k2 := by
  induction m with
  | nil => by_cases h : k2 = k <;> simp [objGet_nil, h]
  | cons p m ih =>
    by_cases hp : p.1 = k
    · by_cases hk2 : k2 = k
      · subst hk2
        simp [List.map_cons, hp, objGet_cons, ih]
      · have hpk2 : ¬p.1 = k2 := fun hc => hk2 (hc.symm.trans hp)
        have hk : ¬k = k2 := fun hc => hk2 hc.symm
        simp [List.map_cons, hp, objGet_cons, ih, hk2, hpk2, hk]
    · by_cases hpk2 : p.1 = k2
      · have hk2 : ¬k2 = k := fun hc => hp (hpk2.trans hc)
        simp [List.map_cons, hp, objGet_cons, hpk2, hk2]
      · simp [List.map_cons, hp, objGet_cons, hpk2, ih]

theorem objGet_singleton (k k2 : κ) (v : α) :
    objGet [(k, v)] k2 = if k = k2 then some v else none := by
  rw [objGet_cons]; rfl

theorem objGet_objSet (m : List (κ × α)) (k k2 : κ) (v : α) :
    objGet (objSet m k v) k2 = if k2 = k then some v else objGet m k2 := by
  unfold objSet
  by_cases hs : (objGet m k).isSome
  · rw [if_pos hs, objGet_overwrite]
    by_cases hk2 : k2 = k
    · obtain ⟨w, hw⟩ := Option.isSome_iff_exists.mp hs
      simp [hk2, hw]
    · simp [hk2]
  · rw [if_neg hs, objGet_append, objGet_singleton]
    by_cases hk2 : k2 = k
    · subst hk2
      rw [Option.not_isSome_iff_eq_none] at hs
      simp [hs]
    · have : ¬(k = k2) := fun hc => hk2 hc.symm
      rw [if_neg hk2]
      simp only [this, if_false]
      cases objGet m k2 <;> rfl

theorem objGet_objSet_self (m : List (κ × α)) (k : κ) (v : α) :
    objGet (objSet m k v) k = some v := by
  rw [objGet_objSet]; simp

theorem objGet_objSet_ne (m : List (κ × α)) (k k2 : κ) (v : α) (h : k2 ≠ k) :
    objGet (objSet m k v) k2 = objGet m k2 := by
  rw [objGet_objSet]; simp [h]

theorem objGet_some_mem (m : List (κ × α)) (k : κ) (v : α)
    (h : objGet m k = some v) : (k, v) ∈ m := by
  unfold objGet at h
  rw [Option.map_eq_some'] at h
  obtain ⟨p, hp, rfl⟩ := h
  have hmem := List.mem_of_find?_eq_some hp
  have hpred := List.find?_some hp
  simp only [decide_eq_true_eq] at hpred
  subst hpred
  exact hmem

theorem objGet_isSome_of_mem_keys (m : List (κ × α)) (k : κ)
    (h : k ∈ m.map Prod.fst) : (objGet m k).isSome := by
  induction m with
  | nil => simp at h
  | cons p m ih =>
    rw [objGet_cons]
    rcases List.mem_cons.mp h with h1 | h1
    · simp [h1]
    · by_cases hp : p.1 = k
      · simp [hp]
      · simp only [hp, if_false]
        exact ih h1

theorem objSet_keys (m : List (κ × α)) (k : κ) (v : α) :
    (objSet m k v).map Prod.fst =
      if (objGet m k).isSome then m.map Prod.fst else m.map Prod.fst ++ [k] := by
  unfold objSet
  by_cases hs : (objGet m k).isSome
  · rw [if_pos hs, if_pos hs, List.map_map]
    refine List.map_congr_left ?_
    intro p _
    by_cases hp : p.1 = k <;> simp [hp]
  · rw [if_neg hs, if_neg hs]
    simp

theorem objSet_keys_nodup (m : List (κ × α)) (k : κ) (v : α)
    (h : (m.map Prod.fst).Nodup) : ((objSet m k v).map Prod.fst).Nodup := by
  rw [objSet_keys]
  by_cases hs : (objGet m k).isSome
  · rwa [if_pos hs]
  · rw [if_neg hs]
    rw [List.nodup_append]
    refine ⟨h, List.nodup_singleton k, ?_⟩
    intro a ha hb
    simp only [List.mem_singleton] at hb
    exact hs (objGet_isSome_of_mem_keys m k (hb ▸ ha))

theorem mem_objGet_of_nodup (m : List (κ × α)) (k : κ) (v : α)
    (hn : (m.map Prod.fst).Nodup) (h : (k, v) ∈ m) : objGet m k = some v := by
  induction m with
  | nil => simp at h
  | cons p m ih =>
    simp only [List.map_cons, List.nodup_cons] at hn
    rcases List.mem_cons.mp h with h1 | h1
    · subst h1; simp [objGet_cons]
    · rw [objGet_cons]
      have : p.1 ≠ k := by
        intro hc
        exact hn.1 (hc ▸ List.mem_map_of_mem Prod.fst h1)
      simp only [this, if_false]
      exact ih hn.2 h1

theorem mem_keys_of_objGet_isSome (m : List (κ × α)) (k : κ)
    (h : (objGet m k).isSome) : k ∈ m.map Prod.fst := by
  rw [Option.isSome_iff_exists] at h
  obtain ⟨v, hv⟩ := h
  exact List.mem_map_of_mem Prod.fst (objGet_some_mem m k v hv)

theorem objSet_mem (m : List (κ × α)) (k : κ) (v : α) (a : κ × α)
    (h : a ∈ objSet m k v) : a = (k, v) ∨ a ∈ m := by
  unfold objSet at h
  by_cases hs : (objGet m k).isSome
  · rw [if_pos hs, List.mem_map] at h
    obtain ⟨p, hp, hpe⟩ := h
    by_cases hpk : p.1 = k
    · rw [if_pos hpk] at hpe
      exact Or.inl hpe.symm
    · rw [if_neg hpk] at hpe
      exact Or.inr (hpe ▸ hp)
  · rw [if_neg hs] at h
    rcases List.mem_append.mp h with h1 | h1
    · exact Or.inr h1
    · exact Or.inl (List.mem_singleton.mp h1)

theorem objGet_map_value {β : Type} (m : List (κ × α)) (f : α → β) (k : κ) :
    objGet (m.map (fun q => (q.1, f q.2))) k = (objGet m k).map f := by
  induction m with
  | nil => rfl
  | cons p m ih =>
    by_cases hp : p.1 = k <;> simp [objGet_cons, hp, ih]

end AssocLemmas

section FoldLemmas

variable {β σ : Type}

theorem foldl_inv (P : σ → Prop) (f : σ → β → σ) :
    ∀ (l : List β) (s : σ), P s → (∀ s2 b, b ∈ l → P s2 → P (f s2 b)) → P (l.foldl f s) := by
  intro l
  induction l with
  | nil => intro s h _; exact h
  | cons x xs ih =>
    intro s h hstep
    exact ih (f s x) (hstep s x (List.mem_cons_self _ _) h)
      (fun s2 b hb => hstep s2 b (List.mem_cons_of_mem x hb))

theorem foldl_reach (Q : σ → Prop) (f : σ → β → σ) :
    ∀ (l : List β) (s : σ) (b : β), b ∈ l → (∀ s2, Q (f s2 b)) →
      (∀ s2 b2, Q s2 → Q (f s2 b2)) → Q (l.foldl f s) := by
  intro l
  induction l with
  | nil => intro s b hb; simp at hb
  | cons x xs ih =>
    intro s b hb hcreate hmono
    rcases List.mem_cons.mp hb with rfl | hb2
    · exact foldl_inv Q f xs (f s b) (hcreate s) (fun s2 b2 _ => hmono s2 b2)
    · exact ih (f s x) b hb2 hcreate hmono

end FoldLemmas

section DedupLemmas

variable {α : Type} [DecidableEq α]

theorem mem_dedupSeen (seen l : List α) (a : α) :
    a ∈ dedupSeen seen l ↔ a ∈ l ∧ a ∉ seen := by
  induction l generalizing seen with
  | nil => simp [dedupSeen]
  | cons x xs ih =>
    unfold dedupSeen
    by_cases hx : x ∈ seen
    · simp only [hx, if_true, ih]
      constructor
      · rintro ⟨h1, h2⟩
        exact ⟨List.mem_cons_of_mem x h1, h2⟩
      · rintro ⟨h1, h2⟩
        rcases List.mem_cons.mp h1 with rfl | h1
        · exact absurd hx h2
        · exact ⟨h1, h2⟩
    · simp only [hx, if_false, List.mem_cons, ih, List.mem_append, List.mem_singleton]
      constructor
      · rintro (rfl | ⟨h1, h2⟩)
        · exact ⟨Or.inl rfl, hx⟩
        · exact ⟨Or.inr h1, fun hc => h2 (Or.inl hc)⟩
      · rintro ⟨rfl | h1, h2⟩
        · exact Or.inl rfl
        · by_cases hax : a = x
          · exact Or.inl hax
          · exact Or.inr ⟨h1, fun hc => (by tauto : False)⟩

theorem nodup_dedupSeen (seen l : List α) : (dedupSeen seen l).Nodup := by
  induction l generalizing seen with
  | nil => exact List.nodup_nil
  | cons x xs ih =>
    unfold dedupSeen
    by_cases hx : x ∈ seen
    · simp only [hx, if_true]; exact ih seen
    · simp only [hx, if_false, List.nodup_cons]
      refine ⟨fun hc => ?_, ih (seen ++ [x])⟩
      rw [mem_dedupSeen] at hc
      exact hc.2 (by simp)

theorem nodup_dedupFirst (l : List α) : (dedupFirst l).Nodup := nodup_dedupSeen [] l

theorem mem_dedupFirst (l : List α) (a : α) : a ∈ dedupFirst l ↔ a ∈ l := by
  rw [dedupFirst, mem_dedupSeen]; simp

end DedupLemmas

theorem dedupBookings_cons (seen : List String) (x : Booking) (xs : List Booking) :
    dedupBookings seen (x :: xs) =
      if x.jobName ∈ seen then dedupBookings seen xs
      else x :: dedupBookings (seen ++ [x.jobName]) xs := rfl

theorem dedupBookings_label_mem (l : List Booking) (L : String) :
    ∀ seen, (∃ b ∈ dedupBookings seen l, b.jobName = L) ↔
      (∃ b ∈ l, b.jobName = L) ∧ L ∉ seen := by
  induction l with
  | nil => intro seen; simp [dedupBookings]
  | cons x xs ih =>
    intro seen
    rw [dedupBookings_cons]
    by_cases hx : x.jobName ∈ seen
    · rw [if_pos hx, ih seen]
      constructor
      · rintro ⟨⟨b, hb, rfl⟩, h2⟩
        exact ⟨⟨b, List.mem_cons_of_mem x hb, rfl⟩, h2⟩
      · rintro ⟨⟨b, hb, rfl⟩, h2⟩
        rcases List.mem_cons.mp hb with rfl | hb2
        · exact absurd hx h2
        · exact ⟨⟨b, hb2, rfl⟩, h2⟩
    · rw [if_neg hx]
      constructor
      · rintro ⟨b, hb, rfl⟩
        rcases List.mem_cons.mp hb with rfl | hb2
        · exact ⟨⟨b, List.mem_cons_self _ _, rfl⟩, hx⟩
        · obtain ⟨⟨b2, hb2m, hb2l⟩, h2⟩ := (ih (seen ++ [x.jobName])).mp ⟨b, hb2, rfl⟩
          exact ⟨⟨b2, List.mem_cons_of_mem x hb2m, hb2l⟩, fun hc => h2 (by simp [hc])⟩
      · rintro ⟨⟨b, hb, rfl⟩, h2⟩
        rcases List.mem_cons.mp hb with rfl | hb2
        · exact ⟨b, List.mem_cons_self _ _, rfl⟩
        · by_cases hbx : b.jobName = x.jobName
          · exact ⟨x, List.mem_cons_self _ _, hbx.symm⟩
          · obtain ⟨b2, hb2m, hb2l⟩ := (ih (seen ++ [x.jobName])).mpr
              ⟨⟨b, hb2, rfl⟩, by simp [h2, hbx]⟩
            exact ⟨b2, List.mem_cons_of_mem x hb2m, hb2l⟩

theorem dedupBookings_not_mem_seen (l : List Booking) :
    ∀ seen, ∀ b ∈ dedupBookings seen l, b.jobName ∉ seen := by
  induction l with
  | nil => intro seen b hb; simp [dedupBookings] at hb
  | cons x xs ih =>
    intro seen b hb
    rw [dedupBookings_cons] at hb
    by_cases hx : x.jobName ∈ seen
    · rw [if_pos hx] at hb
      exact ih seen b hb
    · rw [if_neg hx] at hb
      rcases List.mem_cons.mp hb with rfl | hb2
      · exact hx
      · intro hc
        exact ih (seen ++ [x.jobName]) b hb2 (by simp [hc])

theorem dedupBookings_labels_nodup (l : List Booking) :
    ∀ seen, ((dedupBookings seen l).map (fun b => b.jobName)).Nodup := by
  induction l with
  | nil => intro seen; simp [dedupBookings]
  | cons x xs ih =>
    intro seen
    rw [dedupBookings_cons]
    by_cases hx : x.jobName ∈ seen
    · rw [if_pos hx]; exact ih seen
    · rw [if_neg hx]
      simp only [List.map_cons, List.nodup_cons]
      refine ⟨fun hc => ?_, ih (seen ++ [x.jobName])⟩
      simp only [List.mem_map] at hc
      obtain ⟨b, hb, hlb⟩ := hc
      exact dedupBookings_not_mem_seen xs (seen ++ [x.jobName]) b hb (by simp [hlb])

/- ── Paginated fetch adapter lemmas ───────────────────────────────────── -/

theorem sumLens_shift {α : Type} (rss : Nat → List α) (n : Nat) :
    sumLens rss (n + 1) = (rss 0).length + sumLens (fun i => rss (i + 1)) n := by
  induction n with
  | zero => simp [sumLens]
  | succ n ih =>
    rw [show sumLens rss (n + 1 + 1) = sumLens rss (n + 1) + (rss (n + 1)).length from rfl,
      ih,
      show sumLens (fun i => rss (i + 1)) (n + 1) =
        sumLens (fun i => rss (i + 1)) n + (rss (n + 1)).length from rfl]
    omega

theorem joinUpTo_shift {α : Type} (rss : Nat → List α) (n : Nat) :
    joinUpTo rss (n + 1) = rss 0 ++ joinUpTo (fun i => rss (i + 1)) n := by
  induction n with
  | zero => simp [joinUpTo]
  | succ n ih =>
    show joinUpTo rss (n + 1) ++ rss (n + 1) = _
    rw [ih]
    simp [joinUpTo, List.append_assoc]

theorem sumLens_lower {α : Type} (rss : Nat → List α) (n : Nat)
    (h : ∀ i, i < n → 200 ≤ (rss i).length) : n * 200 ≤ sumLens rss n := by
  induction n with
  | zero => simp [sumLens]
  | succ n ih =>
    have h1 := ih (fun i hi => h i (Nat.lt_succ_of_lt hi))
    have h2 := h n (Nat.lt_succ_self n)
    simp only [sumLens]
    omega

theorem searchAllGo_succ_none {α : Type} (pages : Nat → Option (List α))
    (maxTotal f offset : Nat) (acc : List α) (hnone : pages offset = none) :
    searchAllGo pages maxTotal (f + 1) offset acc = acc := by
  unfold searchAllGo
  rw [hnone]

theorem searchAllGo_succ_some {α : Type} (pages : Nat → Option (List α))
    (maxTotal f offset : Nat) (acc rs : List α) (hsome : pages offset = some rs) :
    searchAllGo pages maxTotal (f + 1) offset acc =
      (if rs.length < 200 then acc ++ rs
       else if maxTotal ≤ (acc ++ rs).length then acc ++ rs
       else searchAllGo pages maxTotal f (offset + 200) (acc ++ rs)) := by
  simp only [searchAllGo]
  rw [hsome]

theorem searchAllGo_spec {α : Type} (pages : Nat → Option (List α)) (maxTotal : Nat) :
    ∀ (n : Nat) (rss : Nat → List α) (fuel offset : Nat) (acc : List α),
      n < fuel →
      (∀ i, i < n → pages (offset + i * 200) = some (rss i)) →
      (∀ i, i < n → 200 ≤ (rss i).length) →
      (∀ i, i < n → acc.length + sumLens rss (i + 1) < maxTotal) →
      ((pages (offset + n * 200) = none →
          searchAllGo pages maxTotal fuel offset acc = acc ++ joinUpTo rss n) ∧
        (∀ rs, pages (offset + n * 200) = some rs → rs.length < 200 →
          searchAllGo pages maxTotal fuel offset acc = acc ++ (joinUpTo rss n ++ rs)) ∧
        (∀ rs, pages (offset + n * 200) = some rs → 200 ≤ rs.length →
          maxTotal ≤ acc.length + sumLens rss n + rs.length →
          searchAllGo pages maxTotal fuel offset acc = acc ++ (joinUpTo rss n ++ rs))) := by
  intro n
  induction n with
  | zero =>
    intro rss fuel offset acc hfuel _ _ _
    obtain ⟨f, rfl⟩ : ∃ f, fuel = f + 1 := ⟨fuel - 1, by omega⟩
    simp only [Nat.zero_mul, Nat.add_zero]
    refine ⟨?_, ?_, ?_⟩
    · intro hnone
      rw [searchAllGo_succ_none pages maxTotal f offset acc hnone]
      simp [joinUpTo]
    · intro rs hsome hshort
      rw [searchAllGo_succ_some pages maxTotal f offset acc rs hsome, if_pos hshort]
      simp [joinUpTo]
    · intro rs hsome hlong hmax
      rw [searchAllGo_succ_some pages maxTotal f offset acc rs hsome,
        if_neg (by omega : ¬rs.length < 200),
        if_pos (by simp only [List.length_append, sumLens] at hmax ⊢; omega)]
      simp [joinUpTo]
  | succ n ih =>
    intro rss fuel offset acc hfuel hfull hlen hcont
    obtain ⟨f, rfl⟩ : ∃ f, fuel = f + 1 := ⟨fuel - 1, by omega⟩
    have h0 : pages offset = some (rss 0) := by
      have := hfull 0 (Nat.succ_pos n)
      simpa using this
    have h0len : 200 ≤ (rss 0).length := hlen 0 (Nat.succ_pos n)
    have h0cont : acc.length + sumLens rss 1 < maxTotal := hcont 0 (Nat.succ_pos n)
    have hstep : searchAllGo pages maxTotal (f + 1) offset acc =
        searchAllGo pages maxTotal f (offset + 200) (acc ++ rss 0) := by
      rw [searchAllGo_succ_some pages maxTotal f offset acc (rss 0) h0,
        if_neg (by omega : ¬(rss 0).length < 200),
        if_neg (by simp only [List.length_append, sumLens] at h0cont ⊢; omega)]
    have harg : ∀ i, (offset + 200) + i * 200 = offset + (i + 1) * 200 := by
      intro i; ring
    have ihspec := ih (fun i => rss (i + 1)) f (offset + 200) (acc ++ rss 0)
      (by omega)
      (by
        intro i hi
        rw [harg i]
        exact hfull (i + 1) (by omega))
      (by
        intro i hi
        exact hlen (i + 1) (by omega))
      (by
        intro i hi
        have := hcont (i + 1) (by omega)
        rw [sumLens_shift] at this
        simp only [List.length_append]
        omega)
    rw [hstep]
    refine ⟨?_, ?_, ?_⟩
    · intro hnone
      rw [harg n] at ihspec
      rw [ihspec.1 hnone, joinUpTo_shift]
      simp [List.append_assoc]
    · intro rs hsome hshort
      rw [harg n] at ihspec
      rw [ihspec.2.1 rs hsome hshort, joinUpTo_shift]
      simp [List.append_assoc]
    · intro rs hsome hlong hmax
      rw [harg n] at ihspec
      rw [ihspec.2.2 rs hsome hlong
        (by
          rw [sumLens_shift] at hmax
          simp only [List.length_append]
          omega), joinUpTo_shift]
      simp [List.append_assoc]

/-- C5: the paginated fetch adapter `streamtimeSearchAll` requests pages at the
increasing offsets 0, 200, 400, … and stops exactly when a page returns fewer
records than the page size (200) or the accumulated count reaches the maximum
total; on an upstream failure (unreachable endpoint or malformed/absent
payload, modelled as `pages offset = none`) it stops paging and returns the
records accumulated so far rather than failing all-or-nothing.  Here the first
`n` pages are full pages that keep the accumulated count below `maxTotal`, and
the three conjuncts settle the three possible behaviours at page `n`. -/
theorem streamtimeSearchAll_pagination_spec {α : Type} (pages : Nat → Option (List α))
    (maxTotal n : Nat) (rss : Nat → List α)
    (hfull : ∀ i, i < n → pages (i * 200) = some (rss i))
    (hlen : ∀ i, i < n → 200 ≤ (rss i).length)
    (hcont : ∀ i, i < n → sumLens rss (i + 1) < maxTotal) :
    (pages (n * 200) = none → streamtimeSearchAll pages maxTotal = joinUpTo rss n) ∧
    (∀ rs, pages (n * 200) = some rs → rs.length < 200 →
      streamtimeSearchAll pages maxTotal = joinUpTo rss n ++ rs) ∧
    (∀ rs, pages (n * 200) = some rs → 200 ≤ rs.length →
      maxTotal ≤ sumLens rss n + rs.length →
      streamtimeSearchAll pages maxTotal = joinUpTo rss n ++ rs) := by
  have hnle : n ≤ maxTotal := by
    cases n with
    | zero => omega
    | succ m =>
      have h1 := hcont m (Nat.lt_succ_self m)
      have h2 := sumLens_lower rss (m + 1) hlen
      have h3 : m + 1 ≤ (m + 1) * 200 :=
        le_trans (by omega) (Nat.mul_le_mul_left (m + 1) (by omega : 1 ≤ 200))
      omega
  have hspec := searchAllGo_spec pages maxTotal n rss (maxTotal + 1) 0 []
    (by omega)
    (by intro i hi; simpa using hfull i hi)
    hlen
    (by intro i hi; simpa using hcont i hi)
  rw [show (0 : Nat) + n * 200 = n * 200 from by omega] at hspec
  refine ⟨?_, ?_, ?_⟩
  · intro hnone
    have := hspec.1 hnone
    simpa [streamtimeSearchAll] using this
  · intro rs hsome hshort
    have := hspec.2.1 rs hsome hshort
    simpa [streamtimeSearchAll] using this
  · intro rs hsome hlong hmax
    have := hspec.2.2 rs hsome hlong (by simpa using hmax)
    simpa [streamtimeSearchAll] using this

/-- C5 witness: a source with one full page at offset 0 and a failure at offset
200; the adapter returns exactly the 200 accumulated records. -/
theorem streamtimeSearchAll_pagination_spec_witness :
    (∀ i, i < 1 → onePageSource (i * 200) = some (List.replicate 200 0)) ∧
    (∀ i, i < 1 → 200 ≤ (List.replicate 200 (0 : Nat)).length) ∧
    (∀ i, i < 1 → sumLens (fun _ => List.replicate 200 (0 : Nat)) (i + 1) < 2000) ∧
    onePageSource (1 * 200) = none ∧
    streamtimeSearchAll onePageSource 2000 = List.replicate 200 0 := by
  refine ⟨by decide, by decide, by decide, by decide, ?_⟩
  have h := (streamtimeSearchAll_pagination_spec onePageSource 2000 1
    (fun _ => List.replicate 200 0) (by decide) (by decide) (by decide)).1 (by decide)
  simpa [joinUpTo] using h

/- ── Aggregation engine lemmas ────────────────────────────────────────── -/

theorem pass2Insert_jobs_ne (key : String) (item : ItemInfo) (job : JobInfo)
    (today : String) (jiu : StJobItemUser) (p0 : Person)
    (store : List (TaskRef × List String)) (jobId : Nat) (hne : jobId ≠ item.jobId) :
    objGet (pass2Insert key item job today jiu p0 store).1.jobs jobId =
      objGet p0.jobs jobId := by
  unfold pass2Insert
  rcases hE : objGet p0.jobs item.jobId with _ | pj <;>
    simp [hE, apply_ite Person.jobs, ite_self, objGet_objSet_ne _ _ _ _ hne]

theorem pass2Insert_jobs_self_of_some (key : String) (item : ItemInfo) (job : JobInfo)
    (today : String) (jiu : StJobItemUser) (p0 : Person)
    (store : List (TaskRef × List String)) (pj : PersonJob)
    (hE : objGet p0.jobs item.jobId = some pj) :
    objGet (pass2Insert key item job today jiu p0 store).1.jobs item.jobId =
      some { pj with totalHoursTenths := pj.totalHoursTenths + hoursLoggedTenths jiu } := by
  unfold pass2Insert
  simp [hE, apply_ite Person.jobs, ite_self, objGet_objSet_self]

theorem pass2Insert_jobs_self_of_none (key : String) (item : ItemInfo) (job : JobInfo)
    (today : String) (jiu : StJobItemUser) (p0 : Person)
    (store : List (TaskRef × List String))
    (hE : objGet p0.jobs item.jobId = none) :
    objGet (pass2Insert key item job today jiu p0 store).1.jobs item.jobId =
      some { number := job.number, name := job.name, company := job.company,
             status := job.status, tasks := TaskRef.fresh key item.jobId,
             totalHoursTenths := hoursLoggedTenths jiu } := by
  unfold pass2Insert
  simp [hE, apply_ite Person.jobs, ite_self, objGet_objSet_self]

theorem pass2Insert_currentJobs (key : String) (item : ItemInfo) (job : JobInfo)
    (today : String) (jiu : StJobItemUser) (p0 : Person)
    (store : List (TaskRef × List String)) :
    (pass2Insert key item job today jiu p0 store).1.currentJobs =
      p0.currentJobs ++
        (if bookingCond today jiu then [mkBooking job item jiu] else []) := by
  unfold pass2Insert
  by_cases hb : bookingCond today jiu <;>
    rcases hE : objGet p0.jobs item.jobId with _ | pj <;>
      simp [hE, hb]

theorem pass2Insert_jobs_keys_nodup (key : String) (item : ItemInfo) (job : JobInfo)
    (today : String) (jiu : StJobItemUser) (p0 : Person)
    (store : List (TaskRef × List String))
    (h : (p0.jobs.map Prod.fst).Nodup) :
    ((pass2Insert key item job today jiu p0 store).1.jobs.map Prod.fst).Nodup := by
  unfold pass2Insert
  rcases hE : objGet p0.jobs item.jobId with _ | pj <;>
    by_cases hb : bookingCond today jiu <;>
      simp [hE, hb, objSet_keys_nodup, objSet_keys_nodup _ _ _ h]

theorem pass2Insert_store_no_empty (key : String) (item : ItemInfo) (job : JobInfo)
    (today : String) (jiu : StJobItemUser) (p0 : Person)
    (store : List (TaskRef × List String))
    (hinv : ∀ r l, objGet store r = some l → "" ∉ l) :
    ∀ r l, objGet (pass2Insert key item job today jiu p0 store).2 r = some l → "" ∉ l := by
  intro r l hr
  unfold pass2Insert at hr
  rcases hE : objGet p0.jobs item.jobId with _ | pj
  · by_cases hn : item.name == ""
    · simp only [hE, Option.isSome_none, Bool.false_eq_true, if_false, hn, if_true] at hr
      rw [objGet_objSet] at hr
      by_cases hrf : r = TaskRef.fresh key item.jobId
      · rw [if_pos hrf] at hr; cases hr; simp
      · rw [if_neg hrf] at hr; exact hinv r l hr
    · simp only [hE, Option.isSome_none, Bool.false_eq_true, if_false, hn,
        objGet_objSet_self, Option.getD_some] at hr
      rw [objGet_objSet] at hr
      by_cases hrf : r = TaskRef.fresh key item.jobId
      · rw [if_pos hrf] at hr
        cases hr
        intro hc
        simp only [List.nil_append, List.mem_singleton] at hc
        rw [← hc] at hn
        simp at hn
      · rw [if_neg hrf, objGet_objSet_ne _ _ _ _ hrf] at hr
        exact hinv r l hr
  · by_cases hn : item.name == ""
    · simp only [hE, Option.isSome_some, if_true, hn, Option.getD_some] at hr
      exact hinv r l hr
    · simp only [hE, Option.isSome_some, if_true, hn, Bool.false_eq_true, if_false,
        Option.getD_some] at hr
      rw [objGet_objSet] at hr
      by_cases hrt : r = pj.tasks
      · rw [if_pos hrt] at hr
        cases hr
        intro hc
        rcases List.mem_append.mp hc with hc1 | hc1
        · rcases hoG : objGet store pj.tasks with _ | l0
          · rw [hoG] at hc1; simp at hc1
          · rw [hoG] at hc1
            exact hinv _ l0 hoG hc1
        · simp only [List.mem_singleton] at hc1
          rw [← hc1] at hn
          simp at hn
      · rw [if_neg hrt] at hr
        exact hinv r l hr

theorem pass2Step_hoursAt (U : List (Nat × UserInfo)) (J : List (Nat × JobInfo))
    (I : List (Nat × ItemInfo)) (today : String) (st : AggState) (jiu : StJobItemUser)
    (key : String) (jobId : Nat) :
    hoursAt (pass2Step U J I today st jiu) key jobId =
      hoursAt st key jobId +
        (if jiuQual U J I key jobId jiu then hoursLoggedTenths jiu else 0) := by
  cases hU : objGet U jiu.userId with
  | none => simp [pass2Step, jiuQual, hU]
  | some user =>
    cases hI : objGet I jiu.jobItemId with
    | none => simp [pass2Step, jiuQual, hU, hI]
    | some item =>
      cases hJ : objGet J item.jobId with
      | none => simp [pass2Step, jiuQual, hU, hI, hJ]
      | some job =>
        simp only [pass2Step, hU, hI, hJ, jiuQual]
        by_cases hkey : key = jsToLower user.fullName
        · rcases hP : objGet st.persons (jsToLower user.fullName) with _ | p
          · -- person lazily created with empty jobs
            simp only [hP, Option.isSome_none, Option.isSome_some, Bool.false_eq_true,
              if_false, objGet_objSet_self, Option.getD_some, hoursAt, objGet_objSet,
              hkey, if_true, Option.some_bind]
            by_cases hjob : jobId = item.jobId
            · rw [hjob,
                pass2Insert_jobs_self_of_none _ _ _ _ _ _ _ (by simp [mkPerson, objGet_nil])]
              simp [beq_iff_eq, mkPerson, objGet_nil, hjob]
            · rw [pass2Insert_jobs_ne _ _ _ _ _ _ _ _ hjob]
              have hnb : ¬(item.jobId == jobId) = true := by
                simp [beq_iff_eq]; exact fun hc => hjob hc.symm
              simp [mkPerson, objGet_nil, hnb]
          · simp only [hP, Option.isSome_some, if_true, Option.getD_some, hoursAt,
              objGet_objSet, hkey, Option.some_bind, Option.map_some', eq_self_iff_true]
            by_cases hjob : jobId = item.jobId
            · rw [hjob]
              rcases hE : objGet p.jobs item.jobId with _ | pj
              · rw [pass2Insert_jobs_self_of_none _ _ _ _ _ _ _ hE]
                simp [beq_iff_eq, hE, hjob]
              · rw [pass2Insert_jobs_self_of_some _ _ _ _ _ _ _ _ hE]
                simp [beq_iff_eq, hE, hjob]
            · rw [pass2Insert_jobs_ne _ _ _ _ _ _ _ _ hjob]
              have hnb : ¬(item.jobId == jobId) = true := by
                simp [beq_iff_eq]; exact fun hc => hjob hc.symm
              simp [hnb]
        · -- a different person: untouched
          have hq : ¬(jsToLower user.fullName == key) = true := by
            simp [beq_iff_eq]; exact fun hc => hkey hc.symm
          by_cases hP : (objGet st.persons (jsToLower user.fullName)).isSome <;>
            simp [hP, hoursAt, objGet_objSet, hkey, hq]

theorem pass2Step_bookingsAt (U : List (Nat × UserInfo)) (J : List (Nat × JobInfo))
    (I : List (Nat × ItemInfo)) (today : String) (st : AggState) (jiu : StJobItemUser)
    (key : String) :
    bookingsAt (pass2Step U J I today st jiu) key =
      bookingsAt st key ++ (jiuBooking U J I today key jiu).toList := by
  cases hU : objGet U jiu.userId with
  | none => simp [pass2Step, jiuBooking, hU]
  | some user =>
    cases hI : objGet I jiu.jobItemId with
    | none => simp [pass2Step, jiuBooking, hU, hI]
    | some item =>
      cases hJ : objGet J item.jobId with
      | none => simp [pass2Step, jiuBooking, hU, hI, hJ]
      | some job =>
        simp only [pass2Step, hU, hI, hJ, jiuBooking]
        by_cases hkey : key = jsToLower user.fullName
        · rcases hP : objGet st.persons (jsToLower user.fullName) with _ | p
          · simp only [hP, Option.isSome_none, Option.isSome_some, Bool.false_eq_true,
              if_false, objGet_objSet_self, Option.getD_some, bookingsAt, objGet_objSet,
              hkey, if_true, Option.map_some', eq_self_iff_true]
            rw [pass2Insert_currentJobs]
            by_cases hb : bookingCond today jiu <;>
              simp [hb, mkPerson, beq_iff_eq, hU, hI, hJ]
          · simp only [hP, Option.isSome_some, if_true, Option.getD_some, bookingsAt,
              objGet_objSet, hkey, Option.map_some', eq_self_iff_true, if_true]
            rw [pass2Insert_currentJobs]
            by_cases hb : bookingCond today jiu <;>
              simp [hb, hP, beq_iff_eq, hU, hI, hJ]
        · have hq : ¬(jsToLower user.fullName == key) = true := by
            simp [beq_iff_eq]; exact fun hc => hkey hc.symm
          have hq2 : ¬(jsToLower user.fullName = key) := fun hc => hkey hc.symm
          by_cases hP : (objGet st.persons (jsToLower user.fullName)).isSome <;>
            simp [hP, bookingsAt, objGet_objSet, hkey, hq, hq2, hU, hI, hJ]

theorem pass2Step_store_no_empty (U : List (Nat × UserInfo)) (J : List (Nat × JobInfo))
    (I : List (Nat × ItemInfo)) (today : String) (st : AggState) (jiu : StJobItemUser)
    (hinv : ∀ r l, objGet st.store r = some l → "" ∉ l) :
    ∀ r l, objGet (pass2Step U J I today st jiu).store r = some l → "" ∉ l := by
  cases hU : objGet U jiu.userId with
  | none => simpa [pass2Step, hU] using hinv
  | some user =>
    cases hI : objGet I jiu.jobItemId with
    | none => simpa [pass2Step, hU, hI] using hinv
    | some item =>
      cases hJ : objGet J item.jobId with
      | none => simpa [pass2Step, hU, hI, hJ] using hinv
      | some job =>
        simp only [pass2Step, hU, hI, hJ]
        exact pass2Insert_store_no_empty _ _ _ _ _ _ _ hinv

theorem pass2Step_persons_keys_nodup (U : List (Nat × UserInfo))
    (J : List (Nat × JobInfo)) (I : List (Nat × ItemInfo)) (today : String)
    (st : AggState) (jiu : StJobItemUser)
    (h : (st.persons.map Prod.fst).Nodup) :
    ((pass2Step U J I today st jiu).persons.map Prod.fst).Nodup := by
  cases hU : objGet U jiu.userId with
  | none => simpa [pass2Step, hU] using h
  | some user =>
    cases hI : objGet I jiu.jobItemId with
    | none => simpa [pass2Step, hU, hI] using h
    | some item =>
      cases hJ : objGet J item.jobId with
      | none => simpa [pass2Step, hU, hI, hJ] using h
      | some job =>
        simp only [pass2Step, hU, hI, hJ]
        by_cases hP : (objGet st.persons (jsToLower user.fullName)).isSome
        · simp only [hP, if_true]
          exact objSet_keys_nodup _ _ _ h
        · simp only [hP, Bool.false_eq_true, if_false]
          exact objSet_keys_nodup _ _ _ (objSet_keys_nodup _ _ _ h)

theorem pass2Step_persons_mono (U : List (Nat × UserInfo)) (J : List (Nat × JobInfo))
    (I : List (Nat × ItemInfo)) (today : String) (st : AggState) (jiu : StJobItemUser)
    (key : String) (h : (objGet st.persons key).isSome) :
    (objGet (pass2Step U J I today st jiu).persons key).isSome := by
  cases hU : objGet U jiu.userId with
  | none => simpa [pass2Step, hU] using h
  | some user =>
    cases hI : objGet I jiu.jobItemId with
    | none => simpa [pass2Step, hU, hI] using h
    | some item =>
      cases hJ : objGet J item.jobId with
      | none => simpa [pass2Step, hU, hI, hJ] using h
      | some job =>
        simp only [pass2Step, hU, hI, hJ]
        by_cases hkey : key = jsToLower user.fullName
        · simp [objGet_objSet, hkey]
        · rw [objGet_objSet_ne _ _ _ _ hkey]
          by_cases hP : (objGet st.persons (jsToLower user.fullName)).isSome
          · simpa [hP] using h
          · simp only [hP, Bool.false_eq_true, if_false]
            rw [objGet_objSet_ne _ _ _ _ hkey]
            exact h

theorem pass2Step_person_created (U : List (Nat × UserInfo)) (J : List (Nat × JobInfo))
    (I : List (Nat × ItemInfo)) (today : String) (st : AggState) (jiu : StJobItemUser)
    (key : String) (h : jiuKeyQual U J I key jiu = true) :
    (objGet (pass2Step U J I today st jiu).persons key).isSome := by
  cases hU : objGet U jiu.userId with
  | none => simp [jiuKeyQual, hU] at h
  | some user =>
    cases hI : objGet I jiu.jobItemId with
    | none => simp [jiuKeyQual, hU, hI] at h
    | some item =>
      cases hJ : objGet J item.jobId with
      | none => simp [jiuKeyQual, hU, hI, hJ] at h
      | some job =>
        have hkey : jsToLower user.fullName = key := by
          simpa [jiuKeyQual, hU, hI, hJ, beq_iff_eq] using h
        simp only [pass2Step, hU, hI, hJ]
        simp [objGet_objSet, hkey]

theorem pass2Step_jobs_nodup (U : List (Nat × UserInfo)) (J : List (Nat × JobInfo))
    (I : List (Nat × ItemInfo)) (today : String) (st : AggState) (jiu : StJobItemUser)
    (h : ∀ q ∈ st.persons, ((q.2 : Person).jobs.map Prod.fst).Nodup) :
    ∀ q ∈ (pass2Step U J I today st jiu).persons, (q.2.jobs.map Prod.fst).Nodup := by
  cases hU : objGet U jiu.userId with
  | none => simpa [pass2Step, hU] using h
  | some user =>
    cases hI : objGet I jiu.jobItemId with
    | none => simpa [pass2Step, hU, hI] using h
    | some item =>
      cases hJ : objGet J item.jobId with
      | none => simpa [pass2Step, hU, hI, hJ] using h
      | some job =>
        simp only [pass2Step, hU, hI, hJ]
        intro q hq
        rcases objSet_mem _ _ _ _ hq with hq1 | hq1
        · have hp : (((objGet (if (objGet st.persons (jsToLower user.fullName)).isSome
              then st.persons else objSet st.persons (jsToLower user.fullName) (mkPerson user))
              (jsToLower user.fullName)).getD (mkPerson user)).jobs.map Prod.fst).Nodup := by
            rcases hP : objGet st.persons (jsToLower user.fullName) with _ | p
            · simp only [hP, Option.isSome_none, Bool.false_eq_true, if_false,
                objGet_objSet_self, Option.getD_some]
              simp [mkPerson]
            · simp only [hP, Option.isSome_some, if_true, Option.getD_some]
              exact h (jsToLower user.fullName, p) (objGet_some_mem _ _ _ hP)
          rw [hq1]
          exact pass2Insert_jobs_keys_nodup (jsToLower user.fullName) item job today jiu
            _ st.store hp
        · by_cases hP : (objGet st.persons (jsToLower user.fullName)).isSome
          · rw [if_pos hP] at hq1
            exact h q hq1
          · rw [if_neg hP] at hq1
            rcases objSet_mem _ _ _ _ hq1 with hq2 | hq2
            · rw [hq2]; simp [mkPerson]
            · exact h q hq2

theorem foldl_pass2_hoursAt (U : List (Nat × UserInfo)) (J : List (Nat × JobInfo))
    (I : List (Nat × ItemInfo)) (today : String) (jius : List StJobItemUser) :
    ∀ (st : AggState) (key : String) (jobId : Nat),
      hoursAt (jius.foldl (pass2Step U J I today) st) key jobId =
        hoursAt st key jobId + hSum U J I key jobId jius := by
  induction jius with
  | nil => intro st key jobId; simp [hSum]
  | cons jiu rest ih =>
    intro st key jobId
    rw [List.foldl_cons, ih, pass2Step_hoursAt]
    unfold hSum
    by_cases hq : jiuQual U J I key jobId jiu = true
    · simp only [List.filter_cons, hq, if_true, List.map_cons, List.sum_cons]
      omega
    · simp only [List.filter_cons, hq, Bool.false_eq_true, if_false]
      simp [hq]

theorem foldl_pass2_bookingsAt (U : List (Nat × UserInfo)) (J : List (Nat × JobInfo))
    (I : List (Nat × ItemInfo)) (today : String) (jius : List StJobItemUser) :
    ∀ (st : AggState) (key : String),
      bookingsAt (jius.foldl (pass2Step U J I today) st) key =
        bookingsAt st key ++ jius.filterMap (jiuBooking U J I today key) := by
  induction jius with
  | nil => intro st key; simp
  | cons jiu rest ih =>
    intro st key
    rw [List.foldl_cons, ih, pass2Step_bookingsAt, List.filterMap_cons]
    cases hb : jiuBooking U J I today key jiu <;> simp [List.append_assoc]

theorem foldl_pass2_person_reach (U : List (Nat × UserInfo)) (J : List (Nat × JobInfo))
    (I : List (Nat × ItemInfo)) (today : String) (jius : List StJobItemUser)
    (st : AggState) (key : String) (jiu : StJobItemUser) (hmem : jiu ∈ jius)
    (hq : jiuKeyQual U J I key jiu = true) :
    (objGet ((jius.foldl (pass2Step U J I today) st)).persons key).isSome := by
  exact foldl_reach (fun s => (objGet s.persons key).isSome = true) (pass2Step U J I today)
    jius st jiu hmem
    (fun s2 => pass2Step_person_created U J I today s2 jiu key hq)
    (fun s2 b2 hs => pass2Step_persons_mono U J I today s2 b2 key hs)

/- ── First pass lemmas ────────────────────────────────────────────────── -/

theorem pass1User_store (um : List (Nat × UserInfo)) (jobId : Nat) (jobInfo : PersonJob)
    (st2 : AggState) (uid : Nat) :
    (pass1User um jobId jobInfo st2 uid).store = st2.store := by
  cases hu : objGet um uid <;> simp [pass1User, hu]

theorem pass1User_zero (um : List (Nat × UserInfo)) (jobId : Nat) (jobInfo : PersonJob)
    (st2 : AggState) (uid : Nat) (hjz : jobInfo.totalHoursTenths = 0)
    (h : ∀ q ∈ st2.persons, (q.2 : Person).currentJobs = [] ∧
      ∀ r ∈ q.2.jobs, (r.2 : PersonJob).totalHoursTenths = 0) :
    ∀ q ∈ (pass1User um jobId jobInfo st2 uid).persons, (q.2 : Person).currentJobs = [] ∧
      ∀ r ∈ q.2.jobs, (r.2 : PersonJob).totalHoursTenths = 0 := by
  cases hu : objGet um uid with
  | none => simpa [pass1User, hu] using h
  | some user =>
    simp only [pass1User, hu]
    intro q hq
    have hbase : ∀ q2, q2 ∈ (if (objGet st2.persons (jsToLower user.fullName)).isSome
        then st2.persons else objSet st2.persons (jsToLower user.fullName) (mkPerson user)) →
        (q2.2 : Person).currentJobs = [] ∧
          ∀ r ∈ q2.2.jobs, (r.2 : PersonJob).totalHoursTenths = 0 := by
      intro q2 hq2
      by_cases hP : (objGet st2.persons (jsToLower user.fullName)).isSome
      · rw [if_pos hP] at hq2; exact h q2 hq2
      · rw [if_neg hP] at hq2
        rcases objSet_mem _ _ _ _ hq2 with hq3 | hq3
        · rw [hq3]; simp [mkPerson]
        · exact h q2 hq3
    have hp : ((objGet (if (objGet st2.persons (jsToLower user.fullName)).isSome
        then st2.persons else objSet st2.persons (jsToLower user.fullName) (mkPerson user))
        (jsToLower user.fullName)).getD (mkPerson user)).currentJobs = [] ∧
        ∀ r ∈ ((objGet (if (objGet st2.persons (jsToLower user.fullName)).isSome
          then st2.persons else objSet st2.persons (jsToLower user.fullName) (mkPerson user))
          (jsToLower user.fullName)).getD (mkPerson user)).jobs,
          (r.2 : PersonJob).totalHoursTenths = 0 := by
      rcases hP : objGet st2.persons (jsToLower user.fullName) with _ | p
      · simp only [hP, Option.isSome_none, Bool.false_eq_true, if_false,
          objGet_objSet_self, Option.getD_some]
        simp [mkPerson]
      · simp only [hP, Option.isSome_some, if_true, Option.getD_some]
        exact h (jsToLower user.fullName, p) (objGet_some_mem _ _ _ hP)
    rcases objSet_mem _ _ _ _ hq with hq1 | hq1
    · rw [hq1]
      refine ⟨hp.1, ?_⟩
      intro r hr
      rcases objSet_mem _ _ _ _ hr with hr1 | hr1
      · rw [hr1]; exact hjz
      · exact hp.2 r hr1
    · exact hbase q hq1

theorem pass1User_keys_nodup (um : List (Nat × UserInfo)) (jobId : Nat)
    (jobInfo : PersonJob) (st2 : AggState) (uid : Nat)
    (h : (st2.persons.map Prod.fst).Nodup) :
    ((pass1User um jobId jobInfo st2 uid).persons.map Prod.fst).Nodup := by
  cases hu : objGet um uid with
  | none => simpa [pass1User, hu] using h
  | some user =>
    simp only [pass1User, hu]
    by_cases hP : (objGet st2.persons (jsToLower user.fullName)).isSome
    · rw [if_pos hP]; exact objSet_keys_nodup _ _ _ h
    · rw [if_neg hP]; exact objSet_keys_nodup _ _ _ (objSet_keys_nodup _ _ _ h)

theorem pass1User_jobs_nodup (um : List (Nat × UserInfo)) (jobId : Nat)
    (jobInfo : PersonJob) (st2 : AggState) (uid : Nat)
    (h : ∀ q ∈ st2.persons, ((q.2 : Person).jobs.map Prod.fst).Nodup) :
    ∀ q ∈ (pass1User um jobId jobInfo st2 uid).persons,
      ((q.2 : Person).jobs.map Prod.fst).Nodup := by
  cases hu : objGet um uid with
  | none => simpa [pass1User, hu] using h
  | some user =>
    simp only [pass1User, hu]
    intro q hq
    have hbase : ∀ q2, q2 ∈ (if (objGet st2.persons (jsToLower user.fullName)).isSome
        then st2.persons else objSet st2.persons (jsToLower user.fullName) (mkPerson user)) →
        ((q2.2 : Person).jobs.map Prod.fst).Nodup := by
      intro q2 hq2
      by_cases hP : (objGet st2.persons (jsToLower user.fullName)).isSome
      · rw [if_pos hP] at hq2; exact h q2 hq2
      · rw [if_neg hP] at hq2
        rcases objSet_mem _ _ _ _ hq2 with hq3 | hq3
        · rw [hq3]; simp [mkPerson]
        · exact h q2 hq3
    have hp : (((objGet (if (objGet st2.persons (jsToLower user.fullName)).isSome
        then st2.persons else objSet st2.persons (jsToLower user.fullName) (mkPerson user))
        (jsToLower user.fullName)).getD (mkPerson user)).jobs.map Prod.fst).Nodup := by
      rcases hP : objGet st2.persons (jsToLower user.fullName) with _ | p
      · simp only [hP, Option.isSome_none, Bool.false_eq_true, if_false,
          objGet_objSet_self, Option.getD_some]
        simp [mkPerson]
      · simp only [hP, Option.isSome_some, if_true, Option.getD_some]
        exact h (jsToLower user.fullName, p) (objGet_some_mem _ _ _ hP)
    rcases objSet_mem _ _ _ _ hq with hq1 | hq1
    · rw [hq1]
      exact objSet_keys_nodup _ _ _ hp
    · exact hbase q hq1

theorem pass1User_mono (um : List (Nat × UserInfo)) (jobId : Nat) (jobInfo : PersonJob)
    (st2 : AggState) (uid : Nat) (key : String)
    (h : (objGet st2.persons key).isSome) :
    (objGet (pass1User um jobId jobInfo st2 uid).persons key).isSome := by
  cases hu : objGet um uid with
  | none => simpa [pass1User, hu] using h
  | some user =>
    simp only [pass1User, hu]
    by_cases hkey : key = jsToLower user.fullName
    · simp [objGet_objSet, hkey]
    · rw [objGet_objSet_ne _ _ _ _ hkey]
      by_cases hP : (objGet st2.persons (jsToLower user.fullName)).isSome
      · simpa [hP] using h
      · rw [if_neg hP, objGet_objSet_ne _ _ _ _ hkey]
        exact h

theorem pass1User_created (um : List (Nat × UserInfo)) (jobId : Nat) (jobInfo : PersonJob)
    (st2 : AggState) (uid : Nat) (user : UserInfo) (hu : objGet um uid = some user) :
    (objGet (pass1User um jobId jobInfo st2 uid).persons (jsToLower user.fullName)).isSome := by
  simp [pass1User, hu, objGet_objSet]

theorem pass1Step_store (um : List (Nat × UserInfo)) (st : AggState) (idxJob : Nat × StJob) :
    (pass1Step um st idxJob).store = objSet st.store (TaskRef.shared idxJob.1) [] := by
  simp only [pass1Step]
  exact foldl_inv (fun s => s.store = objSet st.store (TaskRef.shared idxJob.1) [])
    (pass1User um idxJob.2.id (pass1JobInfo idxJob.1 idxJob.2)) idxJob.2.users
    { persons := st.persons, store := objSet st.store (TaskRef.shared idxJob.1) [] } rfl
    (fun s2 b _ hs => (pass1User_store _ _ _ _ _).trans hs)

theorem pass1Step_zero (um : List (Nat × UserInfo)) (st : AggState) (idxJob : Nat × StJob)
    (h : ∀ q ∈ st.persons, (q.2 : Person).currentJobs = [] ∧
      ∀ r ∈ q.2.jobs, (r.2 : PersonJob).totalHoursTenths = 0) :
    ∀ q ∈ (pass1Step um st idxJob).persons, (q.2 : Person).currentJobs = [] ∧
      ∀ r ∈ q.2.jobs, (r.2 : PersonJob).totalHoursTenths = 0 := by
  simp only [pass1Step]
  exact foldl_inv (fun s => ∀ q ∈ s.persons, (q.2 : Person).currentJobs = [] ∧
      ∀ r ∈ q.2.jobs, (r.2 : PersonJob).totalHoursTenths = 0)
    (pass1User um idxJob.2.id (pass1JobInfo idxJob.1 idxJob.2)) idxJob.2.users
    { persons := st.persons, store := objSet st.store (TaskRef.shared idxJob.1) [] } h
    (fun s2 b _ hs => pass1User_zero _ _ _ _ _ rfl hs)

theorem pass1Step_keys_nodup (um : List (Nat × UserInfo)) (st : AggState)
    (idxJob : Nat × StJob) (h : (st.persons.map Prod.fst).Nodup) :
    ((pass1Step um st idxJob).persons.map Prod.fst).Nodup := by
  simp only [pass1Step]
  exact foldl_inv (fun s => (s.persons.map Prod.fst).Nodup)
    (pass1User um idxJob.2.id (pass1JobInfo idxJob.1 idxJob.2)) idxJob.2.users
    { persons := st.persons, store := objSet st.store (TaskRef.shared idxJob.1) [] } h
    (fun s2 b _ hs => pass1User_keys_nodup _ _ _ _ _ hs)

theorem pass1Step_jobs_nodup (um : List (Nat × UserInfo)) (st : AggState)
    (idxJob : Nat × StJob)
    (h : ∀ q ∈ st.persons, ((q.2 : Person).jobs.map Prod.fst).Nodup) :
    ∀ q ∈ (pass1Step um st idxJob).persons, ((q.2 : Person).jobs.map Prod.fst).Nodup := by
  simp only [pass1Step]
  exact foldl_inv (fun s => ∀ q ∈ s.persons, ((q.2 : Person).jobs.map Prod.fst).Nodup)
    (pass1User um idxJob.2.id (pass1JobInfo idxJob.1 idxJob.2)) idxJob.2.users
    { persons := st.persons, store := objSet st.store (TaskRef.shared idxJob.1) [] } h
    (fun s2 b _ hs => pass1User_jobs_nodup _ _ _ _ _ hs)

theorem pass1Step_mono (um : List (Nat × UserInfo)) (st : AggState) (idxJob : Nat × StJob)
    (key : String) (h : (objGet st.persons key).isSome) :
    (objGet (pass1Step um st idxJob).persons key).isSome := by
  simp only [pass1Step]
  exact foldl_inv (fun s => (objGet s.persons key).isSome = true)
    (pass1User um idxJob.2.id (pass1JobInfo idxJob.1 idxJob.2)) idxJob.2.users
    { persons := st.persons, store := objSet st.store (TaskRef.shared idxJob.1) [] } h
    (fun s2 b _ hs => pass1User_mono _ _ _ _ _ _ hs)

theorem pass1Step_created (um : List (Nat × UserInfo)) (st : AggState)
    (idxJob : Nat × StJob) (uid : Nat) (user : UserInfo)
    (hmem : uid ∈ idxJob.2.users) (hu : objGet um uid = some user) :
    (objGet (pass1Step um st idxJob).persons (jsToLower user.fullName)).isSome := by
  simp only [pass1Step]
  exact foldl_reach (fun s => (objGet s.persons (jsToLower user.fullName)).isSome = true)
    (pass1User um idxJob.2.id (pass1JobInfo idxJob.1 idxJob.2)) idxJob.2.users
    { persons := st.persons, store := objSet st.store (TaskRef.shared idxJob.1) [] } uid hmem
    (fun s2 => pass1User_created _ _ _ _ _ _ hu)
    (fun s2 b2 hs => pass1User_mono _ _ _ _ _ _ hs)

/- ── Whole-pipeline lemmas ────────────────────────────────────────────── -/

theorem buildPersonJobs_eq (users : List StUser) (jobs : List StJob)
    (items : List StJobItem) (jius : List StJobItemUser) (today : String) :
    buildPersonJobs users jobs items jius today =
      (aggStateOf users jobs items jius today).persons.map
        (fun q => (q.1, finalizePerson (aggStateOf users jobs items jius today).store q.2)) := rfl

theorem hoursAt_zero_of_inv (st : AggState)
    (h : ∀ q ∈ st.persons, (q.2 : Person).currentJobs = [] ∧
      ∀ r ∈ q.2.jobs, (r.2 : PersonJob).totalHoursTenths = 0)
    (key : String) (jobId : Nat) : hoursAt st key jobId = 0 := by
  unfold hoursAt
  rcases hP : objGet st.persons key with _ | p
  · simp [hP]
  · rcases hE : objGet p.jobs jobId with _ | pj
    · simp [hP, hE]
    · have hz := (h (key, p) (objGet_some_mem _ _ _ hP)).2 (jobId, pj) (objGet_some_mem _ _ _ hE)
      simp only [hP, hE, Option.some_bind, Option.map_some', Option.getD_some]
      exact hz

theorem bookingsAt_nil_of_inv (st : AggState)
    (h : ∀ q ∈ st.persons, (q.2 : Person).currentJobs = [] ∧
      ∀ r ∈ q.2.jobs, (r.2 : PersonJob).totalHoursTenths = 0)
    (key : String) : bookingsAt st key = [] := by
  unfold bookingsAt
  rcases hP : objGet st.persons key with _ | p
  · simp [hP]
  · simp only [hP, Option.map_some', Option.getD_some]
    exact (h (key, p) (objGet_some_mem _ _ _ hP)).1

theorem st0_zero (um : List (Nat × UserInfo)) (jobs : List StJob) :
    ∀ q ∈ ((jobs.enum).foldl (pass1Step um) ({ persons := [], store := [] } : AggState)).persons,
      (q.2 : Person).currentJobs = [] ∧
        ∀ r ∈ q.2.jobs, (r.2 : PersonJob).totalHoursTenths = 0 := by
  exact foldl_inv (fun s => ∀ q ∈ s.persons, (q.2 : Person).currentJobs = [] ∧
      ∀ r ∈ q.2.jobs, (r.2 : PersonJob).totalHoursTenths = 0)
    (pass1Step um) jobs.enum { persons := [], store := [] }
    (by intro q hq; simp at hq)
    (fun s2 b _ hs => pass1Step_zero um s2 b hs)

theorem st0_keys_nodup (um : List (Nat × UserInfo)) (jobs : List StJob) :
    (((jobs.enum).foldl (pass1Step um)
      ({ persons := [], store := [] } : AggState)).persons.map Prod.fst).Nodup := by
  exact foldl_inv (fun s => (s.persons.map Prod.fst).Nodup)
    (pass1Step um) jobs.enum { persons := [], store := [] } (by simp)
    (fun s2 b _ hs => pass1Step_keys_nodup um s2 b hs)

theorem st0_jobs_nodup (um : List (Nat × UserInfo)) (jobs : List StJob) :
    ∀ q ∈ ((jobs.enum).foldl (pass1Step um)
        ({ persons := [], store := [] } : AggState)).persons,
      ((q.2 : Person).jobs.map Prod.fst).Nodup := by
  exact foldl_inv (fun s => ∀ q ∈ s.persons, ((q.2 : Person).jobs.map Prod.fst).Nodup)
    (pass1Step um) jobs.enum { persons := [], store := [] }
    (by intro q hq; simp at hq)
    (fun s2 b _ hs => pass1Step_jobs_nodup um s2 b hs)

theorem st0_store_no_empty (um : List (Nat × UserInfo)) (jobs : List StJob) :
    ∀ r l, objGet ((jobs.enum).foldl (pass1Step um)
        ({ persons := [], store := [] } : AggState)).store r = some l → "" ∉ l := by
  exact foldl_inv (fun s => ∀ r l, objGet s.store r = some l → "" ∉ l)
    (pass1Step um) jobs.enum { persons := [], store := [] }
    (by intro r l hr; simp [objGet_nil] at hr)
    (by
      intro s2 b _ hs r l hr
      rw [pass1Step_store] at hr
      rw [objGet_objSet] at hr
      by_cases hrf : r = TaskRef.shared b.1
      · rw [if_pos hrf] at hr; cases hr; simp
      · rw [if_neg hrf] at hr; exact hs r l hr)

theorem st0_person_of_listed (um : List (Nat × UserInfo)) (jobs : List StJob)
    (i : Nat) (job : StJob) (uid : Nat) (user : UserInfo)
    (hj : (i, job) ∈ jobs.enum) (huid : uid ∈ job.users)
    (hu : objGet um uid = some user) :
    (objGet ((jobs.enum).foldl (pass1Step um)
      ({ persons := [], store := [] } : AggState)).persons (jsToLower user.fullName)).isSome := by
  exact foldl_reach (fun s => (objGet s.persons (jsToLower user.fullName)).isSome = true)
    (pass1Step um) jobs.enum { persons := [], store := [] } (i, job) hj
    (fun s2 => pass1Step_created um s2 (i, job) uid user huid hu)
    (fun s2 b2 hs => pass1Step_mono um s2 b2 _ hs)

theorem aggState_hoursAt (users : List StUser) (jobs : List StJob)
    (items : List StJobItem) (jius : List StJobItemUser) (today : String)
    (key : String) (jobId : Nat) :
    hoursAt (aggStateOf users jobs items jius today) key jobId =
      hSum (buildUserMap users) (buildJobMap jobs) (buildJobItemMap items) key jobId jius := by
  unfold aggStateOf
  rw [foldl_pass2_hoursAt, hoursAt_zero_of_inv _ (st0_zero _ _)]
  omega

theorem aggState_bookingsAt (users : List StUser) (jobs : List StJob)
    (items : List StJobItem) (jius : List StJobItemUser) (today : String)
    (key : String) :
    bookingsAt (aggStateOf users jobs items jius today) key =
      jius.filterMap (jiuBooking (buildUserMap users) (buildJobMap jobs)
        (buildJobItemMap items) today key) := by
  unfold aggStateOf
  rw [foldl_pass2_bookingsAt, bookingsAt_nil_of_inv _ (st0_zero _ _)]
  rfl

theorem aggState_keys_nodup (users : List StUser) (jobs : List StJob)
    (items : List StJobItem) (jius : List StJobItemUser) (today : String) :
    ((aggStateOf users jobs items jius today).persons.map Prod.fst).Nodup := by
  unfold aggStateOf
  exact foldl_inv (fun s => (s.persons.map Prod.fst).Nodup) _ jius _
    (st0_keys_nodup _ _)
    (fun s2 b _ hs => pass2Step_persons_keys_nodup _ _ _ _ s2 b hs)

theorem aggState_jobs_nodup (users : List StUser) (jobs : List StJob)
    (items : List StJobItem) (jius : List StJobItemUser) (today : String) :
    ∀ q ∈ (aggStateOf users jobs items jius today).persons,
      ((q.2 : Person).jobs.map Prod.fst).Nodup := by
  unfold aggStateOf
  exact foldl_inv (fun s => ∀ q ∈ s.persons, ((q.2 : Person).jobs.map Prod.fst).Nodup)
    _ jius _ (st0_jobs_nodup _ _)
    (fun s2 b _ hs => pass2Step_jobs_nodup _ _ _ _ s2 b hs)

theorem aggState_store_no_empty (users : List StUser) (jobs : List StJob)
    (items : List StJobItem) (jius : List StJobItemUser) (today : String) :
    ∀ r l, objGet (aggStateOf users jobs items jius today).store r = some l → "" ∉ l := by
  unfold aggStateOf
  exact foldl_inv (fun s => ∀ r l, objGet s.store r = some l → "" ∉ l)
    _ jius _ (st0_store_no_empty _ _)
    (fun s2 b _ hs => pass2Step_store_no_empty _ _ _ _ s2 b hs)

theorem natRound_tenfold (t : Nat) : natRound (t * 10) 10 = t := by
  unfold natRound
  omega

theorem keys_map_value {κ α β : Type} (m : List (κ × α)) (f : α → β) :
    ((m.map (fun q => (q.1, f q.2))).map Prod.fst) = m.map Prod.fst := by
  rw [List.map_map]
  exact List.map_congr_left (fun q _ => rfl)

theorem build_lookup (users : List StUser) (jobs : List StJob) (items : List StJobItem)
    (jius : List StJobItemUser) (today : String) (key : String) :
    objGet (buildPersonJobs users jobs items jius today) key =
      (objGet (aggStateOf users jobs items jius today).persons key).map
        (finalizePerson (aggStateOf users jobs items jius today).store) := by
  rw [buildPersonJobs_eq, objGet_map_value]

theorem jiuBooking_eq_some_iff (U : List (Nat × UserInfo)) (J : List (Nat × JobInfo))
    (I : List (Nat × ItemInfo)) (today : String) (key : String) (jiu : StJobItemUser)
    (b : Booking) :
    jiuBooking U J I today key jiu = some b ↔
      ∃ user item job, objGet U jiu.userId = some user ∧
        objGet I jiu.jobItemId = some item ∧ objGet J item.jobId = some job ∧
        jsToLower user.fullName = key ∧ bookingCond today jiu = true ∧
        b = mkBooking job item jiu := by
  unfold jiuBooking
  cases hU : objGet U jiu.userId with
  | none => simp [hU]
  | some user =>
    cases hI : objGet I jiu.jobItemId with
    | none => simp [hU, hI]
    | some item =>
      cases hJ : objGet J item.jobId with
      | none => simp [hU, hI, hJ]
      | some job =>
        simp only [hU, hI, hJ, Option.some_bind]
        constructor
        · intro h
          by_cases hc : (jsToLower user.fullName == key && bookingCond today jiu) = true
          · rw [if_pos hc] at h
            cases h
            simp only [Bool.and_eq_true, beq_iff_eq] at hc
            exact ⟨user, item, job, rfl, rfl, hJ, hc.1, hc.2, rfl⟩
          · rw [if_neg hc] at h
            cases h
        · rintro ⟨user2, item2, job2, hu2, hi2, hj2, hk2, hb2, rfl⟩
          injection hu2 with hu2e
          subst hu2e
          injection hi2 with hi2e
          subst hi2e
          rw [hJ] at hj2
          injection hj2 with hj2e
          subst hj2e
          rw [if_pos (by simp [beq_iff_eq, hk2, hb2])]

theorem jiuBooking_keyQual (U : List (Nat × UserInfo)) (J : List (Nat × JobInfo))
    (I : List (Nat × ItemInfo)) (today : String) (key : String) (jiu : StJobItemUser)
    (b : Booking) (h : jiuBooking U J I today key jiu = some b) :
    jiuKeyQual U J I key jiu = true := by
  rw [jiuBooking_eq_some_iff] at h
  obtain ⟨user, item, job, hu, hi, hj, hk, _, _⟩ := h
  simp [jiuKeyQual, hu, hi, hj, beq_iff_eq, hk]

/- ── Reconciliation lemmas: cells and patches ─────────────────────────── -/

theorem getD_setCellRow_self (row : List String) (j : Nat) (v : String) :
    (setCellRow row j v)[j]?.getD "" = v := by
  induction j generalizing row with
  | zero => cases row <;> simp [setCellRow]
  | succ j2 ih =>
    cases row with
    | nil => simpa [setCellRow] using ih []
    | cons c cs => simpa [setCellRow] using ih cs

theorem getD_setCellRow_ne (row : List String) (j j2 : Nat) (v : String) (h : j2 ≠ j) :
    (setCellRow row j v)[j2]?.getD "" = row[j2]?.getD "" := by
  induction j generalizing row j2 with
  | zero =>
    cases row with
    | nil =>
      cases j2 with
      | zero => exact absurd rfl h
      | succ k => simp [setCellRow]
    | cons c cs =>
      cases j2 with
      | zero => exact absurd rfl h
      | succ k => simp [setCellRow]
  | succ jj ih =>
    cases row with
    | nil =>
      cases j2 with
      | zero => simp [setCellRow]
      | succ k => simpa [setCellRow] using ih [] k (fun he => h (by rw [he]))
    | cons c cs =>
      cases j2 with
      | zero => simp [setCellRow]
      | succ k => simpa [setCellRow] using ih cs k (fun he => h (by rw [he]))

theorem setCell_length (rows : List (List String)) (i j : Nat) (v : String) :
    (setCell rows i j v).length = rows.length := by
  induction rows generalizing i with
  | nil => rfl
  | cons r rs ih =>
    cases i with
    | zero => rfl
    | succ i2 => simpa [setCell] using ih i2

theorem cellOf_setCell_ne (rows : List (List String)) (i j i2 j2 : Nat) (v : String)
    (h : ¬(i2 = i ∧ j2 = j)) :
    cellOf (setCell rows i j v) i2 j2 = cellOf rows i2 j2 := by
  induction rows generalizing i i2 with
  | nil => rfl
  | cons r rs ih =>
    cases i with
    | zero =>
      cases i2 with
      | zero =>
        have hj : j2 ≠ j := fun he => h ⟨rfl, he⟩
        simpa [setCell, cellOf] using getD_setCellRow_ne r j j2 v hj
      | succ k => simp [setCell, cellOf]
    | succ i3 =>
      cases i2 with
      | zero => simp [setCell, cellOf]
      | succ k =>
        have h2 : ¬(k = i3 ∧ j2 = j) := fun hc => h ⟨by rw [hc.1], hc.2⟩
        simpa [setCell, cellOf] using ih i3 k h2

theorem cellOf_setCell_self (rows : List (List String)) (i j : Nat) (v : String)
    (h : i < rows.length) :
    cellOf (setCell rows i j v) i j = v := by
  induction rows generalizing i with
  | nil => cases h
  | cons r rs ih =>
    cases i with
    | zero => simpa [setCell, cellOf] using getD_setCellRow_self r j v
    | succ i2 => simpa [setCell, cellOf] using ih i2 (Nat.lt_of_succ_lt_succ h)

theorem setCell_append_left (rows more : List (List String)) (i j : Nat) (v : String)
    (h : i < rows.length) :
    setCell (rows ++ more) i j v = setCell rows i j v ++ more := by
  induction rows generalizing i with
  | nil => cases h
  | cons r rs ih =>
    cases i with
    | zero => rfl
    | succ i2 =>
      show r :: setCell (rs ++ more) i2 j v = r :: (setCell rs i2 j v ++ more)
      rw [ih i2 (Nat.lt_of_succ_lt_succ h)]

theorem foldl_setCell_length (ps : List (Nat × String)) (c : Nat) :
    ∀ rs : List (List String),
      (ps.foldl (fun r p => setCell r p.1 c p.2) rs).length = rs.length := by
  induction ps with
  | nil => intro rs; rfl
  | cons p ps2 ih =>
    intro rs
    rw [List.foldl_cons, ih, setCell_length]

theorem foldl_setCell_append (ps : List (Nat × String)) (c : Nat) :
    ∀ rs more : List (List String), (∀ p ∈ ps, p.1 < rs.length) →
      ps.foldl (fun r p => setCell r p.1 c p.2) (rs ++ more) =
        ps.foldl (fun r p => setCell r p.1 c p.2) rs ++ more := by
  induction ps with
  | nil => intro rs more _; rfl
  | cons p ps2 ih =>
    intro rs more h
    rw [List.foldl_cons, List.foldl_cons, setCell_append_left rs more p.1 c p.2 (h p (by simp))]
    exact ih (setCell rs p.1 c p.2) more
      (fun q hq => by rw [setCell_length]; exact h q (by simp [hq]))

theorem cellOf_foldl_setCell_ne_col (ps : List (Nat × String)) (c : Nat) (i j : Nat)
    (hj : j ≠ c) :
    ∀ rs : List (List String),
      cellOf (ps.foldl (fun r p => setCell r p.1 c p.2) rs) i j = cellOf rs i j := by
  induction ps with
  | nil => intro rs; rfl
  | cons p ps2 ih =>
    intro rs
    rw [List.foldl_cons, ih, cellOf_setCell_ne rs p.1 c i j p.2 (fun hc => hj hc.2)]

theorem cellOf_foldl_setCell_ne_row (ps : List (Nat × String)) (c : Nat) (i j : Nat) :
    ∀ rs : List (List String), (∀ p ∈ ps, p.1 ≠ i) →
      cellOf (ps.foldl (fun r p => setCell r p.1 c p.2) rs) i j = cellOf rs i j := by
  induction ps with
  | nil => intro rs _; rfl
  | cons p ps2 ih =>
    intro rs hi
    rw [List.foldl_cons, ih _ (fun q hq => hi q (by simp [hq])),
      cellOf_setCell_ne rs p.1 c i j p.2 (fun hc => hi p (by simp) hc.1.symm)]

theorem cellOf_foldl_setCell_mem (ps : List (Nat × String)) (c : Nat) (i : Nat) (v : String) :
    ∀ rs : List (List String), (∀ p ∈ ps, p.1 = i → p.2 = v) → i < rs.length →
      ((i, v) ∈ ps ∨ cellOf rs i c = v) →
      cellOf (ps.foldl (fun r p => setCell r p.1 c p.2) rs) i c = v := by
  induction ps with
  | nil =>
    intro rs _ _ hstart
    rcases hstart with h | h
    · cases h
    · exact h
  | cons p ps2 ih =>
    intro rs hall hlen hstart
    rw [List.foldl_cons]
    by_cases hp : p.1 = i
    · have hv : p.2 = v := hall p (by simp) hp
      refine ih _ (fun q hq hqe => hall q (by simp [hq]) hqe)
        (by rw [setCell_length]; exact hlen) (Or.inr ?_)
      have he : setCell rs p.1 c p.2 = setCell rs i c v := by rw [hp, hv]
      rw [he]
      exact cellOf_setCell_self rs i c v hlen
    · refine ih _ (fun q hq hqe => hall q (by simp [hq]) hqe)
        (by rw [setCell_length]; exact hlen) ?_
      rcases hstart with hmem | hcell
      · rcases List.mem_cons.mp hmem with he | hmem2
        · exact absurd (congrArg Prod.fst he.symm) hp
        · exact Or.inl hmem2
      · refine Or.inr ?_
        rw [cellOf_setCell_ne rs p.1 c i c p.2 (fun hc => hp hc.1.symm)]
        exact hcell

theorem foldl_setStatus_eq_map (l : List Nat) (sc : Nat) (w : String)
    (rs : List (List String)) :
    l.foldl (fun r i => setCell r i sc w) rs =
      (l.map (fun i => (i, w))).foldl (fun r p => setCell r p.1 sc p.2) rs := by
  rw [List.foldl_map]

/- ── Reconciliation lemmas: trimming ──────────────────────────────────── -/

theorem dropWs_suffix (l : List Char) : dropWs l <:+ l := by
  induction l with
  | nil => exact List.suffix_rfl
  | cons c cs ih =>
    by_cases h : isWsChar c = true
    · simp only [dropWs, h, if_true]
      exact ih.trans (List.suffix_cons c cs)
    · simp only [dropWs, h, if_false]
      exact List.suffix_rfl

theorem dropWs_head_not_ws (l : List Char) (c : Char) (t : List Char)
    (h : dropWs l = c :: t) : isWsChar c = false := by
  induction l with
  | nil => cases h
  | cons a as ih =>
    by_cases ha : isWsChar a = true
    · rw [dropWs, if_pos ha] at h
      exact ih h
    · rw [dropWs, if_neg ha] at h
      cases h
      simpa using ha

theorem dropWs_no_ws_head (c : Char) (t : List Char) (hc : isWsChar c = false) :
    dropWs (c :: t) = c :: t := by
  simp [dropWs, hc]

theorem trimChars_idem (l : List Char) :
    (dropWs (dropWs ((dropWs (dropWs l).reverse).reverse)).reverse).reverse =
      (dropWs (dropWs l).reverse).reverse := by
  rcases hA : dropWs l with _ | ⟨a, as⟩
  · simp [dropWs]
  · have ha : isWsChar a = false := dropWs_head_not_ws l a as hA
    rcases hD : dropWs (a :: as).reverse with _ | ⟨d, ds⟩
    · simp [hD, dropWs]
    · have hd : isWsChar d = false := dropWs_head_not_ws (a :: as).reverse d ds hD
      have hlast : (d :: ds).getLast? = some a := by
        obtain ⟨pre, hpre⟩ := hD ▸ dropWs_suffix (a :: as).reverse
        have h1 : (a :: as).reverse.getLast? = some a := by
          rw [List.getLast?_reverse]
          rfl
        rw [← hpre, List.getLast?_append_cons] at h1
        exact h1
      have hhead : (d :: ds).reverse.head? = some a := by
        rw [List.head?_reverse]
        exact hlast
      rcases hB : (d :: ds).reverse with _ | ⟨b, bs⟩
      · rw [hB] at hhead; cases hhead
      · rw [hB] at hhead
        have hb : isWsChar b = false := by
          have : b = a := by injection hhead
          rw [this]; exact ha
        rw [dropWs_no_ws_head b bs hb, ← hB, List.reverse_reverse,
          dropWs_no_ws_head d ds hd]

theorem jsTrim_idem (s : String) : jsTrim (jsTrim s) = jsTrim s :=
  congrArg String.mk (trimChars_idem s.data)

/- ── Reconciliation lemmas: the name index ────────────────────────────── -/

theorem foldl_congr_mem {σ β : Type} (f g : σ → β → σ) (l : List β) :
    ∀ init : σ, (∀ s b, b ∈ l → f s b = g s b) → l.foldl f init = l.foldl g init := by
  induction l with
  | nil => intro init _; rfl
  | cons x xs ih =>
    intro init h
    rw [List.foldl_cons, List.foldl_cons, h init x (by simp)]
    exact ih _ (fun s b hb => h s b (by simp [hb]))

theorem nodup_getElem?_inj {α : Type} (l : List α) (h : l.Nodup) (i j : Nat) (a : α)
    (hi : l[i]? = some a) (hj : l[j]? = some a) : i = j := by
  rcases Nat.lt_trichotomy i j with hlt | heq | hgt
  · refine absurd (hi.trans hj.symm)
      (List.nodup_iff_getElem?_ne_getElem?.mp h i j hlt ?_)
    rcases List.getElem?_eq_some_iff.mp hj with ⟨hb, _⟩
    exact hb
  · exact heq
  · refine absurd (hj.trans hi.symm)
      (List.nodup_iff_getElem?_ne_getElem?.mp h j i hgt ?_)
    rcases List.getElem?_eq_some_iff.mp hi with ⟨hb, _⟩
    exact hb

theorem filterMap_mono_sublist {α β : Type} (f g : α → Option β) (l : List α)
    (h : ∀ a b, g a = some b → f a = some b) :
    List.Sublist (l.filterMap g) (l.filterMap f) := by
  induction l with
  | nil => exact List.Sublist.refl _
  | cons x xs ih =>
    rcases hg : g x with _ | b
    · rcases hf : f x with _ | c
      · simpa [List.filterMap_cons, hg, hf] using ih
      · simp only [List.filterMap_cons, hg, hf]
        exact ih.cons c
    · have hf : f x = some b := h x b hg
      simp only [List.filterMap_cons, hg, hf]
      exact ih.cons₂ b

theorem nodup_filterMap_inj {α β : Type} (f : α → Option β) (l : List α) (u u2 : α)
    (k : β) :
    (l.filterMap f).Nodup → u ∈ l → u2 ∈ l → f u = some k → f u2 = some k → u = u2 := by
  induction l with
  | nil => intro _ hu; cases hu
  | cons x xs ih =>
    intro hnd hu hu2 hk hk2
    rcases hfx : f x with _ | b
    · rcases List.mem_cons.mp hu with rfl | hu3
      · rw [hk] at hfx; cases hfx
      · rcases List.mem_cons.mp hu2 with rfl | hu4
        · rw [hk2] at hfx; cases hfx
        · exact ih (by simpa [List.filterMap_cons, hfx] using hnd) hu3 hu4 hk hk2
    · have hnd2 : b ∉ xs.filterMap f ∧ (xs.filterMap f).Nodup := by
        simpa [List.filterMap_cons, hfx] using hnd
      rcases List.mem_cons.mp hu with rfl | hu3
      · rcases List.mem_cons.mp hu2 with rfl | hu4
        · rfl
        · rw [hk] at hfx
          injection hfx with hb
          exact absurd (List.mem_filterMap.mpr ⟨u2, hu4, by rw [hk2, hb]⟩) hnd2.1
      · rcases List.mem_cons.mp hu2 with rfl | hu4
        · rw [hk2] at hfx
          injection hfx with hb
          exact absurd (List.mem_filterMap.mpr ⟨u, hu3, by rw [hk, hb]⟩) hnd2.1
        · exact ih hnd2.2 hu3 hu4 hk hk2

theorem mem_drop_one_range (n i : Nat) (h : i ∈ (List.range n).drop 1) :
    1 ≤ i ∧ i < n := by
  cases n with
  | zero => simp [List.range_zero] at h
  | succ m =>
    rw [List.range_succ_eq_map, List.drop_succ_cons, List.drop_zero] at h
    obtain ⟨j, hj, rfl⟩ := List.mem_map.mp h
    exact ⟨Nat.succ_le_succ (Nat.zero_le j), Nat.succ_lt_succ (List.mem_range.mp hj)⟩

theorem cellOf_append_left (rows more : List (List String)) (i j : Nat)
    (h : i < rows.length) :
    cellOf (rows ++ more) i j = cellOf rows i j := by
  unfold cellOf
  rw [List.getElem?_append_left h]

theorem cellOf_append_right (rows more : List (List String)) (k j : Nat) :
    cellOf (rows ++ more) (rows.length + k) j = (more[k]?.getD [])[j]?.getD "" := by
  unfold cellOf
  rw [List.getElem?_append_right (Nat.le_add_right _ _)]
  simp [Nat.add_sub_cancel_left]

theorem buildExistingNames_spec (rows : List (List String)) (nameCol : Nat) :
    ∀ e ∈ buildExistingNames rows nameCol,
      1 ≤ e.2 ∧ e.2 < rows.length ∧ jsTrim (cellOf rows e.2 nameCol) ≠ "" ∧
        e.1 = normalizeName (jsTrim (cellOf rows e.2 nameCol)) := by
  unfold buildExistingNames
  refine foldl_inv (fun m : List (String × Nat) => ∀ e ∈ m,
    1 ≤ e.2 ∧ e.2 < rows.length ∧ jsTrim (cellOf rows e.2 nameCol) ≠ "" ∧
      e.1 = normalizeName (jsTrim (cellOf rows e.2 nameCol))) _
    ((List.range rows.length).drop 1) [] (by simp) ?_
  intro m i hi hP e he
  obtain ⟨h1, h2⟩ := mem_drop_one_range rows.length i hi
  show _ ∧ _ ∧ _ ∧ _
  by_cases hname : jsTrim (cellOf rows i nameCol) = ""
  · refine hP e ?_
    simpa [hname] using he
  · rw [show (if jsTrim (cellOf rows i nameCol) = "" then m
      else objSet m (normalizeName (jsTrim (cellOf rows i nameCol))) i) =
        objSet m (normalizeName (jsTrim (cellOf rows i nameCol))) i from if_neg hname] at he
    rcases objSet_mem m _ i e he with he2 | he2
    · rw [he2]
      exact ⟨h1, h2, hname, rfl⟩
    · exact hP e he2

theorem buildExistingNames_keys_nodup (rows : List (List String)) (nameCol : Nat) :
    ((buildExistingNames rows nameCol).map Prod.fst).Nodup := by
  unfold buildExistingNames
  refine foldl_inv (fun m : List (String × Nat) => (m.map Prod.fst).Nodup) _
    ((List.range rows.length).drop 1) [] (by simp) ?_
  intro m i _ hP
  by_cases hname : jsTrim (cellOf rows i nameCol) = ""
  · simpa [hname] using hP
  · show ((if jsTrim (cellOf rows i nameCol) = "" then m
      else objSet m (normalizeName (jsTrim (cellOf rows i nameCol))) i).map Prod.fst).Nodup
    rw [if_neg hname]
    exact objSet_keys_nodup m _ i hP

theorem buildExistingNames_val_inj (rows : List (List String)) (nameCol : Nat)
    (k1 k2 : String) (i : Nat) (h1 : (k1, i) ∈ buildExistingNames rows nameCol)
    (h2 : (k2, i) ∈ buildExistingNames rows nameCol) : k1 = k2 := by
  have s1 := buildExistingNames_spec rows nameCol (k1, i) h1
  have s2 := buildExistingNames_spec rows nameCol (k2, i) h2
  rw [show k1 = (k1, i).1 from rfl, s1.2.2.2, show k2 = (k2, i).1 from rfl, s2.2.2.2]

theorem buildExistingNames_congr (rowsA rowsB : List (List String)) (nameCol : Nat)
    (hlen : rowsA.length = rowsB.length)
    (hcells : ∀ i, 1 ≤ i → i < rowsA.length →
      jsTrim (cellOf rowsA i nameCol) = jsTrim (cellOf rowsB i nameCol)) :
    buildExistingNames rowsA nameCol = buildExistingNames rowsB nameCol := by
  unfold buildExistingNames
  rw [hlen]
  refine foldl_congr_mem _ _ _ [] ?_
  intro m i hi
  obtain ⟨h1, h2⟩ := mem_drop_one_range rowsB.length i hi
  have hc := hcells i h1 (by rw [hlen]; exact h2)
  show (if jsTrim (cellOf rowsA i nameCol) = "" then m
      else objSet m (normalizeName (jsTrim (cellOf rowsA i nameCol))) i) =
    (if jsTrim (cellOf rowsB i nameCol) = "" then m
      else objSet m (normalizeName (jsTrim (cellOf rowsB i nameCol))) i)
  rw [hc]

theorem buildExistingNames_concat (X : List (List String)) (r : List String)
    (nameCol : Nat) (hX : 1 ≤ X.length) :
    buildExistingNames (X ++ [r]) nameCol =
      (if rowName nameCol r = "" then buildExistingNames X nameCol
       else objSet (buildExistingNames X nameCol)
         (normalizeName (rowName nameCol r)) X.length) := by
  unfold buildExistingNames
  have hlen : (X ++ [r]).length = X.length + 1 := by simp
  rw [hlen, List.range_succ, List.drop_append_of_le_length (by simpa using hX),
    List.foldl_append]
  have hbase : ((List.range X.length).drop 1).foldl
      (fun m i =>
        let name := jsTrim (cellOf (X ++ [r]) i nameCol)
        if name = "" then m else objSet m (normalizeName name) i) [] =
      ((List.range X.length).drop 1).foldl
      (fun m i =>
        let name := jsTrim (cellOf X i nameCol)
        if name = "" then m else objSet m (normalizeName name) i) [] := by
    refine foldl_congr_mem _ _ _ [] ?_
    intro m i hi
    obtain ⟨_, h2⟩ := mem_drop_one_range X.length i hi
    show (if jsTrim (cellOf (X ++ [r]) i nameCol) = "" then m
        else objSet m (normalizeName (jsTrim (cellOf (X ++ [r]) i nameCol))) i) = _
    rw [cellOf_append_left X [r] i nameCol h2]
  rw [hbase]
  have hcell : cellOf (X ++ [r]) X.length nameCol = r[nameCol]?.getD "" := by
    have := cellOf_append_right X [r] 0 nameCol
    rw [Nat.add_zero] at this
    simpa using this
  show (if jsTrim (cellOf (X ++ [r]) X.length nameCol) = "" then _
      else objSet _ (normalizeName (jsTrim (cellOf (X ++ [r]) X.length nameCol))) X.length) = _
  rw [hcell]
  rfl

theorem buildExistingNames_append (extra : List (List String)) (nameCol : Nat) :
    ∀ X : List (List String), 1 ≤ X.length →
      buildExistingNames (X ++ extra) nameCol =
        namesFold nameCol extra X.length (buildExistingNames X nameCol) := by
  induction extra with
  | nil =>
    intro X _
    show buildExistingNames (X ++ []) nameCol = _
    rw [List.append_nil]
    rfl
  | cons r rs ih =>
    intro X hX
    have h1 : X ++ r :: rs = (X ++ [r]) ++ rs := by simp
    rw [h1, ih (X ++ [r]) (by simp), buildExistingNames_concat X r nameCol hX]
    show namesFold nameCol rs (X ++ [r]).length _ = namesFold nameCol rs (X.length + 1) _
    rw [show (X ++ [r]).length = X.length + 1 from by simp]

theorem namesFold_objGet_preserved (nameCol : Nat) (extra : List (List String))
    (k : String) (i : Nat) :
    ∀ (base : Nat) (m : List (String × Nat)), objGet m k = some i →
      (∀ r ∈ extra, rowName nameCol r ≠ "" → normalizeName (rowName nameCol r) ≠ k) →
      objGet (namesFold nameCol extra base m) k = some i := by
  induction extra with
  | nil => intro base m h _; exact h
  | cons r rs ih =>
    intro base m h hfresh
    rw [namesFold]
    by_cases hr : rowName nameCol r = ""
    · rw [if_pos hr]
      exact ih _ _ h (fun q hq => hfresh q (by simp [hq]))
    · rw [if_neg hr]
      refine ih _ _ ?_ (fun q hq => hfresh q (by simp [hq]))
      rw [objGet_objSet_ne m (normalizeName (rowName nameCol r)) k base
        (Ne.symm (hfresh r (by simp) hr))]
      exact h

theorem namesFold_mem (nameCol : Nat) (extra : List (List String)) (e : String × Nat) :
    ∀ (base : Nat) (m : List (String × Nat)), e ∈ namesFold nameCol extra base m →
      e ∈ m ∨ ∃ k0 r, extra[k0]? = some r ∧ rowName nameCol r ≠ "" ∧
        e.1 = normalizeName (rowName nameCol r) ∧ e.2 = base + k0 := by
  induction extra with
  | nil => intro base m h; exact Or.inl h
  | cons r rs ih =>
    intro base m h
    rw [namesFold] at h
    rcases ih (base + 1) _ h with hm | ⟨k0, r2, hk0, hr2, he1, he2⟩
    · by_cases hr : rowName nameCol r = ""
      · rw [if_pos hr] at hm
        exact Or.inl hm
      · rw [if_neg hr] at hm
        rcases objSet_mem m _ base e hm with he | he
        · refine Or.inr ⟨0, r, by simp, hr, ?_, ?_⟩
          · rw [he]
          · rw [he]
            simp
        · exact Or.inl he
    · exact Or.inr ⟨k0 + 1, r2, by simpa using hk0, hr2, he1, by omega⟩

theorem namesFold_objGet_at (nameCol : Nat) (extra : List (List String)) :
    ∀ (k0 : Nat) (r : List String) (base : Nat) (m : List (String × Nat)),
      extra[k0]? = some r → rowName nameCol r ≠ "" →
      (∀ k1 r1, k0 < k1 → extra[k1]? = some r1 → rowName nameCol r1 ≠ "" →
        normalizeName (rowName nameCol r1) ≠ normalizeName (rowName nameCol r)) →
      objGet (namesFold nameCol extra base m) (normalizeName (rowName nameCol r)) =
        some (base + k0) := by
  induction extra with
  | nil => intro k0 r base m h; simp at h
  | cons x xs ih =>
    intro k0 r base m hk0 hr hlater
    cases k0 with
    | zero =>
      have hx : x = r := by simpa using hk0
      subst hx
      rw [namesFold, if_neg hr, Nat.add_zero]
      refine namesFold_objGet_preserved nameCol xs _ base (base + 1) _ ?_ ?_
      · exact objGet_objSet_self m _ base
      · intro r1 hr1 hname1
        obtain ⟨k1, hk1⟩ := List.mem_iff_getElem?.mp hr1
        exact hlater (k1 + 1) r1 (Nat.succ_pos k1) (by simpa using hk1) hname1
    | succ k2 =>
      rw [namesFold]
      have hres := ih k2 r (base + 1)
        (if rowName nameCol x = "" then m
         else objSet m (normalizeName (rowName nameCol x)) base)
        (by simpa using hk0) hr
        (fun k1 r1 ha hb hc => hlater (k1 + 1) r1 (by omega) (by simpa using hb) hc)
      rw [show base + (k2 + 1) = base + 1 + k2 from by omega]
      exact hres

/- ── Reconciliation lemmas: appended rows ─────────────────────────────── -/

theorem getD_newRowFor_name (L n : Nat) (rc sc : Option Nat) (name role : String)
    (hn : n < L) (hr : rc ≠ some n) (hs : sc ≠ some n) :
    (newRowFor L n rc sc name role)[n]?.getD "" = name := by
  unfold newRowFor
  have hself : ((List.replicate L "").set n name)[n]? = some name :=
    List.getElem?_set_self (by simpa using hn)
  rcases sc with _ | scv
  · rcases rc with _ | rcv
    · simp [hself]
    · have hrn : rcv ≠ n := fun he => hr (by rw [he])
      rw [List.getElem?_set_ne hrn, hself]
      rfl
  · have hsn : scv ≠ n := fun he => hs (by rw [he])
    rcases rc with _ | rcv
    · rw [List.getElem?_set_ne hsn, hself]
      rfl
    · have hrn : rcv ≠ n := fun he => hr (by rw [he])
      rw [List.getElem?_set_ne hsn, List.getElem?_set_ne hrn, hself]
      rfl

theorem getD_newRowFor_role (L n : Nat) (rcv : Nat) (sc : Option Nat)
    (name role : String) (hrc : rcv < L) (hs : sc ≠ some rcv) :
    (newRowFor L n (some rcv) sc name role)[rcv]?.getD "" = role := by
  unfold newRowFor
  have hself : (((List.replicate L "").set n name).set rcv role)[rcv]? = some role :=
    List.getElem?_set_self (by simpa using hrc)
  rcases sc with _ | scv
  · simp [hself]
  · have hsn : scv ≠ rcv := fun he => hs (by rw [he])
    rw [List.getElem?_set_ne hsn, hself]
    rfl

theorem getD_newRowFor_status (L n : Nat) (rc : Option Nat) (scv : Nat)
    (name role : String) (hsc : scv < L) :
    (newRowFor L n rc (some scv) name role)[scv]?.getD "" = "Active" := by
  unfold newRowFor
  rcases rc with _ | rcv
  · rw [List.getElem?_set_self (by simpa using hsc)]
    rfl
  · rw [List.getElem?_set_self (by simpa using hsc)]
    rfl

theorem getD_newRowFor_blank (L n : Nat) (rc sc : Option Nat) (name role : String)
    (j : Nat) (hn : j ≠ n) (hr : rc ≠ some j) (hs : sc ≠ some j) :
    (newRowFor L n rc sc name role)[j]?.getD "" = "" := by
  unfold newRowFor
  have hrep : (List.replicate L "")[j]?.getD "" = "" := by
    rw [List.getElem?_replicate]
    by_cases hj : j < L <;> simp [hj]
  have hbase : ((List.replicate L "").set n name)[j]?.getD "" = "" := by
    rw [List.getElem?_set_ne (fun he => hn he.symm)]
    exact hrep
  rcases sc with _ | scv
  · rcases rc with _ | rcv
    · exact hbase
    · have hrn : rcv ≠ j := fun he => hr (by rw [he])
      rw [List.getElem?_set_ne hrn]
      exact hbase
  · have hsn : scv ≠ j := fun he => hs (by rw [he])
    rcases rc with _ | rcv
    · rw [List.getElem?_set_ne hsn]
      exact hbase
    · have hrn : rcv ≠ j := fun he => hr (by rw [he])
      rw [List.getElem?_set_ne hsn, List.getElem?_set_ne hrn]
      exact hbase

/- ── Reconciliation lemmas: the computed plan ─────────────────────────── -/

theorem findIdx?_pred (p : String → Bool) (l : List String) (i : Nat)
    (h : l.findIdx? p = some i) : i < l.length ∧ p (l[i]?.getD "") = true := by
  rcases List.findIdx?_eq_some_iff_getElem.mp h with ⟨hlt, hp, _⟩
  refine ⟨hlt, ?_⟩
  rw [List.getElem?_eq_getElem hlt]
  simpa using hp

theorem findIdx?_ne_of_labels (l : List String) (a b : String) (i j : Nat)
    (ha : l.findIdx? (fun s => jsToLower s == a) = some i)
    (hb : l.findIdx? (fun s => jsToLower s == b) = some j)
    (hab : a ≠ b) : i ≠ j := by
  intro he
  subst he
  obtain ⟨_, hpa⟩ := findIdx?_pred _ l i ha
  obtain ⟨_, hpb⟩ := findIdx?_pred _ l i hb
  rw [beq_iff_eq] at hpa hpb
  exact hab (hpa.symm.trans hpb)

theorem computeSync_inv (users : List StUser) (rows : List (List String)) (plan : SyncPlan)
    (h : computeSync users rows = some plan) :
    ∃ headerRow rest, rows = headerRow :: rest ∧
      (headerRow.map jsTrim).findIdx? (fun s => jsToLower s == "name") = some plan.nameCol ∧
      plan.roleCol = (headerRow.map jsTrim).findIdx? (fun s => jsToLower s == "role") ∧
      plan.statusCol = (headerRow.map jsTrim).findIdx? (fun s => jsToLower s == "status") ∧
      plan.headerLen = headerRow.length ∧
      plan.newRows = (newUsersOf users (buildExistingNames rows plan.nameCol)).map
        (fun p => newRowFor plan.headerLen plan.nameCol plan.roleCol plan.statusCol
          p.1 p.2) ∧
      plan.rolePatches = updatedRolesOf users (buildExistingNames rows plan.nameCol) rows
        plan.roleCol ∧
      plan.activeRows = (match plan.statusCol with
        | some sc => markedActiveOf (buildExistingNames rows plan.nameCol) rows sc
            (activeNamesOf users)
        | none => []) ∧
      plan.inactiveRows = (match plan.statusCol with
        | some sc => markedInactiveOf (buildExistingNames rows plan.nameCol) rows sc
            (activeNamesOf users)
        | none => []) := by
  cases rows with
  | nil => cases h
  | cons hr rest =>
    simp only [computeSync] at h
    rcases hname : (hr.map jsTrim).findIdx? (fun s => jsToLower s == "name") with _ | nc
    · rw [hname] at h
      cases h
    · rw [hname] at h
      injection h with he
      subst he
      exact ⟨hr, rest, rfl, hname, rfl, rfl, by simp, rfl, rfl, rfl, rfl⟩

theorem newUsersOf_inv (users : List StUser) (existing : List (String × Nat))
    (p : String × String) (h : p ∈ newUsersOf users existing) :
    ∃ u ∈ users, activeUserB u = true ∧ userFullName u ≠ "" ∧
      objGet existing (normalizeName (userFullName u)) = none ∧
      p = (userFullName u, userRole u) := by
  obtain ⟨u, hu, hfu⟩ := List.mem_filterMap.mp h
  refine ⟨u, hu, ?_⟩
  simp only [newUsersOf] at hfu
  split at hfu
  · cases hfu
  · split at hfu
    · cases hfu
    · split at hfu
      · cases hfu
      · rename_i h1 h2 h3
        injection hfu with he
        refine ⟨by simpa using h2, h1, ?_, he.symm⟩
        simpa using h3

theorem newUsersOf_intro (users : List StUser) (existing : List (String × Nat))
    (u : StUser) (hu : u ∈ users) (ha : activeUserB u = true) (hn : userFullName u ≠ "")
    (hg : objGet existing (normalizeName (userFullName u)) = none) :
    (userFullName u, userRole u) ∈ newUsersOf users existing := by
  refine List.mem_filterMap.mpr ⟨u, hu, ?_⟩
  simp only [newUsersOf]
  rw [if_neg hn, if_neg (by simp [ha]), if_neg (by simp [hg])]

theorem activeNamesOf_intro (users : List StUser) (u : StUser) (hu : u ∈ users)
    (ha : activeUserB u = true) (hn : userFullName u ≠ "") :
    normalizeName (userFullName u) ∈ activeNamesOf users := by
  refine List.mem_filterMap.mpr ⟨u, hu, ?_⟩
  simp only [activeNamesOf]
  rw [if_neg hn, if_neg (by simp [ha])]

theorem activeNamesOf_inv (users : List StUser) (k : String)
    (h : k ∈ activeNamesOf users) :
    ∃ u ∈ users, activeUserB u = true ∧ userFullName u ≠ "" ∧
      k = normalizeName (userFullName u) := by
  obtain ⟨u, hu, hfu⟩ := List.mem_filterMap.mp h
  refine ⟨u, hu, ?_⟩
  simp only [activeNamesOf] at hfu
  split at hfu
  · cases hfu
  · split at hfu
    · cases hfu
    · rename_i h1 h2
      injection hfu with he
      exact ⟨by simpa using h2, h1, he.symm⟩

theorem updatedRolesOf_inv (users : List StUser) (existing : List (String × Nat))
    (rows : List (List String)) (roleCol : Option Nat) (p : Nat × String)
    (h : p ∈ updatedRolesOf users existing rows roleCol) :
    ∃ u ∈ users, ∃ rc, roleCol = some rc ∧ activeUserB u = true ∧ userFullName u ≠ "" ∧
      objGet existing (normalizeName (userFullName u)) = some p.1 ∧
      p.2 = userRole u ∧ userRole u ≠ "" ∧
      jsTrim (cellOf rows p.1 rc) ≠ userRole u := by
  obtain ⟨u, hu, hfu⟩ := List.mem_filterMap.mp h
  refine ⟨u, hu, ?_⟩
  simp only [] at hfu
  by_cases h1 : userFullName u = ""
  · rw [if_pos h1] at hfu
    cases hfu
  · rw [if_neg h1] at hfu
    by_cases h2 : activeUserB u = true
    · rw [if_neg (by simp [h2])] at hfu
      rcases hget : objGet existing (normalizeName (userFullName u)) with _ | rowIdx <;>
        rcases hcol : roleCol with _ | rc <;> rw [hget, hcol] at hfu <;>
        simp only [] at hfu
      · cases hfu
      · cases hfu
      · cases hfu
      · by_cases h3 : userRole u = ""
        · rw [if_pos h3] at hfu
          cases hfu
        · rw [if_neg h3] at hfu
          by_cases h4 : jsTrim (cellOf rows rowIdx rc) = userRole u
          · rw [if_pos h4] at hfu
            cases hfu
          · rw [if_neg h4] at hfu
            injection hfu with he
            rw [← he]
            exact ⟨rc, rfl, h2, h1, rfl, rfl, h3, h4⟩
    · have h2f : activeUserB u = false := by
        revert h2
        cases activeUserB u <;> simp
      rw [if_pos (by simp [h2f])] at hfu
      cases hfu

theorem markedActiveOf_inv (existing : List (String × Nat)) (rows : List (List String))
    (sc : Nat) (act : List String) (i : Nat) (h : i ∈ markedActiveOf existing rows sc act) :
    ∃ k, (k, i) ∈ existing ∧ k ∈ act ∧
      jsToLower (jsTrim (cellOf rows i sc)) ≠ "active" := by
  obtain ⟨e, he, hfe⟩ := List.mem_filterMap.mp h
  split at hfe
  · split at hfe
    · cases hfe
    · rename_i h1 h2
      injection hfe with he2
      refine ⟨e.1, ?_, h1, ?_⟩
      · rw [← he2]
        simpa using he
      · rw [← he2]
        exact h2
  · cases hfe

theorem markedActiveOf_intro (existing : List (String × Nat)) (rows : List (List String))
    (sc : Nat) (act : List String) (k : String) (i : Nat) (he : (k, i) ∈ existing)
    (hk : k ∈ act) (hc : jsToLower (jsTrim (cellOf rows i sc)) ≠ "active") :
    i ∈ markedActiveOf existing rows sc act := by
  refine List.mem_filterMap.mpr ⟨(k, i), he, ?_⟩
  simp only [markedActiveOf]
  rw [if_pos hk, if_neg hc]

theorem markedInactiveOf_inv (existing : List (String × Nat)) (rows : List (List String))
    (sc : Nat) (act : List String) (i : Nat)
    (h : i ∈ markedInactiveOf existing rows sc act) :
    ∃ k, (k, i) ∈ existing ∧ k ∉ act ∧
      jsToLower (jsTrim (cellOf rows i sc)) ≠ "inactive" := by
  obtain ⟨e, he, hfe⟩ := List.mem_filterMap.mp h
  split at hfe
  · cases hfe
  · split at hfe
    · cases hfe
    · rename_i h1 h2
      injection hfe with he2
      refine ⟨e.1, ?_, h1, ?_⟩
      · rw [← he2]
        simpa using he
      · rw [← he2]
        exact h2

/- ── Reconciliation lemmas: applying a plan ───────────────────────────── -/

theorem setCell_head (rows : List (List String)) (i j : Nat) (v : String) (hi : 1 ≤ i) :
    (setCell rows i j v).head? = rows.head? := by
  cases rows with
  | nil => rfl
  | cons r rs =>
    cases i with
    | zero => exact absurd hi (by omega)
    | succ i2 => rfl

theorem foldl_setCell_head (ps : List (Nat × String)) (c : Nat) :
    ∀ rs : List (List String), (∀ p ∈ ps, 1 ≤ p.1) →
      (ps.foldl (fun r p => setCell r p.1 c p.2) rs).head? = rs.head? := by
  induction ps with
  | nil => intro rs _; rfl
  | cons p ps2 ih =>
    intro rs h
    rw [List.foldl_cons, ih _ (fun q hq => h q (by simp [hq])),
      setCell_head _ _ _ _ (h p (by simp))]

theorem foldl_setStatus_length (l : List Nat) (sc : Nat) (w : String)
    (rs : List (List String)) :
    (l.foldl (fun r i => setCell r i sc w) rs).length = rs.length := by
  rw [foldl_setStatus_eq_map, foldl_setCell_length]

theorem foldl_setStatus_append (l : List Nat) (sc : Nat) (w : String)
    (rs more : List (List String)) (h : ∀ i ∈ l, i < rs.length) :
    l.foldl (fun r i => setCell r i sc w) (rs ++ more) =
      l.foldl (fun r i => setCell r i sc w) rs ++ more := by
  rw [foldl_setStatus_eq_map, foldl_setStatus_eq_map]
  refine foldl_setCell_append _ sc rs more ?_
  intro p hp
  obtain ⟨i, hi, rfl⟩ := List.mem_map.mp hp
  exact h i hi

theorem foldl_setStatus_head (l : List Nat) (sc : Nat) (w : String)
    (rs : List (List String)) (h : ∀ i ∈ l, 1 ≤ i) :
    (l.foldl (fun r i => setCell r i sc w) rs).head? = rs.head? := by
  rw [foldl_setStatus_eq_map]
  refine foldl_setCell_head _ sc rs ?_
  intro p hp
  obtain ⟨i, hi, rfl⟩ := List.mem_map.mp hp
  exact h i hi

theorem cellOf_foldl_setStatus_ne_col (l : List Nat) (sc : Nat) (w : String) (i j : Nat)
    (hj : j ≠ sc) (rs : List (List String)) :
    cellOf (l.foldl (fun r i2 => setCell r i2 sc w) rs) i j = cellOf rs i j := by
  rw [foldl_setStatus_eq_map]
  exact cellOf_foldl_setCell_ne_col _ sc i j hj rs

theorem cellOf_foldl_setStatus_ne_row (l : List Nat) (sc : Nat) (w : String) (i j : Nat)
    (rs : List (List String)) (hi : ∀ i2 ∈ l, i2 ≠ i) :
    cellOf (l.foldl (fun r i2 => setCell r i2 sc w) rs) i j = cellOf rs i j := by
  rw [foldl_setStatus_eq_map]
  refine cellOf_foldl_setCell_ne_row _ sc i j rs ?_
  intro p hp
  obtain ⟨i2, hi2, rfl⟩ := List.mem_map.mp hp
  exact hi i2 hi2

theorem cellOf_foldl_setStatus_mem (l : List Nat) (sc : Nat) (w : String) (i : Nat)
    (rs : List (List String)) (hlen : i < rs.length) (hmem : i ∈ l) :
    cellOf (l.foldl (fun r i2 => setCell r i2 sc w) rs) i sc = w := by
  rw [foldl_setStatus_eq_map]
  refine cellOf_foldl_setCell_mem _ sc i w rs ?_ hlen (Or.inl ?_)
  · intro p hp _
    obtain ⟨i2, _, rfl⟩ := List.mem_map.mp hp
    rfl
  · exact List.mem_map.mpr ⟨i, hmem, rfl⟩

theorem applyPlan_eq_patches_append (rows : List (List String)) (plan : SyncPlan)
    (hrp : ∀ p ∈ plan.rolePatches, p.1 < rows.length)
    (hac : ∀ i ∈ plan.activeRows, i < rows.length)
    (hin : ∀ i ∈ plan.inactiveRows, i < rows.length) :
    applyPlan rows plan = applyPatches rows plan ++ plan.newRows := by
  unfold applyPlan applyPatches
  rcases plan.roleCol with _ | rc <;> rcases plan.statusCol with _ | sc <;> simp only []
  case none.some =>
    rw [foldl_setStatus_append plan.activeRows sc "Active" rows plan.newRows hac]
    refine foldl_setStatus_append plan.inactiveRows sc "Inactive" _ plan.newRows ?_
    intro i hi
    rw [foldl_setStatus_length]
    exact hin i hi
  case some.none =>
    exact foldl_setCell_append plan.rolePatches rc rows plan.newRows hrp
  case some.some =>
    rw [foldl_setCell_append plan.rolePatches rc rows plan.newRows hrp]
    rw [foldl_setStatus_append plan.activeRows sc "Active" _ plan.newRows
      (fun i hi => by rw [foldl_setCell_length]; exact hac i hi)]
    refine foldl_setStatus_append plan.inactiveRows sc "Inactive" _ plan.newRows ?_
    intro i hi
    rw [foldl_setStatus_length, foldl_setCell_length]
    exact hin i hi

theorem applyPatches_length (rows : List (List String)) (plan : SyncPlan) :
    (applyPatches rows plan).length = rows.length := by
  unfold applyPatches
  rcases plan.roleCol with _ | rc <;> rcases plan.statusCol with _ | sc <;> simp only []
  case none.some => rw [foldl_setStatus_length, foldl_setStatus_length]
  case some.none => rw [foldl_setCell_length]
  case some.some =>
    rw [foldl_setStatus_length, foldl_setStatus_length, foldl_setCell_length]

theorem applyPatches_head (rows : List (List String)) (plan : SyncPlan)
    (hrp : ∀ p ∈ plan.rolePatches, 1 ≤ p.1) (hac : ∀ i ∈ plan.activeRows, 1 ≤ i)
    (hin : ∀ i ∈ plan.inactiveRows, 1 ≤ i) :
    (applyPatches rows plan).head? = rows.head? := by
  unfold applyPatches
  rcases plan.roleCol with _ | rc <;> rcases plan.statusCol with _ | sc <;> simp only []
  case none.some =>
    rw [foldl_setStatus_head _ sc _ _ hin, foldl_setStatus_head _ sc _ _ hac]
  case some.none => exact foldl_setCell_head plan.rolePatches rc rows hrp
  case some.some =>
    rw [foldl_setStatus_head _ sc _ _ hin, foldl_setStatus_head _ sc _ _ hac]
    exact foldl_setCell_head plan.rolePatches rc rows hrp

theorem cellOf_applyPatches_other (rows : List (List String)) (plan : SyncPlan)
    (i j : Nat) (hrc : plan.roleCol ≠ some j) (hsc : plan.statusCol ≠ some j) :
    cellOf (applyPatches rows plan) i j = cellOf rows i j := by
  unfold applyPatches
  rcases hr : plan.roleCol with _ | rc <;> rcases hs : plan.statusCol with _ | sc <;>
    simp only []
  case none.some =>
    have hjs : j ≠ sc := fun he => hsc (by rw [hs, he])
    rw [cellOf_foldl_setStatus_ne_col _ sc _ i j hjs,
      cellOf_foldl_setStatus_ne_col _ sc _ i j hjs]
  case some.none =>
    have hjr : j ≠ rc := fun he => hrc (by rw [hr, he])
    exact cellOf_foldl_setCell_ne_col _ rc i j hjr rows
  case some.some =>
    have hjs : j ≠ sc := fun he => hsc (by rw [hs, he])
    have hjr : j ≠ rc := fun he => hrc (by rw [hr, he])
    rw [cellOf_foldl_setStatus_ne_col _ sc _ i j hjs,
      cellOf_foldl_setStatus_ne_col _ sc _ i j hjs]
    exact cellOf_foldl_setCell_ne_col _ rc i j hjr rows

theorem cellOf_applyPatches_role (rows : List (List String)) (plan : SyncPlan)
    (rc i : Nat) (v : String) (hrc : plan.roleCol = some rc)
    (hdiff : plan.statusCol ≠ some rc)
    (hall : ∀ p ∈ plan.rolePatches, p.1 = i → p.2 = v) (hlen : i < rows.length)
    (hstart : (i, v) ∈ plan.rolePatches ∨ cellOf rows i rc = v) :
    cellOf (applyPatches rows plan) i rc = v := by
  unfold applyPatches
  rw [hrc]
  rcases hs : plan.statusCol with _ | sc <;> simp only []
  · exact cellOf_foldl_setCell_mem _ rc i v rows hall hlen hstart
  · have hjs : rc ≠ sc := fun he => hdiff (by rw [hs, he])
    rw [cellOf_foldl_setStatus_ne_col _ sc _ i rc hjs,
      cellOf_foldl_setStatus_ne_col _ sc _ i rc hjs]
    exact cellOf_foldl_setCell_mem _ rc i v rows hall hlen hstart

theorem cellOf_applyPatches_role_frame (rows : List (List String)) (plan : SyncPlan)
    (rc i : Nat) (hrc : plan.roleCol = some rc) (hdiff : plan.statusCol ≠ some rc)
    (hnone : ∀ p ∈ plan.rolePatches, p.1 ≠ i) :
    cellOf (applyPatches rows plan) i rc = cellOf rows i rc := by
  unfold applyPatches
  rw [hrc]
  rcases hs : plan.statusCol with _ | sc <;> simp only []
  · exact cellOf_foldl_setCell_ne_row _ rc i rc rows hnone
  · have hjs : rc ≠ sc := fun he => hdiff (by rw [hs, he])
    rw [cellOf_foldl_setStatus_ne_col _ sc _ i rc hjs,
      cellOf_foldl_setStatus_ne_col _ sc _ i rc hjs]
    exact cellOf_foldl_setCell_ne_row _ rc i rc rows hnone

theorem cellOf_applyPatches_statusInactive (rows : List (List String)) (plan : SyncPlan)
    (sc i : Nat) (hsc : plan.statusCol = some sc) (hlen : i < rows.length)
    (hmem : i ∈ plan.inactiveRows) :
    cellOf (applyPatches rows plan) i sc = "Inactive" := by
  unfold applyPatches
  rw [hsc]
  rcases hr : plan.roleCol with _ | rc <;> simp only []
  · refine cellOf_foldl_setStatus_mem _ sc _ i _ ?_ hmem
    rw [foldl_setStatus_length]
    exact hlen
  · refine cellOf_foldl_setStatus_mem _ sc _ i _ ?_ hmem
    rw [foldl_setStatus_length, foldl_setCell_length]
    exact hlen

theorem cellOf_applyPatches_statusActive (rows : List (List String)) (plan : SyncPlan)
    (sc i : Nat) (hsc : plan.statusCol = some sc) (hlen : i < rows.length)
    (hmem : i ∈ plan.activeRows) (hni : ∀ i2 ∈ plan.inactiveRows, i2 ≠ i) :
    cellOf (applyPatches rows plan) i sc = "Active" := by
  unfold applyPatches
  rw [hsc]
  rcases hr : plan.roleCol with _ | rc <;> simp only []
  · rw [cellOf_foldl_setStatus_ne_row _ sc _ i sc _ hni]
    exact cellOf_foldl_setStatus_mem _ sc _ i _ hlen hmem
  · rw [cellOf_foldl_setStatus_ne_row _ sc _ i sc _ hni]
    refine cellOf_foldl_setStatus_mem _ sc _ i _ ?_ hmem
    rw [foldl_setCell_length]
    exact hlen

theorem cellOf_applyPatches_status_frame (rows : List (List String)) (plan : SyncPlan)
    (sc i : Nat) (hsc : plan.statusCol = some sc) (hdiff : plan.roleCol ≠ some sc)
    (hna : ∀ i2 ∈ plan.activeRows, i2 ≠ i) (hni : ∀ i2 ∈ plan.inactiveRows, i2 ≠ i) :
    cellOf (applyPatches rows plan) i sc = cellOf rows i sc := by
  unfold applyPatches
  rw [hsc]
  rcases hr : plan.roleCol with _ | rc <;> simp only []
  · rw [cellOf_foldl_setStatus_ne_row _ sc _ i sc _ hni,
      cellOf_foldl_setStatus_ne_row _ sc _ i sc _ hna]
  · have hjs : sc ≠ rc := fun he => hdiff (by rw [hr, he])
    rw [cellOf_foldl_setStatus_ne_row _ sc _ i sc _ hni,
      cellOf_foldl_setStatus_ne_row _ sc _ i sc _ hna]
    exact cellOf_foldl_setCell_ne_col _ rc i sc hjs rows

theorem runWrites_prefix (ok : WriteOp → Bool) (pre : List WriteOp) (w : WriteOp)
    (post : List WriteOp) :
    (∀ x ∈ pre, ok x = true) → ok w = false →
      runWrites ok (pre ++ w :: post) = pre := by
  induction pre with
  | nil =>
    intro _ hw
    show runWrites ok (w :: post) = []
    rw [runWrites, if_neg (by simp [hw])]
  | cons x xs ih =>
    intro hpre hw
    have hx : ok x = true := hpre x (by simp)
    show runWrites ok (x :: (xs ++ w :: post)) = x :: xs
    rw [runWrites, if_pos hx, ih (fun y hy => hpre y (by simp [hy])) hw]

/- ── Reconciliation lemmas: towards idempotence ───────────────────────── -/

theorem plan_targets_bounds (users : List StUser) (rows : List (List String))
    (plan : SyncPlan) (hplan : computeSync users rows = some plan) :
    (∀ p ∈ plan.rolePatches, 1 ≤ p.1 ∧ p.1 < rows.length) ∧
    (∀ i ∈ plan.activeRows, 1 ≤ i ∧ i < rows.length) ∧
    (∀ i ∈ plan.inactiveRows, 1 ≤ i ∧ i < rows.length) := by
  obtain ⟨hrow, rest, hrows, hname, hrole, hstatus, hlen, hnew, hrp, hact, hinact⟩ :=
    computeSync_inv users rows plan hplan
  refine ⟨?_, ?_, ?_⟩
  · intro p hp
    rw [hrp] at hp
    obtain ⟨u, _, rc2, _, _, _, hget, _, _, _⟩ :=
      updatedRolesOf_inv users _ rows plan.roleCol p hp
    have hspec := buildExistingNames_spec rows plan.nameCol _ (objGet_some_mem _ _ _ hget)
    exact ⟨hspec.1, hspec.2.1⟩
  · intro i hi
    rw [hact] at hi
    rcases hsc : plan.statusCol with _ | sc
    · rw [hsc] at hi
      simp only [] at hi
      cases hi
    · rw [hsc] at hi
      simp only [] at hi
      obtain ⟨k, hke, _, _⟩ := markedActiveOf_inv _ rows sc _ i hi
      have hspec := buildExistingNames_spec rows plan.nameCol _ hke
      exact ⟨hspec.1, hspec.2.1⟩
  · intro i hi
    rw [hinact] at hi
    rcases hsc : plan.statusCol with _ | sc
    · rw [hsc] at hi
      simp only [] at hi
      cases hi
    · rw [hsc] at hi
      simp only [] at hi
      obtain ⟨k, hke, _, _⟩ := markedInactiveOf_inv _ rows sc _ i hi
      have hspec := buildExistingNames_spec rows plan.nameCol _ hke
      exact ⟨hspec.1, hspec.2.1⟩

theorem updatedRolesOf_none (users : List StUser) (existing : List (String × Nat))
    (rows : List (List String)) : updatedRolesOf users existing rows none = [] := by
  refine List.filterMap_eq_nil_iff.mpr ?_
  intro u _
  simp only []
  by_cases h1 : userFullName u = ""
  · rw [if_pos h1]
  · rw [if_neg h1]
    by_cases h2 : activeUserB u = true
    · rw [if_neg (by simp [h2])]
      rcases objGet existing (normalizeName (userFullName u)) with _ | i <;> rfl
    · rw [if_pos (by
        have h2f : activeUserB u = false := by revert h2; cases activeUserB u <;> simp
        simp [h2f])]

theorem updatedRolesOf_intro (users : List StUser) (existing : List (String × Nat))
    (rows : List (List String)) (rc : Nat) (u : StUser) (i : Nat) (hu : u ∈ users)
    (ha : activeUserB u = true) (hn : userFullName u ≠ "")
    (hg : objGet existing (normalizeName (userFullName u)) = some i)
    (hr : userRole u ≠ "") (hm : jsTrim (cellOf rows i rc) ≠ userRole u) :
    (i, userRole u) ∈ updatedRolesOf users existing rows (some rc) := by
  refine List.mem_filterMap.mpr ⟨u, hu, ?_⟩
  simp only []
  rw [if_neg hn, if_neg (by simp [ha]), hg]
  simp only []
  rw [if_neg hr, if_neg hm]

theorem active_name_unique (users : List StUser) (H2 : (activeNamesOf users).Nodup)
    (u u2 : StUser) (hu : u ∈ users) (hu2 : u2 ∈ users) (ha : activeUserB u = true)
    (ha2 : activeUserB u2 = true) (hn : userFullName u ≠ "") (hn2 : userFullName u2 ≠ "")
    (hk : normalizeName (userFullName u) = normalizeName (userFullName u2)) :
    u = u2 := by
  refine nodup_filterMap_inj _ users u u2 (normalizeName (userFullName u2)) H2 hu hu2 ?_ ?_
  · simp only []
    rw [if_neg hn, if_neg (by simp [ha]), hk]
  · simp only []
    rw [if_neg hn2, if_neg (by simp [ha2])]

theorem newUsersOf_keys_nodup (users : List StUser) (existing : List (String × Nat))
    (H2 : (activeNamesOf users).Nodup) :
    ((newUsersOf users existing).map (fun p => normalizeName p.1)).Nodup := by
  rw [newUsersOf, List.map_filterMap]
  refine List.Nodup.sublist ?_ H2
  rw [activeNamesOf]
  refine filterMap_mono_sublist _ _ users ?_
  intro u k h
  simp only [] at h
  simp only []
  by_cases h1 : userFullName u = ""
  · rw [if_pos h1] at h
    cases h
  · rw [if_neg h1] at h
    rw [if_neg h1]
    by_cases h2 : activeUserB u = true
    · rw [if_neg (by simp [h2])] at h
      rw [if_neg (by simp [h2])]
      by_cases h3 : (objGet existing (normalizeName (userFullName u))).isSome
      · rw [if_pos h3] at h
        cases h
      · rw [if_neg h3] at h
        exact h
    · rw [if_pos (by
        have h2f : activeUserB u = false := by revert h2; cases activeUserB u <;> simp
        simp [h2f])] at h
      cases h

theorem newRow_rowName (users : List StUser) (existing : List (String × Nat))
    (L n : Nat) (rc sc : Option Nat) (p : String × String) (hn : n < L)
    (hr : rc ≠ some n) (hs : sc ≠ some n) (hp : p ∈ newUsersOf users existing) :
    rowName n (newRowFor L n rc sc p.1 p.2) = p.1 ∧ p.1 ≠ "" ∧
      objGet existing (normalizeName p.1) = none := by
  obtain ⟨u, _, _, hne, hnonex, he⟩ := newUsersOf_inv users existing p hp
  have h1 : rowName n (newRowFor L n rc sc p.1 p.2) = jsTrim p.1 := by
    unfold rowName
    rw [getD_newRowFor_name L n rc sc p.1 p.2 hn hr hs]
  rw [he] at h1 ⊢
  refine ⟨?_, hne, hnonex⟩
  rw [h1]
  exact jsTrim_idem _

theorem markedInactiveOf_intro (existing : List (String × Nat))
    (rows : List (List String)) (sc : Nat) (act : List String) (k : String) (i : Nat)
    (he : (k, i) ∈ existing) (hk : k ∉ act)
    (hc : jsToLower (jsTrim (cellOf rows i sc)) ≠ "inactive") :
    i ∈ markedInactiveOf existing rows sc act := by
  refine List.mem_filterMap.mpr ⟨(k, i), he, ?_⟩
  simp only [markedInactiveOf]
  rw [if_neg hk, if_neg hc]

theorem plan_cols_distinct (users : List StUser) (rows : List (List String))
    (plan : SyncPlan) (hplan : computeSync users rows = some plan) :
    plan.nameCol < plan.headerLen ∧
    plan.roleCol ≠ some plan.nameCol ∧ plan.statusCol ≠ some plan.nameCol ∧
    (∀ rc, plan.roleCol = some rc → rc < plan.headerLen ∧ plan.statusCol ≠ some rc ∧
      rc ≠ plan.nameCol) ∧
    (∀ sc, plan.statusCol = some sc → sc < plan.headerLen ∧ plan.roleCol ≠ some sc ∧
      sc ≠ plan.nameCol) := by
  obtain ⟨hrow, rest, hrows, hname, hrole, hstatus, hlen, _, _, _, _⟩ :=
    computeSync_inv users rows plan hplan
  have hnc : plan.nameCol < plan.headerLen := by
    obtain ⟨hlt, _⟩ := findIdx?_pred _ _ _ hname
    rw [hlen]
    simpa using hlt
  refine ⟨hnc, ?_, ?_, ?_, ?_⟩
  · intro hcon
    exact (findIdx?_ne_of_labels (hrow.map jsTrim) "role" "name" plan.nameCol plan.nameCol
      (hrole.symm.trans hcon) hname (by decide)) rfl
  · intro hcon
    exact (findIdx?_ne_of_labels (hrow.map jsTrim) "status" "name" plan.nameCol
      plan.nameCol (hstatus.symm.trans hcon) hname (by decide)) rfl
  · intro rc hrc
    refine ⟨?_, ?_, ?_⟩
    · obtain ⟨hlt, _⟩ := findIdx?_pred _ _ _ (hrole.symm.trans hrc)
      rw [hlen]
      simpa using hlt
    · intro hcon
      exact (findIdx?_ne_of_labels (hrow.map jsTrim) "status" "role" rc rc
        (hstatus.symm.trans hcon) (hrole.symm.trans hrc) (by decide)) rfl
    · exact findIdx?_ne_of_labels (hrow.map jsTrim) "role" "name" rc plan.nameCol
        (hrole.symm.trans hrc) hname (by decide)
  · intro sc hsc
    refine ⟨?_, ?_, ?_⟩
    · obtain ⟨hlt, _⟩ := findIdx?_pred _ _ _ (hstatus.symm.trans hsc)
      rw [hlen]
      simpa using hlt
    · intro hcon
      exact (findIdx?_ne_of_labels (hrow.map jsTrim) "role" "status" sc sc
        (hrole.symm.trans hcon) (hstatus.symm.trans hsc) (by decide)) rfl
    · exact findIdx?_ne_of_labels (hrow.map jsTrim) "status" "name" sc plan.nameCol
        (hstatus.symm.trans hsc) hname (by decide)

theorem second_existing (users : List StUser) (rows : List (List String))
    (plan : SyncPlan) (hplan : computeSync users rows = some plan) :
    buildExistingNames (applyPlan rows plan) plan.nameCol =
      namesFold plan.nameCol plan.newRows rows.length
        (buildExistingNames rows plan.nameCol) := by
  obtain ⟨hrow, rest, hrows, hname, hrole, hstatus, hlen, hnew, hrp, hact, hinact⟩ :=
    computeSync_inv users rows plan hplan
  obtain ⟨hBrp, hBac, hBin⟩ := plan_targets_bounds users rows plan hplan
  obtain ⟨_, hrcn, hscn, _, _⟩ := plan_cols_distinct users rows plan hplan
  have hlen1 : 1 ≤ rows.length := by rw [hrows]; simp
  have hape : applyPlan rows plan = applyPatches rows plan ++ plan.newRows :=
    applyPlan_eq_patches_append rows plan (fun p hp => (hBrp p hp).2)
      (fun i hi => (hBac i hi).2) (fun i hi => (hBin i hi).2)
  have hPlen : (applyPatches rows plan).length = rows.length :=
    applyPatches_length rows plan
  have hPname : buildExistingNames (applyPatches rows plan) plan.nameCol =
      buildExistingNames rows plan.nameCol := by
    refine buildExistingNames_congr _ rows plan.nameCol hPlen ?_
    intro i h1 h2
    rw [cellOf_applyPatches_other rows plan i plan.nameCol hrcn hscn]
  rw [hape, buildExistingNames_append plan.newRows plan.nameCol (applyPatches rows plan)
    (by rw [hPlen]; exact hlen1), hPname, hPlen]

theorem old_user_second (users : List StUser) (rows : List (List String))
    (plan : SyncPlan) (hplan : computeSync users rows = some plan)
    (k : String) (i : Nat)
    (hget : objGet (buildExistingNames rows plan.nameCol) k = some i) :
    objGet (buildExistingNames (applyPlan rows plan) plan.nameCol) k = some i := by
  obtain ⟨hrow, rest, hrows, hname, hrole, hstatus, hlen, hnew, hrp, hact, hinact⟩ :=
    computeSync_inv users rows plan hplan
  obtain ⟨hncLT, hrcn, hscn, _, _⟩ := plan_cols_distinct users rows plan hplan
  rw [second_existing users rows plan hplan]
  refine namesFold_objGet_preserved plan.nameCol plan.newRows k i rows.length _ hget ?_
  intro r hr hname2
  rw [hnew] at hr
  obtain ⟨p, hpmem, he⟩ := List.mem_map.mp hr
  obtain ⟨hrn, hpne, hpnone⟩ := newRow_rowName users _ plan.headerLen plan.nameCol
    plan.roleCol plan.statusCol p hncLT hrcn hscn hpmem
  rw [← he, hrn]
  intro hcon
  rw [hcon] at hpnone
  exact Option.noConfusion (hpnone.symm.trans hget)

theorem new_user_second (users : List StUser) (rows : List (List String))
    (plan : SyncPlan) (hplan : computeSync users rows = some plan)
    (H2 : (activeNamesOf users).Nodup) (u : StUser) (hu : u ∈ users)
    (ha : activeUserB u = true) (hn : userFullName u ≠ "")
    (hnonex : objGet (buildExistingNames rows plan.nameCol)
      (normalizeName (userFullName u)) = none) :
    ∃ k0, plan.newRows[k0]? = some (newRowFor plan.headerLen plan.nameCol plan.roleCol
        plan.statusCol (userFullName u) (userRole u)) ∧
      objGet (buildExistingNames (applyPlan rows plan) plan.nameCol)
        (normalizeName (userFullName u)) = some (rows.length + k0) := by
  obtain ⟨hrow, rest, hrows, hname, hrole, hstatus, hlen, hnew, hrp, hact, hinact⟩ :=
    computeSync_inv users rows plan hplan
  obtain ⟨hncLT, hrcn, hscn, _, _⟩ := plan_cols_distinct users rows plan hplan
  have hpmem : (userFullName u, userRole u) ∈ newUsersOf users
      (buildExistingNames rows plan.nameCol) :=
    newUsersOf_intro users _ u hu ha hn hnonex
  obtain ⟨k0, hk0⟩ := List.mem_iff_getElem?.mp hpmem
  have hrow0 : plan.newRows[k0]? = some (newRowFor plan.headerLen plan.nameCol
      plan.roleCol plan.statusCol (userFullName u) (userRole u)) := by
    rw [hnew, List.getElem?_map, hk0]
    rfl
  refine ⟨k0, hrow0, ?_⟩
  rw [second_existing users rows plan hplan]
  have hkey : ∀ (k1 : Nat) (r1 : List String), plan.newRows[k1]? = some r1 →
      ∃ p1 : String × String,
        (newUsersOf users (buildExistingNames rows plan.nameCol))[k1]? = some p1 ∧
        rowName plan.nameCol r1 = p1.1 := by
    intro k1 r1 h1
    rw [hnew, List.getElem?_map] at h1
    rcases hq : (newUsersOf users (buildExistingNames rows plan.nameCol))[k1]? with _ | p1
    · rw [hq] at h1
      cases h1
    · rw [hq] at h1
      injection h1 with h1e
      refine ⟨p1, rfl, ?_⟩
      obtain ⟨hrn, _, _⟩ := newRow_rowName users _ plan.headerLen plan.nameCol
        plan.roleCol plan.statusCol p1 hncLT hrcn hscn (List.getElem?_mem hq)
      rw [← h1e, hrn]
  have hrnu := newRow_rowName users _ plan.headerLen plan.nameCol plan.roleCol
    plan.statusCol (userFullName u, userRole u) hncLT hrcn hscn hpmem
  have hND := newUsersOf_keys_nodup users (buildExistingNames rows plan.nameCol) H2
  have hlater : ∀ k1 r1, k0 < k1 → plan.newRows[k1]? = some r1 →
      rowName plan.nameCol r1 ≠ "" →
      normalizeName (rowName plan.nameCol r1) ≠ normalizeName (rowName plan.nameCol
        (newRowFor plan.headerLen plan.nameCol plan.roleCol plan.statusCol
          (userFullName u) (userRole u))) := by
    intro k1 r1 hlt h1 hne1
    obtain ⟨p1, hq1, hrn1⟩ := hkey k1 r1 h1
    rw [hrn1, hrnu.1]
    intro hcon
    have hK1 : ((newUsersOf users (buildExistingNames rows plan.nameCol)).map
        (fun p => normalizeName p.1))[k1]? = some (normalizeName p1.1) := by
      rw [List.getElem?_map, hq1]
      rfl
    have hK0 : ((newUsersOf users (buildExistingNames rows plan.nameCol)).map
        (fun p => normalizeName p.1))[k0]? =
          some (normalizeName (userFullName u, userRole u).1) := by
      rw [List.getElem?_map, hk0]
      rfl
    rw [hcon] at hK1
    have heq := nodup_getElem?_inj _ hND k1 k0 _ hK1 hK0
    omega
  have hres := namesFold_objGet_at plan.nameCol plan.newRows k0
    (newRowFor plan.headerLen plan.nameCol plan.roleCol plan.statusCol
      (userFullName u) (userRole u)) rows.length
    (buildExistingNames rows plan.nameCol) hrow0 (by rw [hrnu.1]; exact hn) hlater
  rw [hrnu.1] at hres
  exact hres

theorem role_cell_second (users : List StUser) (rows : List (List String))
    (plan : SyncPlan) (rc : Nat) (u : StUser) (i : Nat)
    (hplan : computeSync users rows = some plan)
    (H1 : ∀ u2 ∈ users, jsTrim (userRole u2) = userRole u2)
    (H2 : (activeNamesOf users).Nodup)
    (hrc : plan.roleCol = some rc) (hu : u ∈ users) (ha : activeUserB u = true)
    (hn : userFullName u ≠ "")
    (hget : objGet (buildExistingNames rows plan.nameCol)
      (normalizeName (userFullName u)) = some i)
    (hrole : userRole u ≠ "") :
    jsTrim (cellOf (applyPatches rows plan) i rc) = userRole u := by
  obtain ⟨hrow, rest, hrows, hname, hroleE, hstatus, hlen, hnew, hrp, hact, hinact⟩ :=
    computeSync_inv users rows plan hplan
  obtain ⟨_, _, _, hrcF, _⟩ := plan_cols_distinct users rows plan hplan
  obtain ⟨_, hscrc, _⟩ := hrcF rc hrc
  have hkmem := objGet_some_mem _ _ _ hget
  have hall : ∀ p ∈ plan.rolePatches, p.1 = i → p.2 = userRole u := by
    intro p hp hpi
    rw [hrp] at hp
    obtain ⟨u2, hu2, rc2, _, ha2, hn2, hget2, hp2, _, _⟩ :=
      updatedRolesOf_inv users _ rows plan.roleCol p hp
    rw [hpi] at hget2
    have hkmem2 := objGet_some_mem _ _ _ hget2
    have hkeq : normalizeName (userFullName u2) = normalizeName (userFullName u) :=
      buildExistingNames_val_inj rows plan.nameCol _ _ i hkmem2 hkmem
    have hueq : u2 = u := active_name_unique users H2 u2 u hu2 hu ha2 ha hn2 hn hkeq
    rw [hp2, hueq]
  by_cases hmatch : jsTrim (cellOf rows i rc) = userRole u
  · have hnone : ∀ p ∈ plan.rolePatches, p.1 ≠ i := by
      intro p hp hpi
      rw [hrp] at hp
      obtain ⟨u2, hu2, rc2, hrc2, ha2, hn2, hget2, hp2, hrne2, hmis2⟩ :=
        updatedRolesOf_inv users _ rows plan.roleCol p hp
      rw [hpi] at hget2
      have hkmem2 := objGet_some_mem _ _ _ hget2
      have hkeq : normalizeName (userFullName u2) = normalizeName (userFullName u) :=
        buildExistingNames_val_inj rows plan.nameCol _ _ i hkmem2 hkmem
      have hueq : u2 = u := active_name_unique users H2 u2 u hu2 hu ha2 ha hn2 hn hkeq
      have hrc2e : rc2 = rc := by
        have h := hrc.symm.trans hrc2
        injection h with h2
        exact h2.symm
      rw [hpi, hrc2e, hueq] at hmis2
      exact hmis2 hmatch
    rw [cellOf_applyPatches_role_frame rows plan rc i hrc hscrc hnone]
    exact hmatch
  · have hmem : (i, userRole u) ∈ plan.rolePatches := by
      rw [hrp, hrc]
      exact updatedRolesOf_intro users _ rows rc u i hu ha hn hget hrole hmatch
    have hcell := cellOf_applyPatches_role rows plan rc i (userRole u) hrc hscrc hall
      (buildExistingNames_spec rows plan.nameCol _ hkmem).2.1 (Or.inl hmem)
    rw [hcell]
    exact H1 u hu

theorem status_cell_second_active (users : List StUser) (rows : List (List String))
    (plan : SyncPlan) (sc : Nat) (k : String) (i : Nat)
    (hplan : computeSync users rows = some plan) (hsc : plan.statusCol = some sc)
    (hmem : (k, i) ∈ buildExistingNames rows plan.nameCol)
    (hk : k ∈ activeNamesOf users) :
    jsToLower (jsTrim (cellOf (applyPatches rows plan) i sc)) = "active" := by
  obtain ⟨hrow, rest, hrows, hname, hrole, hstatus, hlen, hnew, hrp, hact, hinact⟩ :=
    computeSync_inv users rows plan hplan
  obtain ⟨_, _, _, _, hscF⟩ := plan_cols_distinct users rows plan hplan
  obtain ⟨_, hrcsc, _⟩ := hscF sc hsc
  rw [hsc] at hact hinact
  simp only [] at hact hinact
  have hspec := buildExistingNames_spec rows plan.nameCol _ hmem
  have hni : ∀ i2 ∈ plan.inactiveRows, i2 ≠ i := by
    intro i2 hi2 hi2e
    rw [hinact] at hi2
    obtain ⟨k2, hk2m, hk2a, _⟩ := markedInactiveOf_inv _ rows sc _ i2 hi2
    rw [hi2e] at hk2m
    have hke : k2 = k := buildExistingNames_val_inj rows plan.nameCol k2 k i hk2m hmem
    rw [hke] at hk2a
    exact hk2a hk
  by_cases hcell : jsToLower (jsTrim (cellOf rows i sc)) = "active"
  · have hna : ∀ i2 ∈ plan.activeRows, i2 ≠ i := by
      intro i2 hi2 hi2e
      rw [hact] at hi2
      obtain ⟨k2, hk2m, _, hk2c⟩ := markedActiveOf_inv _ rows sc _ i2 hi2
      rw [hi2e] at hk2c
      exact hk2c hcell
    rw [cellOf_applyPatches_status_frame rows plan sc i hsc hrcsc hna hni]
    exact hcell
  · have hmemA : i ∈ plan.activeRows := by
      rw [hact]
      exact markedActiveOf_intro _ rows sc _ k i hmem hk hcell
    rw [cellOf_applyPatches_statusActive rows plan sc i hsc hspec.2.1 hmemA hni]
    decide

theorem status_cell_second_inactive (users : List StUser) (rows : List (List String))
    (plan : SyncPlan) (sc : Nat) (k : String) (i : Nat)
    (hplan : computeSync users rows = some plan) (hsc : plan.statusCol = some sc)
    (hmem : (k, i) ∈ buildExistingNames rows plan.nameCol)
    (hk : k ∉ activeNamesOf users) :
    jsToLower (jsTrim (cellOf (applyPatches rows plan) i sc)) = "inactive" := by
  obtain ⟨hrow, rest, hrows, hname, hrole, hstatus, hlen, hnew, hrp, hact, hinact⟩ :=
    computeSync_inv users rows plan hplan
  obtain ⟨_, _, _, _, hscF⟩ := plan_cols_distinct users rows plan hplan
  obtain ⟨_, hrcsc, _⟩ := hscF sc hsc
  rw [hsc] at hact hinact
  simp only [] at hact hinact
  have hspec := buildExistingNames_spec rows plan.nameCol _ hmem
  have hna : ∀ i2 ∈ plan.activeRows, i2 ≠ i := by
    intro i2 hi2 hi2e
    rw [hact] at hi2
    obtain ⟨k2, hk2m, hk2a, _⟩ := markedActiveOf_inv _ rows sc _ i2 hi2
    rw [hi2e] at hk2m
    have hke : k2 = k := buildExistingNames_val_inj rows plan.nameCol k2 k i hk2m hmem
    rw [hke] at hk2a
    exact hk hk2a
  by_cases hcell : jsToLower (jsTrim (cellOf rows i sc)) = "inactive"
  · have hni : ∀ i2 ∈ plan.inactiveRows, i2 ≠ i := by
      intro i2 hi2 hi2e
      rw [hinact] at hi2
      obtain ⟨k2, hk2m, _, hk2c⟩ := markedInactiveOf_inv _ rows sc _ i2 hi2
      rw [hi2e] at hk2c
      exact hk2c hcell
    rw [cellOf_applyPatches_status_frame rows plan sc i hsc hrcsc hna hni]
    exact hcell
  · have hmemI : i ∈ plan.inactiveRows := by
      rw [hinact]
      exact markedInactiveOf_intro _ rows sc _ k i hmem hk hcell
    rw [cellOf_applyPatches_statusInactive rows plan sc i hsc hspec.2.1 hmemI]
    decide

theorem newRows_entry (users : List StUser) (rows : List (List String)) (plan : SyncPlan)
    (hplan : computeSync users rows = some plan) (k0 : Nat) (r : List String)
    (h : plan.newRows[k0]? = some r) :
    ∃ p ∈ newUsersOf users (buildExistingNames rows plan.nameCol),
      r = newRowFor plan.headerLen plan.nameCol plan.roleCol plan.statusCol p.1 p.2 ∧
      rowName plan.nameCol r = p.1 := by
  obtain ⟨hrow, rest, hrows, hname, hrole, hstatus, hlen, hnew, _, _, _⟩ :=
    computeSync_inv users rows plan hplan
  obtain ⟨hncLT, hrcn, hscn, _, _⟩ := plan_cols_distinct users rows plan hplan
  rw [hnew, List.getElem?_map] at h
  rcases hq : (newUsersOf users (buildExistingNames rows plan.nameCol))[k0]? with _ | p
  · rw [hq] at h
    cases h
  · rw [hq] at h
    injection h with he
    have hpm := List.getElem?_mem hq
    obtain ⟨hrn, _, _⟩ := newRow_rowName users _ plan.headerLen plan.nameCol plan.roleCol
      plan.statusCol p hncLT hrcn hscn hpm
    refine ⟨p, hpm, he.symm, ?_⟩
    rw [← he]
    exact hrn

/- ── Claim theorems: aggregation ──────────────────────────────────────── -/

/-- C2 counterexample: with two 2-minute assignments on one task, the code
stores `0` tenths of an hour (each assignment rounds to `0` before summing),
while the claimed value — the summed minutes divided by 60 and rounded to one
decimal exactly once — is `1` tenth (0.1 h).  So rounding error is accumulated
across individual assignment records, contrary to the claim. -/
theorem totalHours_rounding_cex :
    ((objGet (buildPersonJobs c2users c2jobs c2items c2jius "2026-01-01") "jo").bind
      (fun p => objGet p.jobs 1)).map (fun fj => fj.totalHoursTenths) = some 0 ∧
    natRound (((c2jius.map (fun jiu => jiu.totalLoggedMinutes)).sum) * 10) 60 = 1 := by
  decide

/-- C2 amended: the `totalHours` of every person's engagement entry equals the
sum of the per-assignment values `Math.round(loggedMinutes/60*10)/10` over all
of that person's resolvable assignments for that engagement (each assignment is
rounded to one decimal before summing; the final read-time rounding of that sum
is a no-op).  Stated in exact tenths of an hour. -/
theorem totalHours_sums_rounded_assignments (users : List StUser) (jobs : List StJob)
    (items : List StJobItem) (jius : List StJobItemUser) (today : String)
    (key : String) (jobId : Nat) (fp : FinalPerson) (fj : FinalJob)
    (hp : objGet (buildPersonJobs users jobs items jius today) key = some fp)
    (hj : objGet fp.jobs jobId = some fj) :
    fj.totalHoursTenths =
      hSum (buildUserMap users) (buildJobMap jobs) (buildJobItemMap items) key jobId jius := by
  rw [build_lookup] at hp
  rcases hP : objGet (aggStateOf users jobs items jius today).persons key with _ | p
  · rw [hP] at hp; cases hp
  · rw [hP] at hp
    injection hp with hpe
    subst hpe
    rw [show (finalizePerson (aggStateOf users jobs items jius today).store p).jobs =
        p.jobs.map (fun q => (q.1, finalizeJob (aggStateOf users jobs items jius today).store q.2))
        from rfl, objGet_map_value] at hj
    rcases hE : objGet p.jobs jobId with _ | pj
    · rw [hE] at hj; cases hj
    · rw [hE] at hj
      injection hj with hje
      subst hje
      have h1 : hoursAt (aggStateOf users jobs items jius today) key jobId =
          pj.totalHoursTenths := by
        simp [hoursAt, hP, hE]
      have h2 := aggState_hoursAt users jobs items jius today key jobId
      rw [h1] at h2
      show natRound (pj.totalHoursTenths * 10) 10 = _
      rw [natRound_tenfold, h2]

/-- C2 witness: evaluating the amended statement on the two-minute example. -/
theorem totalHours_sums_rounded_assignments_witness :
    objGet (buildPersonJobs c2users c2jobs c2items c2jius "2026-01-01") "jo" = some c2person ∧
    objGet c2person.jobs 1 = some c2job ∧
    c2job.totalHoursTenths =
      hSum (buildUserMap c2users) (buildJobMap c2jobs) (buildJobItemMap c2items) "jo" 1 c2jius :=
  ⟨by decide, by decide,
    totalHours_sums_rounded_assignments c2users c2jobs c2items c2jius "2026-01-01" "jo" 1
      c2person c2job (by decide) (by decide)⟩

/-- C4 counterexample: the identities `José` and `Jose` have equal *normalized*
names (accents stripped), yet the aggregation builds two distinct
`PersonWorkHistory` entries for them, keyed `josé` and `jose` — the engine keys
people by `fullName.toLowerCase()`, not by `normalizeName`. -/
theorem person_identity_cex :
    (buildPersonJobs c4users c4jobs [] [] "2026-01-01").map Prod.fst = ["josé", "jose"] ∧
    normalizeName "José" = normalizeName "Jose" := by decide

/-- C4 amended: in the aggregation engine a person is identified by the
lowercased (not diacritics-stripped) full name: the index has no duplicate
keys, and every identity that is listed on a job or carries a resolvable
task-level assignment gets exactly one entry under `jsToLower fullName` — so
two identities whose full names agree after lowercasing merge into one entry,
while names differing only in diacritics do not merge. -/
theorem person_identity_lowercase_key (users : List StUser) (jobs : List StJob)
    (items : List StJobItem) (jius : List StJobItemUser) (today : String) :
    ((buildPersonJobs users jobs items jius today).map Prod.fst).Nodup ∧
    (∀ uid user, objGet (buildUserMap users) uid = some user →
      ((∃ job ∈ jobs, uid ∈ job.users) ∨
        (∃ jiu ∈ jius, jiu.userId = uid ∧
          jiuKeyQual (buildUserMap users) (buildJobMap jobs) (buildJobItemMap items)
            (jsToLower user.fullName) jiu = true)) →
      ∃ p, objGet (buildPersonJobs users jobs items jius today)
        (jsToLower user.fullName) = some p) := by
  constructor
  · rw [buildPersonJobs_eq, keys_map_value]
    exact aggState_keys_nodup users jobs items jius today
  · intro uid user hu hsrc
    have hsome : (objGet (aggStateOf users jobs items jius today).persons
        (jsToLower user.fullName)).isSome := by
      rcases hsrc with ⟨job, hjm, huid⟩ | ⟨jiu, hjm, _, hq⟩
      · obtain ⟨i, hienum⟩ : ∃ i, (i, job) ∈ jobs.enum := by
          have hsnd := List.enum_map_snd jobs
          rw [← hsnd] at hjm
          obtain ⟨q, hqm, hqe⟩ := List.mem_map.mp hjm
          exact ⟨q.1, by rwa [show (q.1, job) = q from by rw [← hqe]]⟩
        unfold aggStateOf
        exact foldl_inv
          (fun s => (objGet s.persons (jsToLower user.fullName)).isSome = true)
          _ jius _ (st0_person_of_listed _ jobs i job uid user hienum huid hu)
          (fun s2 b _ hs => pass2Step_persons_mono _ _ _ _ s2 b _ hs)
      · unfold aggStateOf
        exact foldl_pass2_person_reach _ _ _ _ jius _ _ jiu hjm hq
    obtain ⟨p, hp⟩ := Option.isSome_iff_exists.mp hsome
    exact ⟨finalizePerson (aggStateOf users jobs items jius today).store p,
      by rw [build_lookup, hp]; rfl⟩

/-- C4 witness: the amended statement applied to the accented pair — the first
identity's lowercased key is `josé` and it has an entry. -/
theorem person_identity_lowercase_key_witness :
    objGet (buildUserMap c4users) 1 = some c4info ∧
    (∃ job ∈ c4jobs, 1 ∈ job.users) ∧
    (objGet (buildPersonJobs c4users c4jobs [] [] "2026-01-01") "josé").isSome := by
  refine ⟨by decide, ⟨c4job, by decide, by decide⟩, ?_⟩
  obtain ⟨p, hp⟩ := (person_identity_lowercase_key c4users c4jobs [] [] "2026-01-01").2 1
    c4info (by decide) (Or.inl ⟨c4job, by decide, by decide⟩)
  have hk : jsToLower c4info.fullName = "josé" := by decide
  rw [hk] at hp
  simp [hp]

/-- C6: a person's final `currentJobs` contains a booking labelled `L` exactly
when some resolvable assignment of that person lies in an engagement labelled
`L` (label = `number ++ " " ++ name`) whose status is `Scheduled` or `In Play`
and whose latest end date is absent or not before today — i.e. the booking
condition of line 295, modulo the per-label deduplication. -/
theorem currentBookings_iff (users : List StUser) (jobs : List StJob)
    (items : List StJobItem) (jius : List StJobItemUser) (today : String)
    (key L : String) :
    (∃ p, objGet (buildPersonJobs users jobs items jius today) key = some p ∧
      ∃ b ∈ p.currentJobs, b.jobName = L) ↔
    (∃ jiu ∈ jius, ∃ user item job,
      objGet (buildUserMap users) jiu.userId = some user ∧
      objGet (buildJobItemMap items) jiu.jobItemId = some item ∧
      objGet (buildJobMap jobs) item.jobId = some job ∧
      jsToLower user.fullName = key ∧ bookingCond today jiu = true ∧
      job.number ++ " " ++ job.name = L) := by
  constructor
  · rintro ⟨p, hp, b, hbmem, hbl⟩
    rw [build_lookup] at hp
    rcases hP : objGet (aggStateOf users jobs items jius today).persons key with _ | p0
    · rw [hP] at hp; cases hp
    · rw [hP] at hp
      injection hp with hpe
      subst hpe
      have hcj : (finalizePerson (aggStateOf users jobs items jius today).store p0).currentJobs =
          dedupBookings [] p0.currentJobs := rfl
      rw [hcj] at hbmem
      have hex : ∃ b2 ∈ dedupBookings [] p0.currentJobs, b2.jobName = L := ⟨b, hbmem, hbl⟩
      rw [dedupBookings_label_mem] at hex
      obtain ⟨⟨b2, hb2m, hb2l⟩, _⟩ := hex
      have hbk : p0.currentJobs = jius.filterMap
          (jiuBooking (buildUserMap users) (buildJobMap jobs) (buildJobItemMap items) today key) := by
        have hba := aggState_bookingsAt users jobs items jius today key
        simpa [bookingsAt, hP] using hba
      rw [hbk] at hb2m
      obtain ⟨jiu, hjm, hjb⟩ := List.mem_filterMap.mp hb2m
      rw [jiuBooking_eq_some_iff] at hjb
      obtain ⟨user, item, job, hu, hi, hj, hk, hcond, hbe⟩ := hjb
      refine ⟨jiu, hjm, user, item, job, hu, hi, hj, hk, hcond, ?_⟩
      rw [← hb2l, hbe]
      rfl
  · rintro ⟨jiu, hjm, user, item, job, hu, hi, hj, hk, hcond, hL⟩
    have hjb : jiuBooking (buildUserMap users) (buildJobMap jobs) (buildJobItemMap items)
        today key jiu = some (mkBooking job item jiu) := by
      rw [jiuBooking_eq_some_iff]
      exact ⟨user, item, job, hu, hi, hj, hk, hcond, rfl⟩
    have hq := jiuBooking_keyQual _ _ _ _ _ _ _ hjb
    have hsome : (objGet (aggStateOf users jobs items jius today).persons key).isSome := by
      unfold aggStateOf
      exact foldl_pass2_person_reach _ _ _ _ jius _ key jiu hjm hq
    obtain ⟨p0, hP⟩ := Option.isSome_iff_exists.mp hsome
    refine ⟨finalizePerson (aggStateOf users jobs items jius today).store p0,
      by rw [build_lookup, hP]; rfl, ?_⟩
    have hbk : p0.currentJobs = jius.filterMap
        (jiuBooking (buildUserMap users) (buildJobMap jobs) (buildJobItemMap items) today key) := by
      have hba := aggState_bookingsAt users jobs items jius today key
      simpa [bookingsAt, hP] using hba
    have hmem : mkBooking job item jiu ∈ p0.currentJobs := by
      rw [hbk]
      exact List.mem_filterMap.mpr ⟨jiu, hjm, hjb⟩
    have hlbl : (mkBooking job item jiu).jobName = L := hL
    obtain ⟨b, hbm, hbl⟩ :=
      (dedupBookings_label_mem p0.currentJobs L []).mpr ⟨⟨_, hmem, hlbl⟩, by simp⟩
    exact ⟨b, hbm, hbl⟩

/-- C7: the engagement-level pass hands every directly-listed person a shallow
copy `{ ...jobInfo }` whose `tasks` field is the same array object, so the task
logged by the second person also appears in the first person's task set.  At
the failing input, person `P One` has no task-level assignment at all
(`exbJius` only assigns user 2), yet their engagement entry lists the task
`Storyboard` with zero logged hours — the spec's Scenario A expects an empty
task set here. -/
theorem sharedTaskArray_eval :
    ((objGet (buildPersonJobs exbUsers exbJobs exbItems exbJius "2026-01-01") "p one").bind
      (fun p => objGet p.jobs 1)).map (fun fj => (fj.tasks, fj.totalHoursTenths)) =
      some (["Storyboard"], 0) ∧
    (∀ jiu ∈ exbJius, jiu.userId ≠ 1) := by decide

/-- C9: rebuilding the index from the same relations and the same date yields
the same output (the model is a pure function of its inputs), and the output
has no duplicate engagement ids per person, no duplicate task names within an
engagement entry, and no two current bookings with the same engagement label. -/
theorem aggregation_idempotent_nodup (users : List StUser) (jobs : List StJob)
    (items : List StJobItem) (jius : List StJobItemUser) (today : String) :
    buildPersonJobs users jobs items jius today = buildPersonJobs users jobs items jius today ∧
    ∀ q ∈ buildPersonJobs users jobs items jius today,
      (((q.2 : FinalPerson).jobs.map Prod.fst).Nodup ∧
        (∀ jq ∈ (q.2 : FinalPerson).jobs, ((jq.2 : FinalJob).tasks).Nodup) ∧
        (((q.2 : FinalPerson).currentJobs.map (fun b => b.jobName)).Nodup)) := by
  refine ⟨rfl, ?_⟩
  intro q hq
  rw [buildPersonJobs_eq] at hq
  obtain ⟨q0, hq0, rfl⟩ := List.mem_map.mp hq
  refine ⟨?_, ?_, ?_⟩
  · rw [show (finalizePerson (aggStateOf users jobs items jius today).store q0.2).jobs =
        q0.2.jobs.map (fun r => (r.1, finalizeJob (aggStateOf users jobs items jius today).store r.2))
        from rfl, keys_map_value]
    exact aggState_jobs_nodup users jobs items jius today q0 hq0
  · intro jq hjq
    rw [show (finalizePerson (aggStateOf users jobs items jius today).store q0.2).jobs =
        q0.2.jobs.map (fun r => (r.1, finalizeJob (aggStateOf users jobs items jius today).store r.2))
        from rfl] at hjq
    obtain ⟨r, _, rfl⟩ := List.mem_map.mp hjq
    exact nodup_dedupFirst _
  · exact dedupBookings_labels_nodup _ _

/-- C9 witness: the invariants evaluated on the shared-task example's first
entry. -/
theorem aggregation_idempotent_nodup_witness :
    exbEntry ∈ buildPersonJobs exbUsers exbJobs exbItems exbJius "2026-01-01" ∧
    ((exbEntry.2.jobs.map Prod.fst).Nodup ∧
      (∀ jq ∈ exbEntry.2.jobs, ((jq.2 : FinalJob).tasks).Nodup) ∧
      ((exbEntry.2.currentJobs.map (fun b => b.jobName)).Nodup)) :=
  ⟨by decide,
    (aggregation_idempotent_nodup exbUsers exbJobs exbItems exbJius "2026-01-01").2
      exbEntry (by decide)⟩

/-- C10: an assignment on a work item with an empty name contributes its hours
(and possibly a booking with empty task name) but never an element of the task
set: no final task set contains `""`, and the concrete run shows an engagement
entry with positive `totalHours` (5 tenths = 0.5 h), an empty task set, and a
current booking with empty task name, even though a task-level assignment
exists. -/
theorem emptyTaskName_counted_not_listed :
    (∀ (users : List StUser) (jobs : List StJob) (items : List StJobItem)
        (jius : List StJobItemUser) (today : String) q jq t,
      q ∈ buildPersonJobs users jobs items jius today →
      jq ∈ (q.2 : FinalPerson).jobs → t ∈ (jq.2 : FinalJob).tasks → t ≠ "") ∧
    ((((objGet (buildPersonJobs c10users c10jobs c10items c10jius "2026-01-01") "jo").bind
        (fun p => objGet p.jobs 1)).map (fun fj => (fj.totalHoursTenths, fj.tasks)) =
        some (5, [])) ∧
      ((objGet (buildPersonJobs c10users c10jobs c10items c10jius "2026-01-01") "jo").map
        (fun p => p.currentJobs.map (fun b => b.task)) = some [""]) ∧
      c10jius ≠ []) := by
  constructor
  · intro users jobs items jius today q jq t hq hjq ht
    rw [buildPersonJobs_eq] at hq
    obtain ⟨q0, hq0, rfl⟩ := List.mem_map.mp hq
    rw [show (finalizePerson (aggStateOf users jobs items jius today).store q0.2).jobs =
        q0.2.jobs.map (fun r => (r.1, finalizeJob (aggStateOf users jobs items jius today).store r.2))
        from rfl] at hjq
    obtain ⟨r, _, rfl⟩ := List.mem_map.mp hjq
    have ht2 : t ∈ ((objGet (aggStateOf users jobs items jius today).store r.2.tasks).getD []) :=
      (mem_dedupFirst _ _).mp ht
    rcases hS : objGet (aggStateOf users jobs items jius today).store r.2.tasks with _ | l
    · rw [hS] at ht2; simp at ht2
    · rw [hS] at ht2
      simp only [Option.getD_some] at ht2
      intro hte
      subst hte
      exact aggState_store_no_empty users jobs items jius today _ l hS ht2
  · exact ⟨by decide, by decide, by decide⟩

/-- C10 witness: the no-empty-task-name part applied to the shared-task run,
whose only task name is `Storyboard`. -/
theorem emptyTaskName_counted_not_listed_witness :
    exbEntry ∈ buildPersonJobs exbUsers exbJobs exbItems exbJius "2026-01-01" ∧
    exbEntryJob ∈ exbEntry.2.jobs ∧
    "Storyboard" ∈ exbEntryJob.2.tasks ∧
    "Storyboard" ≠ "" :=
  ⟨by decide, by decide, by decide,
    emptyTaskName_counted_not_listed.1 exbUsers exbJobs exbItems exbJius "2026-01-01"
      exbEntry exbEntryJob "Storyboard" (by decide) (by decide) (by decide)⟩

/- ── Claim theorems: reconciliation ───────────────────────────────────── -/

/-- C3 counterexample: against a sheet with two stale roles the engine queues
two single-cell role patches; under an executor on which the first patch
throws, `runWrites` performs nothing at all — the second queued write, which
would have succeeded, is never attempted, because the whole write sequence
sits inside one `try`/`catch` (lines 404, 573-575). -/
theorem write_failure_aborts_cex :
    (computeSync [uC3a, uC3b] rowsC3).map writesOf =
      some [WriteOp.patch 1 1 "CD", WriteOp.patch 2 1 "AD"] ∧
    c3fail (WriteOp.patch 1 1 "CD") = false ∧
    c3fail (WriteOp.patch 2 1 "AD") = true ∧
    runWrites c3fail [WriteOp.patch 1 1 "CD", WriteOp.patch 2 1 "AD"] = [] := by
  decide

/-- C3 amended: the writes actually performed are exactly the queued writes
preceding the first failing one; every write after the first failure —
whatever plan the reconciliation computed — is abandoned rather than retried
or continued. -/
theorem writes_stop_at_first_failure (users : List StUser) (rows : List (List String))
    (plan : SyncPlan) (ok : WriteOp → Bool) (pre : List WriteOp) (w : WriteOp)
    (post : List WriteOp) (hplan : computeSync users rows = some plan)
    (hq : writesOf plan = pre ++ w :: post) (hpre : ∀ x ∈ pre, ok x = true)
    (hw : ok w = false) :
    runWrites ok (writesOf plan) = pre := by
  rw [hq]
  exact runWrites_prefix ok pre w post hpre hw

/-- C3 witness: the two-patch queue with the first patch failing performs
nothing. -/
theorem writes_stop_at_first_failure_witness :
    computeSync [uC3a, uC3b] rowsC3 = some c3plan ∧
    writesOf c3plan = [] ++ WriteOp.patch 1 1 "CD" :: [WriteOp.patch 2 1 "AD"] ∧
    c3fail (WriteOp.patch 1 1 "CD") = false ∧
    runWrites c3fail (writesOf c3plan) = [] :=
  ⟨by decide, by decide, by decide,
    writes_stop_at_first_failure [uC3a, uC3b] rowsC3 c3plan c3fail []
      (WriteOp.patch 1 1 "CD") [WriteOp.patch 2 1 "AD"] (by decide) (by decide)
      (by decide) (by decide)⟩

/-- C8: every patch the reconciliation queues targets the Role or Status
column of one existing data row (never the header), and a single-cell patch
changes no other cell of any snapshot; every appended row is blank outside
the Name, Role and Status columns. -/
theorem sync_writes_frame (users : List StUser) (rows : List (List String))
    (plan : SyncPlan) (hplan : computeSync users rows = some plan) :
    (∀ i c v, WriteOp.patch i c v ∈ writesOf plan →
      (plan.roleCol = some c ∨ plan.statusCol = some c) ∧ 1 ≤ i ∧ i < rows.length ∧
      ∀ (rs : List (List String)) (i2 j2 : Nat), ¬(i2 = i ∧ j2 = c) →
        cellOf (setCell rs i c v) i2 j2 = cellOf rs i2 j2) ∧
    (∀ r ∈ plan.newRows, ∀ j, j ≠ plan.nameCol → plan.roleCol ≠ some j →
      plan.statusCol ≠ some j → r[j]?.getD "" = "") := by
  obtain ⟨hrow, rest, hrows, hname, hrole, hstatus, hlen, hnew, hrp, hact, hinact⟩ :=
    computeSync_inv users rows plan hplan
  constructor
  · intro i c v hmem
    have hframe : ∀ (rs : List (List String)) (i2 j2 : Nat), ¬(i2 = i ∧ j2 = c) →
        cellOf (setCell rs i c v) i2 j2 = cellOf rs i2 j2 :=
      fun rs i2 j2 hne => cellOf_setCell_ne rs i c i2 j2 v hne
    unfold writesOf at hmem
    rcases List.mem_append.mp hmem with hm1 | hm2
    · rcases List.mem_append.mp hm1 with hma | hmb
      · by_cases hnil : plan.newRows = []
        · rw [if_pos hnil] at hma
          cases hma
        · rw [if_neg hnil] at hma
          exact absurd (List.mem_singleton.mp hma) (by simp)
      · rcases hrc : plan.roleCol with _ | rc
        · rw [hrc] at hmb
          simp only [] at hmb
          cases hmb
        · rw [hrc] at hmb
          simp only [] at hmb
          obtain ⟨p, hp, he⟩ := List.mem_map.mp hmb
          injection he with he1 he2 he3
          rw [hrp] at hp
          obtain ⟨u, _, rc2, _, _, _, hget, _, _, _⟩ :=
            updatedRolesOf_inv users _ rows plan.roleCol p hp
          have hpmem := objGet_some_mem _ _ _ hget
          have hspec := buildExistingNames_spec rows plan.nameCol _ hpmem
          rw [← he1]
          exact ⟨Or.inl (by rw [he2]), hspec.1, hspec.2.1,
            by rw [he1]; exact hframe⟩
    · rcases hsc : plan.statusCol with _ | sc
      · rw [hsc] at hm2
        simp only [] at hm2
        cases hm2
      · rw [hsc] at hm2
        simp only [] at hm2
        rw [hsc] at hact hinact
        simp only [] at hact hinact
        rcases List.mem_append.mp hm2 with hma | hmi
        · obtain ⟨i2, hi2, he⟩ := List.mem_map.mp hma
          injection he with he1 he2 he3
          rw [hact] at hi2
          obtain ⟨k, hke, _, _⟩ := markedActiveOf_inv _ rows sc _ i2 hi2
          have hspec := buildExistingNames_spec rows plan.nameCol _ hke
          rw [← he1]
          exact ⟨Or.inr (by rw [he2]), hspec.1, hspec.2.1,
            by rw [he1]; exact hframe⟩
        · obtain ⟨i2, hi2, he⟩ := List.mem_map.mp hmi
          injection he with he1 he2 he3
          rw [hinact] at hi2
          obtain ⟨k, hke, _, _⟩ := markedInactiveOf_inv _ rows sc _ i2 hi2
          have hspec := buildExistingNames_spec rows plan.nameCol _ hke
          rw [← he1]
          exact ⟨Or.inr (by rw [he2]), hspec.1, hspec.2.1,
            by rw [he1]; exact hframe⟩
  · intro r hmemr j hn hr2 hs2
    rw [hnew] at hmemr
    obtain ⟨p, _, he⟩ := List.mem_map.mp hmemr
    rw [← he]
    exact getD_newRowFor_blank plan.headerLen plan.nameCol plan.roleCol plan.statusCol
      p.1 p.2 j hn hr2 hs2

/-- C8 witness: the frame property evaluated at the two-role-patch plan. -/
theorem sync_writes_frame_witness :
    computeSync [uC3a, uC3b] rowsC3 = some c3plan ∧
    ((∀ i c v, WriteOp.patch i c v ∈ writesOf c3plan →
      (c3plan.roleCol = some c ∨ c3plan.statusCol = some c) ∧ 1 ≤ i ∧
        i < rowsC3.length ∧
      ∀ (rs : List (List String)) (i2 j2 : Nat), ¬(i2 = i ∧ j2 = c) →
        cellOf (setCell rs i c v) i2 j2 = cellOf rs i2 j2) ∧
    (∀ r ∈ c3plan.newRows, ∀ j, j ≠ c3plan.nameCol → c3plan.roleCol ≠ some j →
      c3plan.statusCol ≠ some j → r[j]?.getD "" = "")) :=
  ⟨by decide, sync_writes_frame [uC3a, uC3b] rowsC3 c3plan (by decide)⟩

/-- C1 counterexample: the directory role `" X "` is not trim-invariant.  The
stored cell always trims to `"X"` on comparison, so after the first run writes
`" X "` into the Role cell, the second run — same directory snapshot, no
concurrent edit — queues the very same role patch again: the second run's
write queue is not empty, refuting idempotence. -/
theorem sync_idempotence_cex :
    (computeSync [uR] rowsR).map writesOf = some [WriteOp.patch 1 1 " X "] ∧
    ((computeSync [uR] rowsR).bind (fun p =>
      (computeSync [uR] (applyPlan rowsR p)).map writesOf)) =
      some [WriteOp.patch 1 1 " X "] := by
  decide

/-- C1 amended: when every user's role string is trim-invariant and no two
active users share a normalized name, re-running the reconciliation against
the same snapshot right after applying the first run's plan computes a plan
with zero writes. -/
theorem sync_second_run_no_writes (users : List StUser) (rows : List (List String))
    (plan : SyncPlan) (hplan : computeSync users rows = some plan)
    (H1 : ∀ u ∈ users, jsTrim (userRole u) = userRole u)
    (H2 : (activeNamesOf users).Nodup) :
    ∃ plan2, computeSync users (applyPlan rows plan) = some plan2 ∧
      writesOf plan2 = [] := by
  obtain ⟨hrow, rest, hrows, hname, hrole, hstatus, hlen, hnew, hrp, hact, hinact⟩ :=
    computeSync_inv users rows plan hplan
  obtain ⟨hBrp, hBac, hBin⟩ := plan_targets_bounds users rows plan hplan
  obtain ⟨hncLT, hrcn, hscn, hrcF, hscF⟩ := plan_cols_distinct users rows plan hplan
  have hape : applyPlan rows plan = applyPatches rows plan ++ plan.newRows :=
    applyPlan_eq_patches_append rows plan (fun p hp => (hBrp p hp).2)
      (fun i hi => (hBac i hi).2) (fun i hi => (hBin i hi).2)
  have hPlen : (applyPatches rows plan).length = rows.length :=
    applyPatches_length rows plan
  have hPhead : (applyPatches rows plan).head? = some hrow := by
    rw [applyPatches_head rows plan (fun p hp => (hBrp p hp).1)
      (fun i hi => (hBac i hi).1) (fun i hi => (hBin i hi).1), hrows]
    rfl
  obtain ⟨Ptail, hPtail⟩ : ∃ t, applyPatches rows plan = hrow :: t := by
    rcases hP : applyPatches rows plan with _ | ⟨r0, t⟩
    · rw [hP] at hPhead
      cases hPhead
    · rw [hP] at hPhead
      injection hPhead with hh
      exact ⟨t, by rw [hh]⟩
  have hrows2 : applyPlan rows plan = hrow :: (Ptail ++ plan.newRows) := by
    rw [hape, hPtail]
    rfl
  obtain ⟨plan2, hplan2⟩ : ∃ p2, computeSync users (applyPlan rows plan) = some p2 := by
    rw [hrows2]
    simp only [computeSync]
    rw [hname]
    exact ⟨_, rfl⟩
  refine ⟨plan2, hplan2, ?_⟩
  obtain ⟨hrow2, rest2, hrows2b, hname2, hrole2, hstatus2, hlen2, hnew2, hrp2, hact2,
    hinact2⟩ := computeSync_inv users (applyPlan rows plan) plan2 hplan2
  have hrowEq : hrow2 = hrow := by
    rw [hrows2] at hrows2b
    injection hrows2b with h1 h2
    exact h1.symm
  rw [hrowEq] at hname2 hrole2 hstatus2 hlen2
  have hnc2 : plan2.nameCol = plan.nameCol := by
    have h := hname.symm.trans hname2
    injection h with h2
    exact h2.symm
  have hrc2 : plan2.roleCol = plan.roleCol := hrole2.trans hrole.symm
  have hsc2 : plan2.statusCol = plan.statusCol := hstatus2.trans hstatus.symm
  have hcellApp : ∀ (k0 : Nat) (r : List String), plan.newRows[k0]? = some r → ∀ j,
      cellOf (applyPlan rows plan) (rows.length + k0) j = r[j]?.getD "" := by
    intro k0 r hk0 j
    rw [hape]
    have hcar := cellOf_append_right (applyPatches rows plan) plan.newRows k0 j
    rw [hPlen] at hcar
    rw [hcar, hk0]
    rfl
  have hcellOrig : ∀ i j, i < rows.length →
      cellOf (applyPlan rows plan) i j = cellOf (applyPatches rows plan) i j := by
    intro i j hi
    rw [hape]
    exact cellOf_append_left _ _ i j (by rw [hPlen]; exact hi)
  have hKeySome : ∀ u ∈ users, activeUserB u = true → userFullName u ≠ "" →
      ∃ i2, objGet (buildExistingNames (applyPlan rows plan) plan.nameCol)
        (normalizeName (userFullName u)) = some i2 ∧
        ((objGet (buildExistingNames rows plan.nameCol)
            (normalizeName (userFullName u)) = some i2) ∨
         (∃ k0, i2 = rows.length + k0 ∧
            plan.newRows[k0]? = some (newRowFor plan.headerLen plan.nameCol plan.roleCol
              plan.statusCol (userFullName u) (userRole u)))) := by
    intro u hu ha hn
    rcases hold : objGet (buildExistingNames rows plan.nameCol)
        (normalizeName (userFullName u)) with _ | i
    · obtain ⟨k0, hk0row, hk0get⟩ := new_user_second users rows plan hplan H2 u hu ha hn hold
      exact ⟨rows.length + k0, hk0get, Or.inr ⟨k0, rfl, hk0row⟩⟩
    · exact ⟨i, old_user_second users rows plan hplan _ i hold, Or.inl rfl⟩
  have hNU2 : newUsersOf users
      (buildExistingNames (applyPlan rows plan) plan2.nameCol) = [] := by
    rw [hnc2]
    refine List.filterMap_eq_nil_iff.mpr ?_
    intro u hu
    simp only []
    by_cases h1 : userFullName u = ""
    · rw [if_pos h1]
    · rw [if_neg h1]
      by_cases h2 : activeUserB u = true
      · rw [if_neg (by simp [h2])]
        obtain ⟨i2, hget2, _⟩ := hKeySome u hu h2 h1
        rw [hget2, if_pos (show (some i2).isSome = true from rfl)]
      · rw [if_pos (by
          have h2f : activeUserB u = false := by revert h2; cases activeUserB u <;> simp
          simp [h2f])]
  have hRP2 : updatedRolesOf users
      (buildExistingNames (applyPlan rows plan) plan2.nameCol) (applyPlan rows plan)
      plan2.roleCol = [] := by
    rw [hnc2, hrc2]
    rcases hrcE : plan.roleCol with _ | rc
    · exact updatedRolesOf_none users _ _
    · refine List.filterMap_eq_nil_iff.mpr ?_
      intro u hu
      simp only []
      by_cases h1 : userFullName u = ""
      · rw [if_pos h1]
      · rw [if_neg h1]
        by_cases h2 : activeUserB u = true
        · rw [if_neg (by simp [h2])]
          obtain ⟨i2, hget2, hsrc⟩ := hKeySome u hu h2 h1
          rw [hget2]
          simp only []
          by_cases h3 : userRole u = ""
          · rw [if_pos h3]
          · rw [if_neg h3]
            have hcell : jsTrim (cellOf (applyPlan rows plan) i2 rc) = userRole u := by
              rcases hsrc with hold | ⟨k0, hi2e, hk0row⟩
              · have hlt : i2 < rows.length := by
                  have hm := objGet_some_mem _ _ _ hold
                  exact (buildExistingNames_spec rows plan.nameCol _ hm).2.1
                rw [hcellOrig i2 rc hlt]
                exact role_cell_second users rows plan rc u i2 hplan H1 H2 hrcE hu h2
                  h1 hold h3
              · rw [hi2e, hcellApp k0 _ hk0row rc, hrcE]
                obtain ⟨hrcLT, hscrc, _⟩ := hrcF rc hrcE
                rw [getD_newRowFor_role plan.headerLen plan.nameCol rc plan.statusCol
                  (userFullName u) (userRole u) hrcLT hscrc]
                exact H1 u hu
            rw [if_pos hcell]
        · rw [if_pos (by
            have h2f : activeUserB u = false := by revert h2; cases activeUserB u <;> simp
            simp [h2f])]
  have hMA2 : ∀ sc, plan2.statusCol = some sc →
      markedActiveOf (buildExistingNames (applyPlan rows plan) plan2.nameCol)
        (applyPlan rows plan) sc (activeNamesOf users) = [] := by
    intro sc hscE
    have hsc : plan.statusCol = some sc := hsc2.symm.trans hscE
    rw [hnc2]
    refine List.filterMap_eq_nil_iff.mpr ?_
    intro e he
    rw [second_existing users rows plan hplan] at he
    rcases namesFold_mem plan.nameCol plan.newRows e rows.length _ he with hm |
      ⟨k0, r, hk0, hrne, he1, he2⟩
    · by_cases hk : e.1 ∈ activeNamesOf users
      · rw [if_pos hk]
        have hmem : (e.1, e.2) ∈ buildExistingNames rows plan.nameCol := hm
        have hlt : e.2 < rows.length :=
          (buildExistingNames_spec rows plan.nameCol _ hmem).2.1
        have hcell := status_cell_second_active users rows plan sc e.1 e.2 hplan hsc
          hmem hk
        rw [hcellOrig e.2 sc hlt, if_pos hcell]
      · rw [if_neg hk]
    · obtain ⟨p1, hp1m, hre, hrn1⟩ := newRows_entry users rows plan hplan k0 r hk0
      obtain ⟨u1, hu1, ha1, hn1, _, hpe⟩ := newUsersOf_inv users _ p1 hp1m
      have hkact : e.1 ∈ activeNamesOf users := by
        rw [he1, hrn1, hpe]
        exact activeNamesOf_intro users u1 hu1 ha1 hn1
      rw [if_pos hkact]
      obtain ⟨hscLT, hrcsc, _⟩ := hscF sc hsc
      have hcellA : cellOf (applyPlan rows plan) e.2 sc = "Active" := by
        rw [he2, hcellApp k0 r hk0, hre, hsc]
        exact getD_newRowFor_status plan.headerLen plan.nameCol plan.roleCol sc
          p1.1 p1.2 hscLT
      rw [hcellA, if_pos (by decide)]
  have hMI2 : ∀ sc, plan2.statusCol = some sc →
      markedInactiveOf (buildExistingNames (applyPlan rows plan) plan2.nameCol)
        (applyPlan rows plan) sc (activeNamesOf users) = [] := by
    intro sc hscE
    have hsc : plan.statusCol = some sc := hsc2.symm.trans hscE
    rw [hnc2]
    refine List.filterMap_eq_nil_iff.mpr ?_
    intro e he
    rw [second_existing users rows plan hplan] at he
    rcases namesFold_mem plan.nameCol plan.newRows e rows.length _ he with hm |
      ⟨k0, r, hk0, hrne, he1, he2⟩
    · by_cases hk : e.1 ∈ activeNamesOf users
      · rw [if_pos hk]
      · rw [if_neg hk]
        have hmem : (e.1, e.2) ∈ buildExistingNames rows plan.nameCol := hm
        have hlt : e.2 < rows.length :=
          (buildExistingNames_spec rows plan.nameCol _ hmem).2.1
        have hcell := status_cell_second_inactive users rows plan sc e.1 e.2 hplan hsc
          hmem hk
        rw [hcellOrig e.2 sc hlt, if_pos hcell]
    · obtain ⟨p1, hp1m, hre, hrn1⟩ := newRows_entry users rows plan hplan k0 r hk0
      obtain ⟨u1, hu1, ha1, hn1, _, hpe⟩ := newUsersOf_inv users _ p1 hp1m
      have hkact : e.1 ∈ activeNamesOf users := by
        rw [he1, hrn1, hpe]
        exact activeNamesOf_intro users u1 hu1 ha1 hn1
      rw [if_pos hkact]
  have hnew2e : plan2.newRows = [] := by
    rw [hnew2, hNU2]
    rfl
  have hrp2e : plan2.rolePatches = [] := by
    rw [hrp2]
    exact hRP2
  have hact2e : plan2.activeRows = [] := by
    rw [hact2]
    rcases hscE : plan2.statusCol with _ | sc
    · rfl
    · exact hMA2 sc hscE
  have hinact2e : plan2.inactiveRows = [] := by
    rw [hinact2]
    rcases hscE : plan2.statusCol with _ | sc
    · rfl
    · exact hMI2 sc hscE
  unfold writesOf
  rw [hnew2e, hrp2e, hact2e, hinact2e]
  rcases plan2.roleCol with _ | rc <;> rcases plan2.statusCol with _ | sc <;> simp

/-- C1 witness: the amended idempotence applied to the clean two-user sheet —
after applying the first run's two role patches, the second run computes a
plan with an empty write queue. -/
theorem sync_second_run_no_writes_witness :
    computeSync [uC3a, uC3b] rowsC3 = some c3plan ∧
    (∀ u ∈ [uC3a, uC3b], jsTrim (userRole u) = userRole u) ∧
    (activeNamesOf [uC3a, uC3b]).Nodup ∧
    ∃ plan2, computeSync [uC3a, uC3b] (applyPlan rowsC3 c3plan) = some plan2 ∧
      writesOf plan2 = [] :=
  ⟨by decide, by decide, by decide,
    sync_second_run_no_writes [uC3a, uC3b] rowsC3 c3plan (by decide) (by decide)
      (by decide)⟩

end Slik
